import Mathlib

/-!
WT1230A: semi-analytical pressure-transient solver (`modelwidget01-06.cpp`).

A shallow embedding of the numerical core of `ModelWidget01_06`:
`calculateTheoreticalCurve`, `calculatePDandDeriv`, `flaplace_composite`,
`PWD_composite`, `scaled_besseli`, `gauss15`, `adaptiveGauss`,
`stefestCoefficient` and `factorial`.

Modelling conventions.

* A C++ `double` is an element of an arbitrary linearly ordered field `F`
  (exact arithmetic: no rounding, no overflow).  Every theorem on `F` holds for
  `ℝ` and for `ℚ`; the concrete evaluations are done in `ℚ`.
* Where rounding decides a property (the fracture positions `xwD`), the code is
  also embedded in `double` arithmetic: `roundDouble` rounds the exact result of
  every operation to the nearest binary64 number, ties to even.
* A `double` that may be NaN or an infinity when it is tested with
  `std::isnan` / `std::isinf` is an `Option F`, `none` standing for any
  non-finite value.
* Library code that is not part of the repository (libm, Boost Bessel
  functions, the Eigen linear solver, the Bourdet derivative routine) is a
  field of the structure `Ext`; every theorem is stated for an arbitrary `Ext`.
  The exceptions that `boost::math::cyl_bessel_k` throws are described by a
  `BesselPolicy` and followed through the code in the definitions named
  `_checked`.
* A C++ `int` is an `Int`; `/` and `%` on `int` are `Int.tdiv` and `Int.tmod`
  (truncation towards zero).
* `QMap<QString, double>` is a finite lookup `String → Option F`;
  `QVector<double>` is a `List F`; an out-of-range `operator[]` is `none`.
-/

namespace WT1230A

/-- The enum `ModelWidget01_06::ModelType`. -/
inductive ModelType where
  | Model_1
  | Model_2
  | Model_3
  | Model_4
  | Model_5
  | Model_6
  deriving DecidableEq, Repr

/-- External numerical routines used by the solver (libm, Boost, Eigen and the
Bourdet derivative collaborator). -/
structure Ext (F : Type) where
  /-- The function `log` of libm. -/
  log : F → F
  /-- The function `log10` of libm. -/
  log10 : F → F
  /-- The function `std::exp`. -/
  exp : F → F
  /-- The functions `sqrt` and `std::sqrt`. -/
  sqrt : F → F
  /-- The function `pow(x, y)` at an exponent `y` that is not an integer. -/
  rpow : F → F → F
  /-- The function `boost::math::cyl_bessel_k(v, x)`. -/
  cyl_bessel_k : Int → F → F
  /-- The function `boost::math::cyl_bessel_i(v, x)`. -/
  cyl_bessel_i : Int → F → F
  /-- The call `A.fullPivLu().solve(b)` of Eigen on an `n × n` system. -/
  solve : (n : Nat) → Matrix (Fin n) (Fin n) F → (Fin n → F) → Fin n → F
  /-- The call `PressureDerivativeCalculator::calculateBourdetDerivative(t, p, w)`. -/
  calculateBourdetDerivative : List F → List F → F → List F

section Model

variable {F : Type} [LinearOrderedField F] [FloorRing F]

/-- A `QMap<QString, double>`. -/
abbrev Params (F : Type) := String → Option F

/-- The call `params.value(key, dflt)`; `params.value(key)` is `value params key 0`. -/
def value (params : Params F) (key : String) (dflt : F) : F :=
  (params key).getD dflt

/-- The assignment `params[key] = v`. -/
def setValue (params : Params F) (key : String) (v : F) : Params F :=
  fun k => if k = key then some v else params k

/-- The conversion `(int)x` of a `double`: truncation towards zero. -/
def toInt (x : F) : Int :=
  if 0 ≤ x then ⌊x⌋ else ⌈x⌉

/-- The call `pow(x, y)`: exact at an integer exponent, external otherwise. -/
def std_pow (E : Ext F) (x y : F) : F :=
  if ((⌊y⌋ : Int) : F) = y then x ^ (⌊y⌋ : Int) else E.rpow x y

/-- The successive values of the counter of `for (int k = lo; k <= hi; ++k)`. -/
def intLoop (lo hi : Int) : List Int :=
  (List.range (hi + 1 - lo).toNat).map (fun (j : Nat) => lo + (j : Int))

/-- The function `ModelWidget01_06::factorial`. -/
def factorial (n : Int) : F :=
  if n ≤ 1 then 1
  else (intLoop 2 n).foldl (fun (r : F) (i : Int) => r * (i : F)) 1

/-- The function `ModelWidget01_06::stefestCoefficient`. -/
def stefestCoefficient (E : Ext F) (i N : Int) : F :=
  let k1 := (i + 1).tdiv 2
  let k2 := min i (N.tdiv 2)
  let s := (intLoop k1 k2).foldl (fun (s : F) (k : Int) =>
    let num : F := std_pow E (k : F) ((N : F) / 2) * factorial (2 * k)
    let den : F := factorial (N.tdiv 2 - k) * factorial k * factorial (k - 1)
      * factorial (i - k) * factorial (2 * k - i)
    if den ≠ 0 then s + num / den else s) 0
  (if (i + N.tdiv 2).tmod 2 = 0 then 1 else -1) * s

/-- The constant `M_PI`. -/
def M_PI : F := 3.14159265358979323846

/-- The function `ModelWidget01_06::scaled_besseli`. -/
def scaled_besseli (E : Ext F) (v : Int) (x : F) : F :=
  let x := if x < 0 then -x else x
  if x > 600 then 1 / E.sqrt (2 * M_PI * x)
  else E.cyl_bessel_i v x * E.exp (-x)

/-- The table `X` of `gauss15`. -/
def gaussX : List F :=
  [0.0, 0.201194, 0.394151, 0.570972, 0.724418, 0.848207, 0.937299, 0.987993]

/-- The table `W` of `gauss15`. -/
def gaussW : List F :=
  [0.202578, 0.198431, 0.186161, 0.166269, 0.139571, 0.107159, 0.070366, 0.030753]

/-- The function `ModelWidget01_06::gauss15`. -/
def gauss15 (f : F → F) (a b : F) : F :=
  let h := 0.5 * (b - a)
  let c := 0.5 * (a + b)
  let s := (intLoop 1 7).foldl (fun (s : F) (i : Int) =>
    let dx := h * gaussX.getD i.toNat 0
    s + gaussW.getD i.toNat 0 * (f (c - dx) + f (c + dx))) (gaussW.getD 0 0 * f c)
  s * h

/-- The function `ModelWidget01_06::adaptiveGauss`. -/
def adaptiveGauss (f : F → F) (a b eps : F) (depth maxDepth : Int) : F :=
  let c := (a + b) / 2
  let v1 := gauss15 f a b
  let v2 := gauss15 f a c + gauss15 f c b
  if depth ≥ maxDepth ∨ |v1 - v2| < 1e-10 * |v2| + eps then v2
  else
    adaptiveGauss f a c (eps / 2) (depth + 1) maxDepth
      + adaptiveGauss f c b (eps / 2) (depth + 1) maxDepth
termination_by (maxDepth - depth).toNat
decreasing_by
  all_goals simp_wf
  all_goals omega

/-- The test `type == Model_1 || type == Model_2` of `PWD_composite`. -/
def isInfinite (type : ModelType) : Bool :=
  type = ModelType.Model_1 || type = ModelType.Model_2

/-- The test `type == Model_3 || type == Model_4` of `PWD_composite`. -/
def isClosed (type : ModelType) : Bool :=
  type = ModelType.Model_3 || type = ModelType.Model_4

/-- The test `type == Model_5 || type == Model_6` of `PWD_composite`. -/
def isConstP (type : ModelType) : Bool :=
  type = ModelType.Model_5 || type = ModelType.Model_6

/-- The local `term_mAB_i0` of `PWD_composite` (the boundary term `mAB * I0(gama2 * rmD)`),
as a function of the locals `gama2`, `rmD`, `reD` and of the variant. -/
def term_mAB_i0 (E : Ext F) (type : ModelType) (gama2 rmD reD : F) : F :=
  let arg_g2_rm := gama2 * rmD
  if !isInfinite type then
    let arg_re := gama2 * reD
    let i1_re_s := scaled_besseli E 1 arg_re
    let i0_re_s := scaled_besseli E 0 arg_re
    let k1_re := E.cyl_bessel_k 1 arg_re
    let k0_re := E.cyl_bessel_k 0 arg_re
    let i0_g2_s := scaled_besseli E 0 arg_g2_rm
    if isClosed type then
      if i1_re_s > 1e-100 then (k1_re / i1_re_s) * i0_g2_s * E.exp (arg_g2_rm - arg_re)
      else 0
    else if isConstP type then
      if i0_re_s > 1e-100 then -(k0_re / i0_re_s) * i0_g2_s * E.exp (arg_g2_rm - arg_re)
      else 0
    else 0
  else 0

/-- The local `term_mAB_i1` of `PWD_composite` (the boundary term `mAB * I1(gama2 * rmD)`),
as a function of the locals `gama2`, `rmD`, `reD` and of the variant. -/
def term_mAB_i1 (E : Ext F) (type : ModelType) (gama2 rmD reD : F) : F :=
  let arg_g2_rm := gama2 * rmD
  if !isInfinite type then
    let arg_re := gama2 * reD
    let i1_re_s := scaled_besseli E 1 arg_re
    let i0_re_s := scaled_besseli E 0 arg_re
    let k1_re := E.cyl_bessel_k 1 arg_re
    let k0_re := E.cyl_bessel_k 0 arg_re
    let i1_g2_s := scaled_besseli E 1 arg_g2_rm
    if isClosed type then
      if i1_re_s > 1e-100 then (k1_re / i1_re_s) * i1_g2_s * E.exp (arg_g2_rm - arg_re)
      else 0
    else if isConstP type then
      if i0_re_s > 1e-100 then -(k0_re / i0_re_s) * i1_g2_s * E.exp (arg_g2_rm - arg_re)
      else 0
    else 0
  else 0

/-- The local `term1` of `PWD_composite`, the kernel term `T0 = mAB*I0 + K0`. -/
def term1 (E : Ext F) (type : ModelType) (gama2 rmD reD : F) : F :=
  term_mAB_i0 E type gama2 rmD reD + E.cyl_bessel_k 0 (gama2 * rmD)

/-- The local `term2` of `PWD_composite`, the kernel term `T1 = mAB*I1 - K1`. -/
def term2 (E : Ext F) (type : ModelType) (gama2 rmD reD : F) : F :=
  term_mAB_i1 E type gama2 rmD reD - E.cyl_bessel_k 1 (gama2 * rmD)

/-- The local `Acup` of `PWD_composite`. -/
def Acup (E : Ext F) (type : ModelType) (M12 gama1 gama2 rmD reD : F) : F :=
  M12 * gama1 * E.cyl_bessel_k 1 (gama1 * rmD) * term1 E type gama2 rmD reD
    + gama2 * E.cyl_bessel_k 0 (gama1 * rmD) * term2 E type gama2 rmD reD

/-- The local `Acdown_scaled` of `PWD_composite`, after the floor at `1e-100`. -/
def Acdown_scaled (E : Ext F) (type : ModelType) (M12 gama1 gama2 rmD reD : F) : F :=
  let i1_g1_s := scaled_besseli E 1 (gama1 * rmD)
  let i0_g1_s := scaled_besseli E 0 (gama1 * rmD)
  let Acdown_scaled := M12 * gama1 * i1_g1_s * term1 E type gama2 rmD reD
    - gama2 * i0_g1_s * term2 E type gama2 rmD reD
  if |Acdown_scaled| < 1e-100 then 1e-100 else Acdown_scaled

/-- The local `Ac_prefactor` of `PWD_composite`. -/
def Ac_prefactor (E : Ext F) (type : ModelType) (M12 gama1 gama2 rmD reD : F) : F :=
  Acup E type M12 gama1 gama2 rmD reD / Acdown_scaled E type M12 gama1 gama2 rmD reD

/-- The lambda `integrand` of `PWD_composite` for the matrix entry `(i, j)`. -/
def integrand (E : Ext F) (gama1 arg_g1_rm Ac_prefactor : F) (xwD ywD : List F)
    (i j : Nat) (a : F) : F :=
  let dist := E.sqrt (std_pow E (xwD.getD i 0 - xwD.getD j 0 - a) 2
    + std_pow E (ywD.getD i 0 - ywD.getD j 0) 2)
  let arg_dist := gama1 * dist
  let arg_dist := if arg_dist < 1e-10 then 1e-10 else arg_dist
  let exponent := arg_dist - arg_g1_rm
  let term2 := if exponent > -700 then
      Ac_prefactor * scaled_besseli E 0 arg_dist * E.exp exponent
    else 0
  E.cyl_bessel_k 0 arg_dist + term2

/-- The matrix `A_mat` of `PWD_composite` once all its entries are assigned. -/
def A_mat (E : Ext F) (z M12 LfD gama1 arg_g1_rm Ac_prefactor : F) (nf : Nat)
    (xwD ywD : List F) : Matrix (Fin (nf + 1)) (Fin (nf + 1)) F :=
  fun i j =>
    if i.val < nf ∧ j.val < nf then
      let val := adaptiveGauss (integrand E gama1 arg_g1_rm Ac_prefactor xwD ywD i.val j.val)
        (-LfD) LfD 1e-5 0 10
      z * val / (M12 * z * 2 * LfD)
    else if i.val < nf then -1
    else if j.val < nf then z
    else 0

/-- The vector `b_vec` of `PWD_composite`. -/
def b_vec (nf : Nat) : Fin (nf + 1) → F :=
  fun i => if i.val = nf then 1 else 0

/-- The function `ModelWidget01_06::PWD_composite`; the fracture count `nf` it
receives from `flaplace_composite` is at least 1, and is a `Nat` here. -/
def PWD_composite (E : Ext F) (z fs1 fs2 M12 LfD rmD reD : F) (nf : Nat) (xwD : List F)
    (type : ModelType) : F :=
  let ywD : List F := List.replicate nf 0
  let gama1 := E.sqrt (z * fs1)
  let gama2 := E.sqrt (z * fs2)
  let arg_g1_rm := gama1 * rmD
  let Ac_prefactor := Ac_prefactor E type M12 gama1 gama2 rmD reD
  E.solve (nf + 1) (A_mat E z M12 LfD gama1 arg_g1_rm Ac_prefactor nf xwD ywD) (b_vec nf)
    (Fin.last nf)

/-- The local `nf` of `flaplace_composite`: `(int)p.value("nf", 4)` clamped to at least 1. -/
def nfOf (p : Params F) : Int :=
  let nf := toInt (value p "nf" 4)
  if nf < 1 then 1 else nf

/-- The local `xwD` of `flaplace_composite`, built from the clamped count `nf`, in exact
arithmetic; `xwD_double` is the same code with every `double` operation rounded. -/
def xwD (nf : Int) : List F :=
  if nf = 1 then [0.0]
  else
    let start : F := -0.9
    let stop : F := 0.9
    let step : F := (stop - start) / ((nf - 1 : Int) : F)
    (intLoop 0 (nf - 1)).map (fun (i : Int) => start + (i : F) * step)

/-- The local `pf` of `flaplace_composite` right after the call of `PWD_composite`,
before wellbore storage and skin are applied. -/
def bare_pf (E : Ext F) (m_type : ModelType) (z : F) (p : Params F) : F :=
  let kf := value p "kf" 0
  let km := value p "km" 0
  let LfD := value p "LfD" 0
  let rmD := value p "rmD" 0
  let reD := value p "reD" 0.0
  let omga1 := value p "omega1" 0
  let omga2 := value p "omega2" 0
  let remda1 := value p "lambda1" 0
  let nf := nfOf p
  let M12 := kf / km
  let temp := omga2
  let fs1 := omga1 + remda1 * temp / (remda1 + z * temp)
  let fs2 := M12 * temp
  PWD_composite E z fs1 fs2 M12 LfD rmD reD nf.toNat (xwD nf) m_type

/-- The function `ModelWidget01_06::flaplace_composite` of a widget of variant `m_type`. -/
def flaplace_composite (E : Ext F) (m_type : ModelType) (z : F) (p : Params F) : F :=
  let pf := bare_pf E m_type z p
  let hasStorage : Bool := m_type = ModelType.Model_1 || m_type = ModelType.Model_3
    || m_type = ModelType.Model_5
  if hasStorage then
    let CD := value p "cD" 0.0
    let S := value p "S" 0.0
    if CD > 1e-12 ∨ |S| > 1e-12 then (z * pf + S) / (z + CD * z * z * (z * pf + S))
    else pf
  else pf

/-- The effective Stehfest order `N` of `calculatePDandDeriv`. -/
def stehfestN (m_highPrecision : Bool) (params : Params F) : Int :=
  let N_param := toInt (value params "N" 4)
  let N := if m_highPrecision then N_param else 4
  if N.tmod 2 ≠ 0 then 4 else N

/-- The inner loop of `calculatePDandDeriv`: the final value of `pd_val` at time `t`. -/
def pd_val (E : Ext F) (N : Int) (params : Params F)
    (laplaceFunc : F → Params F → Option F) (t : F) : F :=
  let ln2 := E.log 2.0
  (intLoop 1 N).foldl (fun (pd_val : F) (m : Int) =>
    let z := (m : F) * ln2 / t
    let pf := laplaceFunc z params
    let pf : F := match pf with
      | none => 0.0
      | some x => x
    pd_val + stefestCoefficient E m N * pf) 0.0

/-- The value first stored in `outPD[k]` for a time `t = tD[k] > 1e-12`, before the
stress-sensitivity correction: `pd_val * ln2 / t`. -/
def outPD_raw (E : Ext F) (N : Int) (params : Params F)
    (laplaceFunc : F → Params F → Option F) (t : F) : F :=
  let ln2 := E.log 2.0
  pd_val E N params laplaceFunc t * ln2 / t

/-- The body of the outer loop of `calculatePDandDeriv`: the value of `outPD[k]` once the
iteration for the time `t = tD[k]` is over. -/
def outPD (E : Ext F) (N : Int) (params : Params F)
    (laplaceFunc : F → Params F → Option F) (t : F) : F :=
  let gamaD := value params "gamaD" 0.0
  if t ≤ 1e-12 then 0
  else
    let outPD_k := outPD_raw E N params laplaceFunc t
    if |gamaD| > 1e-9 then
      let arg := 1.0 - gamaD * outPD_k
      if arg > 1e-12 then -1.0 / gamaD * E.log arg else outPD_k
    else outPD_k

/-- The function `ModelWidget01_06::calculatePDandDeriv`; the result is the pair
`(outPD, outDeriv)`. -/
def calculatePDandDeriv (E : Ext F) (m_highPrecision : Bool) (tD : List F)
    (params : Params F) (laplaceFunc : F → Params F → Option F) : List F × List F :=
  let numPoints := tD.length
  let N := stehfestN m_highPrecision params
  let outPD := tD.map (outPD E N params laplaceFunc)
  let outDeriv :=
    if numPoints > 2 then E.calculateBourdetDerivative tD outPD 0.1
    else List.replicate numPoints 0.0
  (outPD, outDeriv)

/-- The function `ModelManager::generateLogTimeSteps`. -/
def generateLogTimeSteps (E : Ext F) (count : Int) (startExp endExp : F) : List F :=
  (intLoop 0 (count - 1)).map (fun (i : Int) =>
    let exponent := startExp + (endExp - startExp) * (i : F) / ((count - 1 : Int) : F)
    std_pow E 10.0 exponent)

/-- The function `ModelWidget01_06::calculateTheoreticalCurve` of a widget of variant
`m_type`, every external routine returning a value; the result is `none` when the loop
filling `finalP` and `finalDP` reads `PD_vec[i]` or `Deriv_vec[i]` out of range. The
exceptions that the Boost calls throw are in `calculateTheoreticalCurve_checked`. -/
def calculateTheoreticalCurve (E : Ext F) (m_type : ModelType) (m_highPrecision : Bool)
    (params : Params F) (providedTime : List F) : Option (List F × List F × List F) :=
  let tPoints := if providedTime.isEmpty then generateLogTimeSteps E 100 (-3.0) 3.0
    else providedTime
  let phi := value params "phi" 0.05
  let mu := value params "mu" 0.5
  let B := value params "B" 1.05
  let Ct := value params "Ct" 5e-4
  let q := value params "q" 5.0
  let h := value params "h" 20.0
  let kf := value params "kf" 1e-3
  let L := value params "L" 1000.0
  let tD_vec := tPoints.map (fun t => 14.4 * kf * t / (phi * mu * Ct * std_pow E L 2))
  let func : F → Params F → Option F := fun z p => some (flaplace_composite E m_type z p)
  let out := calculatePDandDeriv E m_highPrecision tD_vec params func
  let PD_vec := out.1
  let Deriv_vec := out.2
  let factor := 1.842e-3 * q * mu * B / (kf * h)
  if PD_vec.length < tPoints.length ∨ Deriv_vec.length < tPoints.length then none
  else
    let finalP := (List.range tPoints.length).map (fun i => factor * PD_vec.getD i 0)
    let finalDP := (List.range tPoints.length).map (fun i => factor * Deriv_vec.getD i 0)
    some (tPoints, finalP, finalDP)

/-- The function `adaptiveGauss` with an explicit bound `fuel` on the number of nested
recursive calls: `none` when a call at nesting level `fuel` would recurse again. -/
def adaptiveGaussFuel (fuel : Nat) (f : F → F) (a b eps : F) (depth maxDepth : Int) :
    Option F :=
  let c := (a + b) / 2
  let v1 := gauss15 f a b
  let v2 := gauss15 f a c + gauss15 f c b
  if depth ≥ maxDepth ∨ |v1 - v2| < 1e-10 * |v2| + eps then some v2
  else
    match fuel with
    | 0 => none
    | fuel + 1 =>
      match adaptiveGaussFuel fuel f a c (eps / 2) (depth + 1) maxDepth,
        adaptiveGaussFuel fuel f c b (eps / 2) (depth + 1) maxDepth with
      | some l, some r => some (l + r)
      | _, _ => none

/-- The function `ModelWidget01_06::parseInput`, on the comma-separated parts of the text,
each part given with the outcome of `toDouble` (`none` when the conversion fails). -/
def parseInput (parts : List (Option F)) : List F :=
  let values := parts.filterMap id
  if values.isEmpty then [0.0] else values

/-- The input widgets read by `runCalculation`: the parts of the text of each line edit,
the visibility of the `reD` and `cD` edits, and the integer `pointsEdit->text().toInt()`. -/
structure Ui (F : Type) where
  phiEdit : List (Option F)
  hEdit : List (Option F)
  muEdit : List (Option F)
  BEdit : List (Option F)
  CtEdit : List (Option F)
  qEdit : List (Option F)
  tEdit : List (Option F)
  kfEdit : List (Option F)
  kmEdit : List (Option F)
  LEdit : List (Option F)
  LfEdit : List (Option F)
  nfEdit : List (Option F)
  rmDEdit : List (Option F)
  omga1Edit : List (Option F)
  omga2Edit : List (Option F)
  remda1Edit : List (Option F)
  gamaDEdit : List (Option F)
  reDEdit : List (Option F)
  cDEdit : List (Option F)
  sEdit : List (Option F)
  reDEdit_isVisible : Bool
  cDEdit_isVisible : Bool
  pointsEdit : Int

/-- The assignment `m[key] = v` on a `QMap<QString, V>`, kept as the list of its entries in
increasing key order (the order in which a `QMap` is iterated); keys are compared
character by character, as `QString::operator<` does. -/
def qmapSet {V : Type} (m : List (String × V)) (key : String) (v : V) : List (String × V) :=
  match m with
  | [] => [(key, v)]
  | (k, w) :: rest =>
    if key.data < k.data then (key, v) :: (k, w) :: rest
    else if key = k then (key, v) :: rest
    else (k, w) :: qmapSet rest key v

/-- The map `rawParams` of `runCalculation`, once all its entries are assigned. -/
def rawParams (ui : Ui F) : List (String × List F) :=
  let m : List (String × List F) := []
  let m := qmapSet m "phi" (parseInput ui.phiEdit)
  let m := qmapSet m "h" (parseInput ui.hEdit)
  let m := qmapSet m "mu" (parseInput ui.muEdit)
  let m := qmapSet m "B" (parseInput ui.BEdit)
  let m := qmapSet m "Ct" (parseInput ui.CtEdit)
  let m := qmapSet m "q" (parseInput ui.qEdit)
  let m := qmapSet m "t" (parseInput ui.tEdit)
  let m := qmapSet m "kf" (parseInput ui.kfEdit)
  let m := qmapSet m "km" (parseInput ui.kmEdit)
  let m := qmapSet m "L" (parseInput ui.LEdit)
  let m := qmapSet m "Lf" (parseInput ui.LfEdit)
  let m := qmapSet m "nf" (parseInput ui.nfEdit)
  let m := qmapSet m "rmD" (parseInput ui.rmDEdit)
  let m := qmapSet m "omega1" (parseInput ui.omga1Edit)
  let m := qmapSet m "omega2" (parseInput ui.omga2Edit)
  let m := qmapSet m "lambda1" (parseInput ui.remda1Edit)
  let m := qmapSet m "gamaD" (parseInput ui.gamaDEdit)
  let m := if ui.reDEdit_isVisible then qmapSet m "reD" (parseInput ui.reDEdit)
    else qmapSet m "reD" [0.0]
  if ui.cDEdit_isVisible then
    qmapSet (qmapSet m "cD" (parseInput ui.cDEdit)) "S" (parseInput ui.sEdit)
  else
    qmapSet (qmapSet m "cD" [0.0]) "S" [0.0]

/-- The sensitivity detection loop of `runCalculation`: the pair
`(sensitivityKey, sensitivityValues)`, which is `("", [])` when the loop finds nothing. -/
def sensitivity (rawParams : List (String × List F)) : String × List F :=
  match rawParams.find? (fun e => !(e.1 == "t") && decide (e.2.length > 1)) with
  | some e => e
  | none => ("", [])

/-- The local `isSensitivity` of `runCalculation`. -/
def isSensitivity (rawParams : List (String × List F)) : Bool :=
  !(sensitivity rawParams).1.isEmpty

/-- The map `baseParams` of `runCalculation`, after `N` and `LfD` are set.  The keys `L`
and `Lf` are always present, so the reads `baseParams["L"]`, `baseParams["Lf"]` insert
nothing. -/
def baseParams (m_highPrecision : Bool) (ui : Ui F) : Params F :=
  let baseParams : Params F := (rawParams ui).foldl
    (fun (m : Params F) (it : String × List F) =>
      setValue m it.1 (if it.2.isEmpty then 0.0 else it.2.headD 0)) (fun _ => none)
  let baseParams := setValue baseParams "N" (if m_highPrecision then 8.0 else 4.0)
  if value baseParams "L" 0 > 1e-9 then
    setValue baseParams "LfD" (value baseParams "Lf" 0 / value baseParams "L" 0)
  else setValue baseParams "LfD" 0

/-- The list `m_colorList` set by the constructor of `ModelWidget01_06`. -/
def m_colorList : List String :=
  ["Qt::red", "Qt::blue", "QColor(0,180,0)", "Qt::magenta", "QColor(255,140,0)", "Qt::cyan"]

/-- The local `iterations` of `runCalculation`. -/
def iterations (ui : Ui F) : Nat :=
  let iterations := if isSensitivity (rawParams ui) then (sensitivity (rawParams ui)).2.length
    else 1
  min iterations m_colorList.length

/-- The map `currentParams` handed to `calculateTheoreticalCurve` in iteration `i` of the
loop of `runCalculation`. -/
def currentParams (m_highPrecision : Bool) (ui : Ui F) (i : Nat) : Params F :=
  let currentParams := baseParams m_highPrecision ui
  if isSensitivity (rawParams ui) then
    let sensitivityKey := (sensitivity (rawParams ui)).1
    let val := (sensitivity (rawParams ui)).2.getD i 0
    let currentParams := setValue currentParams sensitivityKey val
    if sensitivityKey = "L" ∨ sensitivityKey = "Lf" then
      if value currentParams "L" 0 > 1e-9 then
        setValue currentParams "LfD" (value currentParams "Lf" 0 / value currentParams "L" 0)
      else currentParams
    else currentParams
  else currentParams

/-- The time grid `t` of `runCalculation`. -/
def timeGrid (E : Ext F) (m_highPrecision : Bool) (ui : Ui F) : List F :=
  let nPoints := if ui.pointsEdit < 5 then 5 else ui.pointsEdit
  let maxTime := value (baseParams m_highPrecision ui) "t" 1000.0
  let maxTime := if maxTime < 1e-3 then 1000.0 else maxTime
  generateLogTimeSteps E nPoints (-3.0) (E.log10 maxTime)

/-- The function `ModelWidget01_06::runCalculation`: the results `res` of the successive
calls of `calculateTheoreticalCurve`, one for each iteration of the loop. -/
def runCalculation (E : Ext F) (m_type : ModelType) (m_highPrecision : Bool) (ui : Ui F) :
    List (Option (List F × List F × List F)) :=
  (List.range (iterations ui)).map (fun (i : Nat) =>
    calculateTheoreticalCurve E m_type m_highPrecision (currentParams m_highPrecision ui i)
      (timeGrid E m_highPrecision ui))

/-- The local `Acdown_scaled` of `PWD_composite` as first computed, before the floor. -/
def Acdown_computed (E : Ext F) (type : ModelType) (M12 gama1 gama2 rmD reD : F) : F :=
  let i1_g1_s := scaled_besseli E 1 (gama1 * rmD)
  let i0_g1_s := scaled_besseli E 0 (gama1 * rmD)
  M12 * gama1 * i1_g1_s * term1 E type gama2 rmD reD
    - gama2 * i0_g1_s * term2 E type gama2 rmD reD

/-- The local `den` of `stefestCoefficient` for the loop counter `k`. -/
def stefest_den (i N k : Int) : F :=
  factorial (N.tdiv 2 - k) * factorial k * factorial (k - 1)
    * factorial (i - k) * factorial (2 * k - i)

/-- The value of the lambda `integrand` of `PWD_composite` as a function of the distance
`dist`: the kernel `K0 + Ac*I0` at the argument `gama1 * dist`, floored at `1e-10`. -/
def kernel (E : Ext F) (gama1 arg_g1_rm Ac_prefactor dist : F) : F :=
  let arg_dist := gama1 * dist
  let arg_dist := if arg_dist < 1e-10 then 1e-10 else arg_dist
  let exponent := arg_dist - arg_g1_rm
  let term2 := if exponent > -700 then
      Ac_prefactor * scaled_besseli E 0 arg_dist * E.exp exponent
    else 0
  E.cyl_bessel_k 0 arg_dist + term2

/-- The integer nearest to `m`, a tie going to the even neighbour. -/
def nearestEven (m : ℚ) : Int :=
  let f : Int := ⌊m⌋
  if m - f < 1 / 2 then f
  else if 1 / 2 < m - f then f + 1
  else if f % 2 = 0 then f else f + 1

/-- The result of a `double` operation whose exact value is `x`: IEEE 754 binary64
rounding to nearest, ties to even, with 53 significant bits. The exponent range is not
bounded: overflow and subnormal numbers are not modelled. -/
def roundDouble (x : ℚ) : ℚ :=
  if x = 0 then 0
  else
    let e : Int := Int.log 2 |x| - 52
    (if x < 0 then -1 else 1) * (nearestEven (|x| / (2 : ℚ) ^ e) : ℚ) * (2 : ℚ) ^ e

/-- The local `xwD` of `flaplace_composite` in `double` arithmetic: the literals and every
operation are rounded to the nearest `double`; the conversions of the `int` values
`nf - 1` and `i` to `double` are exact. -/
def xwD_double (nf : Int) : List ℚ :=
  if nf = 1 then [roundDouble 0.0]
  else
    let start : ℚ := -roundDouble 0.9
    let stop : ℚ := roundDouble 0.9
    let step : ℚ := roundDouble (roundDouble (stop - start) / ((nf - 1 : Int) : ℚ))
    (intLoop 0 (nf - 1)).map (fun (i : Int) =>
      roundDouble (start + roundDouble ((i : ℚ) * step)))

/-- The exceptions that `boost::math::cyl_bessel_k` throws under the default error policy
of Boost: `std::domain_error` and `std::overflow_error`. -/
inductive BoostError where
  | domain_error
  | overflow_error
  deriving DecidableEq, Repr

/-- The error behaviour of `boost::math::cyl_bessel_k(v, x)` for an integer order `v`:
`throws v x` is the exception thrown by the call, if any. Boost throws at every argument
that is zero or negative (`std::domain_error` below 0, `std::overflow_error` at 0), and
it returns `K0` at every argument from `1e-10` on; whether a call at another positive
argument throws (a value beyond the range of `double`) is left to the instance. -/
structure BesselPolicy (F : Type) [LinearOrderedField F] where
  /-- The exception thrown by `cyl_bessel_k(v, x)`, if any. -/
  throws : Int → F → Option BoostError
  /-- The call throws at every argument that is zero or negative. -/
  nonpos : ∀ (v : Int) (x : F), x ≤ 0 → throws v x ≠ none
  /-- The call of order 0 returns at every argument from `1e-10` on. -/
  k0_ok : ∀ x : F, 1e-10 ≤ x → throws 0 x = none

/-- The call `cyl_bessel_k(v, x)` of Boost: the exception it throws, or its value. -/
def cyl_bessel_k_checked (E : Ext F) (P : BesselPolicy F) (v : Int) (x : F) :
    Except BoostError F :=
  match P.throws v x with
  | some e => Except.error e
  | none => Except.ok (E.cyl_bessel_k v x)

/-- The lambda `integrand` of `PWD_composite` with the exceptions of its Boost call. -/
def integrand_checked (E : Ext F) (P : BesselPolicy F) (gama1 arg_g1_rm Ac_prefactor : F)
    (xwD ywD : List F) (i j : Nat) (a : F) : Except BoostError F := do
  let dist := E.sqrt (std_pow E (xwD.getD i 0 - xwD.getD j 0 - a) 2
    + std_pow E (ywD.getD i 0 - ywD.getD j 0) 2)
  let arg_dist := gama1 * dist
  let arg_dist := if arg_dist < 1e-10 then 1e-10 else arg_dist
  let exponent := arg_dist - arg_g1_rm
  let term2 := if exponent > -700 then
      Ac_prefactor * scaled_besseli E 0 arg_dist * E.exp exponent
    else 0
  let k0 ← cyl_bessel_k_checked E P 0 arg_dist
  pure (k0 + term2)

/-- The local `tD_vec` of `calculateTheoreticalCurve`. -/
def tD_vec (E : Ext F) (params : Params F) (providedTime : List F) : List F :=
  let tPoints := if providedTime.isEmpty then generateLogTimeSteps E 100 (-3.0) 3.0
    else providedTime
  let phi := value params "phi" 0.05
  let mu := value params "mu" 0.5
  let Ct := value params "Ct" 5e-4
  let kf := value params "kf" 1e-3
  let L := value params "L" 1000.0
  tPoints.map (fun t => 14.4 * kf * t / (phi * mu * Ct * std_pow E L 2))

/-- The Stehfest coefficient as the specification words it: `(-1)^(i + N/2)` times the
sum over `k` from `ceil(i/2)` to `min(i, N/2)` of
`k^(N/2) (2k)! / [(N/2 - k)! k! (k - 1)! (i - k)! (2k - i)!]`. -/
def stehfestCoefficientSpec (i N : Nat) : F :=
  (-1) ^ (i + N / 2) * ∑ k ∈ Finset.Icc ⌈(i : ℚ) / 2⌉₊ (min i (N / 2)),
    ((k : F) ^ (N / 2) * ((2 * k).factorial : F)) /
      (((N / 2 - k).factorial : F) * (k.factorial : F) * ((k - 1).factorial : F)
        * ((i - k).factorial : F) * ((2 * k - i).factorial : F))

end Model

/-! Concrete data for the examples. -/

/-- A concrete instance of the external routines over `ℚ`, used to evaluate the model on
examples: constant Bessel functions and exponential, and Cramer's rule as linear solver. -/
def E0 : Ext ℚ where
  log := fun x => x - 1
  log10 := fun x => x - 1
  exp := fun _ => 1
  sqrt := fun x => x
  rpow := fun x _ => x
  cyl_bessel_k := fun _ _ => 1
  cyl_bessel_i := fun _ _ => 1
  solve := fun _ A b => (A.det)⁻¹ • (A.adjugate.mulVec b)
  calculateBourdetDerivative := fun t _ _ => t.map (fun _ => 0)

/-- A parameter set built from a list of `(key, value)` pairs. -/
def paramsOf (l : List (String × ℚ)) : Params ℚ :=
  fun k => (l.find? (fun e => e.1 = k)).map Prod.snd


/-- A parameter set with Stehfest order 4 and no stress sensitivity (`gamaD = 0`); every
other key is absent. -/
def pW : Params ℚ := paramsOf [("N", 4), ("gamaD", 0)]

/-- A single-fracture parameter set with a negative wellbore-storage coefficient
`cD = -2` and no skin. -/
def pC6 : Params ℚ :=
  paramsOf [("kf", 1), ("km", 1), ("LfD", 1), ("rmD", 1), ("omega1", 1), ("omega2", 1),
    ("nf", 1), ("cD", -2)]

/-- A parameter set with two fractures and `LfD = 1/2`. -/
def pC10 : Params ℚ := paramsOf [("nf", 2), ("LfD", 1 / 2)]

/-- A parameter set with Stehfest order 4 and stress sensitivity `gamaD = 1/10`. -/
def pG : Params ℚ := paramsOf [("N", 4), ("gamaD", 1 / 10)]

/-- A parameter set with four fractures. -/
def pC9 : Params ℚ := paramsOf [("nf", 4)]

/-- The inputs of a sensitivity run on the well half-length: `L` is entered as `1000, 0`,
`Lf` as `100`, every other field as `1`; the `reD`, `cD` and `S` edits are hidden. -/
def ui0 : Ui ℚ where
  phiEdit := [some 1]
  hEdit := [some 1]
  muEdit := [some 1]
  BEdit := [some 1]
  CtEdit := [some 1]
  qEdit := [some 1]
  tEdit := [some 1]
  kfEdit := [some 1]
  kmEdit := [some 1]
  LEdit := [some 1000, some 0]
  LfEdit := [some 100]
  nfEdit := [some 1]
  rmDEdit := [some 1]
  omga1Edit := [some 1]
  omga2Edit := [some 1]
  remda1Edit := [some 1]
  gamaDEdit := [some 0]
  reDEdit := []
  cDEdit := []
  sEdit := []
  reDEdit_isVisible := false
  cDEdit_isVisible := false
  pointsEdit := 5

/-- The empty parameter set: every key is absent. -/
def pEmpty : Params ℚ := paramsOf []

/-- A parameter set that only carries the Stehfest order `N = 6`. -/
def pN6 : Params ℚ := paramsOf [("N", 6)]

/-- Every read `params.value(key, dflt)` made by `calculateTheoreticalCurve`,
`calculatePDandDeriv` and `flaplace_composite`, as the pair `(key, dflt)`; a read
`p.value(key)` has default 0. -/
def paramReads (F : Type) [LinearOrderedField F] : List (String × F) :=
  [("phi", 0.05), ("mu", 0.5), ("B", 1.05), ("Ct", 5e-4), ("q", 5.0), ("h", 20.0),
    ("kf", 1e-3), ("L", 1000.0), ("N", 4), ("gamaD", 0.0), ("kf", 0), ("km", 0), ("LfD", 0),
    ("rmD", 0), ("reD", 0.0), ("omega1", 0), ("omega2", 0), ("lambda1", 0), ("nf", 4),
    ("cD", 0.0), ("S", 0.0)]

/-- The keys that are always read with the same default, and that default.  The key `kf`
is not among them: `calculateTheoreticalCurve` reads it with default `1e-3` and
`flaplace_composite` with default 0. -/
def paramDefaults (F : Type) [LinearOrderedField F] : List (String × F) :=
  [("phi", 0.05), ("mu", 0.5), ("B", 1.05), ("Ct", 5e-4), ("q", 5.0), ("h", 20.0),
    ("L", 1000.0), ("N", 4), ("nf", 4), ("gamaD", 0.0), ("km", 0), ("LfD", 0), ("rmD", 0),
    ("reD", 0.0), ("omega1", 0), ("omega2", 0), ("lambda1", 0), ("cD", 0.0), ("S", 0.0)]

/-- A single-fracture parameter set with unit permeabilities, `LfD = rmD = 1` and
`omega1 = omega2 = 1`; the keys `phi`, `mu`, `B`, `Ct`, `q`, `h`, `L`, `N`, `gamaD`,
`lambda1`, `reD`, `cD` and `S` are absent. -/
def pU : Params ℚ :=
  paramsOf [("kf", 1), ("km", 1), ("LfD", 1), ("rmD", 1), ("omega1", 1), ("omega2", 1),
    ("nf", 1)]

/-- A parameter set that only carries the odd Stehfest order `N = 5`. -/
def pN5 : Params ℚ := paramsOf [("N", 5)]

/-- A Laplace-space function that is non-finite at `z = 2` and returns `z` elsewhere. -/
def laplaceGap : ℚ → Params ℚ → Option ℚ :=
  fun z _ => if z = 2 then none else some z

/-- A second concrete instance of the external routines over `ℚ`: the rational square root
(exact on squares), the function `1 - 1/x` in the place of the logarithm, a constant
exponential, Bessel stand-ins that depend on the order and on the argument, and Cramer's
rule as linear solver. -/
def E1 : Ext ℚ where
  log := fun x => 1 - 1 / x
  log10 := fun x => x - 1
  exp := fun _ => 1
  sqrt := Rat.sqrt
  rpow := fun x _ => x
  cyl_bessel_k := fun v x => (v : ℚ) + x + 1
  cyl_bessel_i := fun v x => (v : ℚ) + 2 * x + 1
  solve := fun _ A b => (A.det)⁻¹ • (A.adjugate.mulVec b)
  calculateBourdetDerivative := fun t _ _ => t.map (fun _ => 0)

/-! Theorems. -/

section Theorems

set_option linter.unusedSectionVars false

variable {F : Type} [LinearOrderedField F] [FloorRing F]

/-- An accumulation loop `s += g k` computes the sum of the `g k`. -/
theorem foldl_add_eq_sum {α : Type} (g : α → F) (l : List α) (a : F) :
    l.foldl (fun s k => s + g k) a = a + (l.map g).sum := by
  induction l generalizing a with
  | nil => simp
  | cons x xs ih => simp [ih, add_assoc]

/-- The sum of a list indexed by `List.range` as a `Finset` sum. -/
theorem sum_map_range (f : Nat → F) (n : Nat) :
    ((List.range n).map f).sum = ∑ j ∈ Finset.range n, f j := by
  induction n with
  | zero => simp
  | succ n ih => simp [List.range_succ, Finset.sum_range_succ, ih]

/-- The sum over an `int` loop with natural bounds is the sum over `Finset.Icc`. -/
theorem intLoop_sum_nat (lo hi : Nat) (g : Int → F) :
    ((intLoop lo hi).map g).sum = ∑ k ∈ Finset.Icc lo hi, g (k : Int) := by
  have h : ((hi : Int) + 1 - lo).toNat = hi + 1 - lo := by omega
  rw [intLoop, List.map_map, h, sum_map_range, ← Nat.Ico_succ_right,
    Finset.sum_Ico_eq_sum_range]
  simp

/-- The sum over an `int` loop is the sum over the integer interval `Finset.Icc lo hi`. -/
theorem intLoop_sum_int (lo hi : Int) (g : Int → F) :
    ((intLoop lo hi).map g).sum = ∑ k ∈ Finset.Icc lo hi, g k := by
  rw [Int.Icc_eq_finset_map, Finset.sum_map, intLoop, List.map_map, sum_map_range]
  simp

/-- The multiplication loop of `factorial` over `2, …, m + 1` yields `(m + 1)!`. -/
theorem factorial_loop (m : Nat) :
    ((List.range m).map (fun (j : Nat) => (2 : Int) + (j : Int))).foldl
      (fun (r : F) (i : Int) => r * (i : F)) 1 = ((m + 1).factorial : F) := by
  induction m with
  | zero => simp
  | succ m ih =>
    rw [List.range_succ, List.map_append, List.foldl_append, ih]
    simp [Nat.factorial_succ (m + 1)]
    ring

/-- The function `factorial` returns `n!` for `n ≥ 0` and `1` for negative `n`. -/
theorem factorial_eq (n : Int) : (factorial n : F) = ((n.toNat).factorial : F) := by
  unfold factorial
  split
  · rename_i h
    have : n.toNat = 0 ∨ n.toNat = 1 := by omega
    rcases this with h | h <;> simp [h]
  · rename_i h
    have h2 : (n + 1 - 2).toNat + 1 = n.toNat := by omega
    rw [intLoop, factorial_loop, h2]


/-- The guard `if (den != 0)` of `stefestCoefficient` changes nothing in exact arithmetic. -/
theorem ite_den (s num den : F) : (if den ≠ 0 then s + num / den else s) = s + num / den := by
  split
  · rfl
  · rename_i h
    have : den = 0 := by simpa using h
    simp [this]

/-- The call `pow(x, n)` at a natural exponent is the `n`-th power. -/
theorem std_pow_natCast (E : Ext F) (x : F) (n : Nat) : std_pow E x (n : F) = x ^ n := by
  simp [std_pow]

/-- The value of `stefestCoefficient(i, 2n)` as a finite sum of factorial quotients. -/
theorem stefestCoefficient_eq_sum (E : Ext F) (i n : Nat) :
    stefestCoefficient E (i : Int) ((2 * n : Nat) : Int) =
      (-1) ^ (i + n) * ∑ k ∈ Finset.Icc ((i + 1) / 2) (min i n),
        ((k : F) ^ n * ((2 * k).factorial : F)) /
          (((n - k).factorial : F) * (k.factorial : F) * ((k - 1).factorial : F)
            * ((i - k).factorial : F) * ((2 * k - i).factorial : F)) := by
  unfold stefestCoefficient
  have hN : ((2 * n : Nat) : Int).tdiv 2 = (n : Int) := by
    rw [Int.tdiv_eq_ediv (by omega) (by omega)]; omega
  have hk1 : ((i : Int) + 1).tdiv 2 = (((i + 1) / 2 : Nat) : Int) := by
    rw [Int.tdiv_eq_ediv (by omega) (by omega)]; omega
  have hk2 : min (i : Int) (n : Int) = ((min i n : Nat) : Int) := by omega
  have hh : ((((2 * n : Nat) : Int) : F) / 2) = (n : F) := by
    push_cast; ring
  simp only [hN, hk1, hk2, ite_den, hh, std_pow_natCast]
  rw [foldl_add_eq_sum, intLoop_sum_nat, zero_add]
  congr 1
  · have : ((i : Int) + n).tmod 2 = (((i + n) % 2 : Nat) : Int) := by
      rw [Int.tmod_eq_emod (by omega) (by omega)]; omega
    rw [this]
    rcases Nat.even_or_odd (i + n) with h | h
    · rw [h.neg_one_pow, Nat.even_iff.mp h]; simp
    · rw [h.neg_one_pow, Nat.odd_iff.mp h]; simp
  · apply Finset.sum_congr rfl
    intro k _
    simp only [factorial_eq]
    have e1 : ((n : Int) - k).toNat = n - k := by omega
    have e2 : ((k : Int) - 1).toNat = k - 1 := by omega
    have e3 : ((i : Int) - k).toNat = i - k := by omega
    have e4 : (2 * (k : Int) - i).toNat = 2 * k - i := by omega
    have e5 : (2 * (k : Int)).toNat = 2 * k := by omega
    have e6 : ((k : Int)).toNat = k := by omega
    rw [e1, e2, e3, e4, e5, e6]
    simp


/-- For a natural `i`, `ceil(i / 2) = (i + 1) / 2` in integer division. -/
theorem natCeil_half (i : Nat) : ⌈(i : ℚ) / 2⌉₊ = (i + 1) / 2 := by
  rcases Nat.even_or_odd' i with ⟨m, rfl | rfl⟩
  · have h1 : (2 * m + 1) / 2 = m := by omega
    rw [h1]
    have : (((2 * m : Nat) : ℚ) / 2) = (m : ℚ) := by push_cast; ring
    rw [this, Nat.ceil_natCast]
  · have h1 : (2 * m + 1 + 1) / 2 = m + 1 := by omega
    rw [h1, Nat.ceil_eq_iff (by omega)]
    constructor
    · push_cast; linarith
    · push_cast; linarith

/-- Claim C2. For every even `N ≥ 2` and every `1 ≤ i ≤ N`, `stefestCoefficient(i, N)`
equals `(-1)^(i + N/2)` times the sum over `k` from `ceil(i/2)` to `min(i, N/2)` of
`k^(N/2) (2k)! / [(N/2 - k)! k! (k - 1)! (i - k)! (2k - i)!]`, in exact arithmetic. -/
theorem C2_stefestCoefficient_formula (E : Ext F) (i N : Nat) (hN : Even N) (hN2 : 2 ≤ N)
    (hi1 : 1 ≤ i) (hiN : i ≤ N) :
    stefestCoefficient E (i : Int) (N : Int) = stehfestCoefficientSpec i N := by
  obtain ⟨n, rfl⟩ := hN
  have h2 : n + n = 2 * n := by ring
  rw [h2, stefestCoefficient_eq_sum, stehfestCoefficientSpec, natCeil_half]
  have h3 : 2 * n / 2 = n := by omega
  rw [h3]


/-- The literal `2.0` is `2`. -/
theorem two_lit : (2.0 : F) = 2 := by norm_num

/-- The inner loop of `calculatePDandDeriv` computes the Stehfest sum, a non-finite
evaluation of the Laplace-space function counting as 0. -/
theorem pd_val_eq_sum (E : Ext F) (N : Int) (params : Params F)
    (laplaceFunc : F → Params F → Option F) (t : F) :
    pd_val E N params laplaceFunc t = ∑ m ∈ Finset.Icc 1 N,
      stefestCoefficient E m N * ((laplaceFunc ((m : F) * E.log 2 / t) params).getD 0) := by
  unfold pd_val
  simp only [two_lit]
  rw [foldl_add_eq_sum (fun (m : Int) => stefestCoefficient E m N *
    (match laplaceFunc ((m : F) * E.log 2 / t) params with
      | none => (0.0 : F)
      | some x => x)), intLoop_sum_int]
  have h0 : (0.0 : F) = 0 := by norm_num
  rw [h0, zero_add]
  apply Finset.sum_congr rfl
  intro m _
  cases laplaceFunc ((m : F) * E.log 2 / t) params <;> simp

/-- Claim C1. Stehfest inversion formula: for a time-grid entry `tD[k] > 1e-12`, when
`|gamaD| ≤ 1e-9` and every evaluation of the Laplace-space function at the abscissas
`m * ln2 / tD[k]`, `m = 1..N`, is finite with value `L`, `calculatePDandDeriv` stores
`outPD[k] = (ln2 / tD[k]) * Σ_{m=1..N} stefestCoefficient(m, N) * L(m * ln2 / tD[k], params)`,
`N` being the effective Stehfest order. -/
theorem C1_stehfest_inversion (E : Ext F) (m_highPrecision : Bool) (tD : List F)
    (params : Params F) (laplaceFunc : F → Params F → Option F) (L : F → Params F → F)
    (k : Nat) (hk : k < tD.length)
    (ht : tD.get ⟨k, hk⟩ > 1e-12)
    (hg : |value params "gamaD" 0| ≤ 1e-9)
    (hfin : ∀ m ∈ Finset.Icc 1 (stehfestN m_highPrecision params),
      laplaceFunc ((m : F) * E.log 2 / tD.get ⟨k, hk⟩) params
        = some (L ((m : F) * E.log 2 / tD.get ⟨k, hk⟩) params)) :
    (calculatePDandDeriv E m_highPrecision tD params laplaceFunc).1[k]? =
      some (E.log 2 / tD.get ⟨k, hk⟩ *
        ∑ m ∈ Finset.Icc 1 (stehfestN m_highPrecision params),
          stefestCoefficient E m (stehfestN m_highPrecision params)
            * L ((m : F) * E.log 2 / tD.get ⟨k, hk⟩) params) := by
  have h0 : (0.0 : F) = 0 := by norm_num
  simp only [calculatePDandDeriv, List.getElem?_map, List.getElem?_eq_getElem hk,
    Option.map_some', List.get_eq_getElem] at *
  congr 1
  rw [outPD, if_neg (not_le.mpr ht), h0, if_neg (not_lt.mpr hg), outPD_raw, pd_val_eq_sum,
    two_lit]
  rw [Finset.sum_congr rfl (fun m hm => by rw [hfin m hm, Option.getD_some])]
  ring


/-- Claim C5. Stress-sensitivity correction in `calculatePDandDeriv`: for a time point with
`tD[k] > 1e-12`, writing `p` for the raw Stehfest value `outPD_raw`, the stored `outPD[k]`
is `-(1/gamaD) * ln(1 - gamaD * p)` when `|gamaD| > 1e-9` and `1 - gamaD * p > 1e-12`,
is `p` when `|gamaD| > 1e-9` and `1 - gamaD * p ≤ 1e-12`, and is `p` when
`|gamaD| ≤ 1e-9`. -/
theorem C5_stress_sensitivity (E : Ext F) (m_highPrecision : Bool) (tD : List F)
    (params : Params F) (laplaceFunc : F → Params F → Option F)
    (k : Nat) (hk : k < tD.length) (ht : tD.get ⟨k, hk⟩ > 1e-12) :
    (calculatePDandDeriv E m_highPrecision tD params laplaceFunc).1[k]? =
      some (
        if |value params "gamaD" 0| > 1e-9 then
          if 1 - value params "gamaD" 0 * outPD_raw E (stehfestN m_highPrecision params) params
              laplaceFunc (tD.get ⟨k, hk⟩) > 1e-12 then
            -(1 / value params "gamaD" 0) * E.log (1 - value params "gamaD" 0 *
              outPD_raw E (stehfestN m_highPrecision params) params laplaceFunc (tD.get ⟨k, hk⟩))
          else outPD_raw E (stehfestN m_highPrecision params) params laplaceFunc (tD.get ⟨k, hk⟩)
        else outPD_raw E (stehfestN m_highPrecision params) params laplaceFunc
          (tD.get ⟨k, hk⟩)) := by
  have h0 : (0.0 : F) = 0 := by norm_num
  have h1 : (1.0 : F) = 1 := by norm_num
  simp only [calculatePDandDeriv, List.getElem?_map, List.getElem?_eq_getElem hk,
    Option.map_some', List.get_eq_getElem] at *
  congr 1
  rw [outPD, if_neg (not_le.mpr ht), h0, h1]
  simp only [neg_div]


/-- The infinite-boundary variants are `Model_1` and `Model_2`. -/
theorem ModelType_tests (type : ModelType) :
    (isInfinite type = true ↔ type = ModelType.Model_1 ∨ type = ModelType.Model_2) := by
  cases type <;> simp [isInfinite]

/-- Claim C6, as amended. Wellbore storage and skin in `flaplace_composite`: with `pf` the
bare output of `PWD_composite`, the returned value is
`(z * pf + S) / (z + CD * z^2 * (z * pf + S))` whenever the variant is Variable-storage
(`Model_1`, `Model_3` or `Model_5`) and `CD > 1e-12` or `|S| > 1e-12`; in every other case
(Constant-storage variant, or `CD ≤ 1e-12` and `|S| ≤ 1e-12`) it is `pf` unchanged. The
test on `CD` is signed: a negative `CD` never triggers the convolution. -/
theorem C6_storage_skin (E : Ext F) (m_type : ModelType) (z : F) (p : Params F) :
    flaplace_composite E m_type z p =
      if (m_type = ModelType.Model_1 ∨ m_type = ModelType.Model_3 ∨ m_type = ModelType.Model_5)
          ∧ (value p "cD" 0 > 1e-12 ∨ |value p "S" 0| > 1e-12) then
        (z * bare_pf E m_type z p + value p "S" 0)
          / (z + value p "cD" 0 * z ^ 2 * (z * bare_pf E m_type z p + value p "S" 0))
      else bare_pf E m_type z p := by
  have h0 : (0.0 : F) = 0 := by norm_num
  unfold flaplace_composite
  simp only [h0]
  cases m_type <;> simp [pow_two, mul_assoc]

/-- The function `PWD_composite` depends on the variant only through its boundary tests. -/
theorem PWD_composite_pair (E : Ext F) (z fs1 fs2 M12 LfD rmD reD : F) (nf : Nat)
    (xwD : List F) (t t' : ModelType) (h1 : isInfinite t = isInfinite t')
    (h2 : isClosed t = isClosed t') (h3 : isConstP t = isConstP t') :
    PWD_composite E z fs1 fs2 M12 LfD rmD reD nf xwD t
      = PWD_composite E z fs1 fs2 M12 LfD rmD reD nf xwD t' := by
  simp only [PWD_composite, Ac_prefactor, Acup, Acdown_scaled, term1, term2, term_mAB_i0,
    term_mAB_i1, h1, h2, h3]

/-- When `cD ≤ 1e-12` and `|S| ≤ 1e-12`, `flaplace_composite` returns the bare `pf`. -/
theorem flaplace_no_storage (E : Ext F) (m_type : ModelType) (z : F) (p : Params F)
    (hcD : value p "cD" 0 ≤ 1e-12) (hS : |value p "S" 0| ≤ 1e-12) :
    flaplace_composite E m_type z p = bare_pf E m_type z p := by
  have h0 : (0.0 : F) = 0 := by norm_num
  unfold flaplace_composite
  simp only [h0]
  have : ¬ (value p "cD" 0 > 1e-12 ∨ |value p "S" 0| > 1e-12) := by
    rintro (h | h)
    · exact absurd h (not_lt.mpr hcD)
    · exact absurd h (not_lt.mpr hS)
  simp [this]

/-- The function `calculatePDandDeriv` only evaluates `laplaceFunc` on the parameter set
it is given. -/
theorem calculatePDandDeriv_congr (E : Ext F) (hp : Bool) (tD : List F) (params : Params F)
    (f g : F → Params F → Option F) (h : ∀ z, f z params = g z params) :
    calculatePDandDeriv E hp tD params f = calculatePDandDeriv E hp tD params g := by
  have : outPD E (stehfestN hp params) params f
      = outPD E (stehfestN hp params) params g := by
    funext t
    simp only [outPD, outPD_raw, pd_val, h]
  simp only [calculatePDandDeriv, this]

/-- With `cD = 0` and `S = 0`, two variants with the same boundary give the same
`flaplace_composite`. -/
theorem flaplace_pair (E : Ext F) (z : F) (p : Params F) (t t' : ModelType)
    (hcD : value p "cD" 0 = 0) (hS : value p "S" 0 = 0)
    (h1 : isInfinite t = isInfinite t')
    (h2 : isClosed t = isClosed t') (h3 : isConstP t = isConstP t') :
    flaplace_composite E t z p = flaplace_composite E t' z p := by
  have a : value p "cD" 0 ≤ 1e-12 := by rw [hcD]; norm_num
  have b : |value p "S" 0| ≤ 1e-12 := by rw [hS]; norm_num
  rw [flaplace_no_storage E t z p a b, flaplace_no_storage E t' z p a b]
  exact PWD_composite_pair E _ _ _ _ _ _ _ _ _ t t' h1 h2 h3

/-- Claim C7. Storage-variant equivalence: for a parameter set with `cD = 0` and `S = 0`
and every `z`, `flaplace_composite` for `Model_2` equals that for `Model_1`, `Model_4`
equals `Model_3` and `Model_6` equals `Model_5`; hence `calculatePDandDeriv` yields the
same `pD` for the two variants of each pair on every time grid. -/
theorem C7_storage_variant_equivalence (E : Ext F) (p : Params F)
    (hcD : value p "cD" 0 = 0) (hS : value p "S" 0 = 0) :
    (∀ z, flaplace_composite E ModelType.Model_2 z p = flaplace_composite E ModelType.Model_1 z p
      ∧ flaplace_composite E ModelType.Model_4 z p = flaplace_composite E ModelType.Model_3 z p
      ∧ flaplace_composite E ModelType.Model_6 z p = flaplace_composite E ModelType.Model_5 z p)
    ∧ ∀ (m_highPrecision : Bool) (tD : List F),
      (calculatePDandDeriv E m_highPrecision tD p
          (fun z q => some (flaplace_composite E ModelType.Model_2 z q))).1
        = (calculatePDandDeriv E m_highPrecision tD p
          (fun z q => some (flaplace_composite E ModelType.Model_1 z q))).1
      ∧ (calculatePDandDeriv E m_highPrecision tD p
          (fun z q => some (flaplace_composite E ModelType.Model_4 z q))).1
        = (calculatePDandDeriv E m_highPrecision tD p
          (fun z q => some (flaplace_composite E ModelType.Model_3 z q))).1
      ∧ (calculatePDandDeriv E m_highPrecision tD p
          (fun z q => some (flaplace_composite E ModelType.Model_6 z q))).1
        = (calculatePDandDeriv E m_highPrecision tD p
          (fun z q => some (flaplace_composite E ModelType.Model_5 z q))).1 := by
  have e21 : ∀ z, flaplace_composite E ModelType.Model_2 z p
      = flaplace_composite E ModelType.Model_1 z p :=
    fun z => flaplace_pair E z p _ _ hcD hS rfl rfl rfl
  have e43 : ∀ z, flaplace_composite E ModelType.Model_4 z p
      = flaplace_composite E ModelType.Model_3 z p :=
    fun z => flaplace_pair E z p _ _ hcD hS rfl rfl rfl
  have e65 : ∀ z, flaplace_composite E ModelType.Model_6 z p
      = flaplace_composite E ModelType.Model_5 z p :=
    fun z => flaplace_pair E z p _ _ hcD hS rfl rfl rfl
  refine ⟨fun z => ⟨e21 z, e43 z, e65 z⟩, fun hp tD => ⟨?_, ?_, ?_⟩⟩
  · rw [calculatePDandDeriv_congr E hp tD p _ _ (fun z => by rw [e21 z])]
  · rw [calculatePDandDeriv_congr E hp tD p _ _ (fun z => by rw [e43 z])]
  · rw [calculatePDandDeriv_congr E hp tD p _ _ (fun z => by rw [e65 z])]


/-- An index loop over a vector of the right length is a `map`. -/
theorem map_range_getD (l : List F) (n : Nat) (h : l.length = n) (f : F → F) :
    (List.range n).map (fun i => f (l.getD i 0)) = l.map f := by
  subst h
  apply List.ext_getElem
  · simp
  · intro i h1 h2
    simp at h1
    simp [List.getD_eq_getElem?_getD, List.getElem?_eq_getElem h1]

/-- The call `pow(x, 2)` is the square. -/
theorem std_pow_two (E : Ext F) (x : F) : std_pow E x 2 = x ^ 2 := by
  have := std_pow_natCast E x 2
  simpa using this

/-- Claim C4. Rescaling in `calculateTheoreticalCurve`: for a non-empty time grid `t`, and a
Bourdet routine that returns an array of the length of its input, the result is the
triple `(t, factor * pD, factor * dpD)` of sequences of the length of `t`, where
`factor = 1.842e-3 * q * mu * B / (kf * h)` and `(pD, dpD)` is the output of
`calculatePDandDeriv` on the dimensionless times
`tD[i] = 14.4 * kf * t[i] / (phi * mu * Ct * L^2)`. -/
theorem C4_rescaling (E : Ext F) (m_type : ModelType) (m_highPrecision : Bool)
    (params : Params F) (t : List F) (hne : t ≠ [])
    (hB : ∀ (a b : List F) (w : F), (E.calculateBourdetDerivative a b w).length = a.length) :
    calculateTheoreticalCurve E m_type m_highPrecision params t =
      some (t,
        (calculatePDandDeriv E m_highPrecision
          (t.map (fun ti => 14.4 * value params "kf" 1e-3 * ti
            / (value params "phi" 0.05 * value params "mu" 0.5 * value params "Ct" 5e-4
                * value params "L" 1000 ^ 2)))
          params (fun z p => some (flaplace_composite E m_type z p))).1.map
          (fun pD => 1.842e-3 * value params "q" 5 * value params "mu" 0.5 * value params "B" 1.05
            / (value params "kf" 1e-3 * value params "h" 20) * pD),
        (calculatePDandDeriv E m_highPrecision
          (t.map (fun ti => 14.4 * value params "kf" 1e-3 * ti
            / (value params "phi" 0.05 * value params "mu" 0.5 * value params "Ct" 5e-4
                * value params "L" 1000 ^ 2)))
          params (fun z p => some (flaplace_composite E m_type z p))).2.map
          (fun dpD => 1.842e-3 * value params "q" 5 * value params "mu" 0.5
            * value params "B" 1.05 / (value params "kf" 1e-3 * value params "h" 20) * dpD))
    ∧ ((calculatePDandDeriv E m_highPrecision
          (t.map (fun ti => 14.4 * value params "kf" 1e-3 * ti
            / (value params "phi" 0.05 * value params "mu" 0.5 * value params "Ct" 5e-4
                * value params "L" 1000 ^ 2)))
          params (fun z p => some (flaplace_composite E m_type z p))).1.length = t.length
      ∧ (calculatePDandDeriv E m_highPrecision
          (t.map (fun ti => 14.4 * value params "kf" 1e-3 * ti
            / (value params "phi" 0.05 * value params "mu" 0.5 * value params "Ct" 5e-4
                * value params "L" 1000 ^ 2)))
          params (fun z p => some (flaplace_composite E m_type z p))).2.length = t.length) := by
  have l1 : ∀ (tD : List F) f, (calculatePDandDeriv E m_highPrecision tD params f).1.length
      = tD.length := by
    intro tD f; simp [calculatePDandDeriv]
  have l2 : ∀ (tD : List F) f, (calculatePDandDeriv E m_highPrecision tD params f).2.length
      = tD.length := by
    intro tD f
    simp only [calculatePDandDeriv]
    split
    · exact hB _ _ _
    · simp
  have e1 : (5.0 : F) = 5 := by norm_num
  have e2 : (20.0 : F) = 20 := by norm_num
  have e3 : (1000.0 : F) = 1000 := by norm_num
  have hemp : t.isEmpty = false := by
    cases t with
    | nil => exact absurd rfl hne
    | cons a l => rfl
  refine ⟨?_, by rw [l1]; simp, by rw [l2]; simp⟩
  unfold calculateTheoreticalCurve
  simp only [hemp, e1, e2, e3, std_pow_two, Bool.false_eq_true, if_false]
  rw [if_neg (by rw [l1, l2]; simp)]
  rw [map_range_getD _ _ (by rw [l1]; simp), map_range_getD _ _ (by rw [l2]; simp)]


/-- Both boundary terms vanish for the infinite-boundary variants. -/
theorem term_mAB_infinite (E : Ext F) (type : ModelType)
    (h : type = ModelType.Model_1 ∨ type = ModelType.Model_2) (gama2 rmD reD : F) :
    term_mAB_i0 E type gama2 rmD reD = 0 ∧ term_mAB_i1 E type gama2 rmD reD = 0 := by
  rcases h with rfl | rfl <;> simp [term_mAB_i0, term_mAB_i1, isInfinite]

/-- For the infinite-boundary variants `PWD_composite` does not depend on `reD`. -/
theorem PWD_composite_infinite (E : Ext F) (type : ModelType)
    (h : type = ModelType.Model_1 ∨ type = ModelType.Model_2)
    (z fs1 fs2 M12 LfD rmD reD reD' : F) (nf : Nat) (xs : List F) :
    PWD_composite E z fs1 fs2 M12 LfD rmD reD nf xs type
      = PWD_composite E z fs1 fs2 M12 LfD rmD reD' nf xs type := by
  simp only [PWD_composite, Ac_prefactor, Acup, Acdown_scaled, term1, term2,
    (term_mAB_infinite E type h _ _ _).1, (term_mAB_infinite E type h _ _ _).2]

/-- Claim C8. Infinite boundary: for `Model_1` and `Model_2` both boundary-reflection terms
are 0, so the kernel terms are `T0 = K0(gama2 * rmD)` and `T1 = -K1(gama2 * rmD)`, and
the values returned by `PWD_composite` and by `flaplace_composite` are the same for every
value of `reD`, all other inputs being equal. -/
theorem C8_infinite_boundary (E : Ext F) (type : ModelType)
    (h : type = ModelType.Model_1 ∨ type = ModelType.Model_2) :
    (∀ gama2 rmD reD : F,
      term_mAB_i0 E type gama2 rmD reD = 0 ∧ term_mAB_i1 E type gama2 rmD reD = 0
      ∧ term1 E type gama2 rmD reD = E.cyl_bessel_k 0 (gama2 * rmD)
      ∧ term2 E type gama2 rmD reD = -E.cyl_bessel_k 1 (gama2 * rmD))
    ∧ (∀ (z fs1 fs2 M12 LfD rmD reD reD' : F) (nf : Nat) (xs : List F),
      PWD_composite E z fs1 fs2 M12 LfD rmD reD nf xs type
        = PWD_composite E z fs1 fs2 M12 LfD rmD reD' nf xs type)
    ∧ (∀ (z : F) (p p' : Params F), (∀ key, key ≠ "reD" → p key = p' key) →
      flaplace_composite E type z p = flaplace_composite E type z p') := by
  refine ⟨fun gama2 rmD reD => ?_, fun z fs1 fs2 M12 LfD rmD reD reD' nf xs =>
    PWD_composite_infinite E type h z fs1 fs2 M12 LfD rmD reD reD' nf xs, ?_⟩
  · obtain ⟨h0, h1⟩ := term_mAB_infinite E type h gama2 rmD reD
    simp [term1, term2, h0, h1]
  · intro z p p' hp
    have hv : ∀ key d, key ≠ "reD" → value p key d = value p' key d := by
      intro key d hk
      simp only [value, hp key hk]
    have hnf : nfOf p = nfOf p' := by
      simp only [nfOf, hv "nf" 4 (by decide)]
    simp only [flaplace_composite, bare_pf, hnf, hv "kf" 0 (by decide), hv "km" 0 (by decide),
      hv "LfD" 0 (by decide), hv "rmD" 0 (by decide), hv "omega1" 0 (by decide),
      hv "omega2" 0 (by decide), hv "lambda1" 0 (by decide), hv "cD" 0.0 (by decide),
      hv "S" 0.0 (by decide)]
    rw [PWD_composite_infinite E type h _ _ _ _ _ _ (value p "reD" 0.0) (value p' "reD" 0.0)]


/-- The fracture count used by `flaplace_composite` is at least 1. -/
theorem nfOf_ge_one (p : Params F) : 1 ≤ nfOf p := by
  unfold nfOf
  simp only
  split <;> omega

/-- The fracture count used by `flaplace_composite` is `(int)nf` clamped to at least 1. -/
theorem nfOf_eq_max (p : Params F) : nfOf p = max 1 (toInt (value p "nf" 4)) := by
  unfold nfOf
  simp only
  split <;> omega

/-- The vector `xwD` has `nf` entries. -/
theorem xwD_length (nf : Int) (h : 1 ≤ nf) : (xwD nf : List F).length = nf.toNat := by
  unfold xwD
  split
  · rename_i h1; subst h1; rfl
  · simp only [intLoop, List.length_map, List.length_range]
    omega

/-- For `nf ≥ 2`, `xwD[i] = -0.9 + i * 1.8 / (nf - 1)`. -/
theorem xwD_getD (nf : Int) (h : 2 ≤ nf) (i : Nat) (hi : i < nf.toNat) :
    (xwD nf : List F).getD i 0 = -0.9 + (i : F) * 1.8 / ((nf : F) - 1) := by
  unfold xwD
  rw [if_neg (by omega)]
  have hlen : i < (List.range (nf - 1 + 1 - 0).toNat).length := by
    simp only [List.length_range]; omega
  simp only [intLoop, List.map_map, List.getD_eq_getElem?_getD, List.getElem?_map,
    List.getElem?_eq_getElem hlen, List.getElem_range, Option.map_some', Option.getD_some,
    Function.comp]
  push_cast
  ring

/-- The fracture positions in exact arithmetic: the effective fracture count is `(int)nf`
clamped to at least 1 and `xwD` has exactly that many entries; if the count is 1 then
`xwD = [0]`; if it is at least 2 then `xwD[i] = -0.9 + i * 1.8 / (nf - 1)` for
`i = 0..nf-1`, the first position is `-0.9`, the last is `0.9`, consecutive positions
differ by `1.8 / (nf - 1)`, and the positions are strictly increasing and symmetric about
0 (`xwD[i] = -xwD[nf - 1 - i]`). -/
theorem xwD_exact_positions (p : Params F) :
    nfOf p = max 1 (toInt (value p "nf" 4))
    ∧ (xwD (nfOf p) : List F).length = (nfOf p).toNat
    ∧ (nfOf p = 1 → (xwD (nfOf p) : List F) = [0])
    ∧ (2 ≤ nfOf p →
      (∀ i : Nat, i < (nfOf p).toNat →
        (xwD (nfOf p) : List F).getD i 0 = -0.9 + (i : F) * 1.8 / ((nfOf p : F) - 1))
      ∧ (xwD (nfOf p) : List F).getD 0 0 = -0.9
      ∧ (xwD (nfOf p) : List F).getD ((nfOf p).toNat - 1) 0 = 0.9
      ∧ (∀ i : Nat, i + 1 < (nfOf p).toNat →
        (xwD (nfOf p) : List F).getD (i + 1) 0 - (xwD (nfOf p) : List F).getD i 0
          = 1.8 / ((nfOf p : F) - 1))
      ∧ (∀ i j : Nat, i < j → j < (nfOf p).toNat →
        (xwD (nfOf p) : List F).getD i 0 < (xwD (nfOf p) : List F).getD j 0)
      ∧ (∀ i : Nat, i < (nfOf p).toNat →
        (xwD (nfOf p) : List F).getD i 0
          = -(xwD (nfOf p) : List F).getD ((nfOf p).toNat - 1 - i) 0)) := by
  refine ⟨nfOf_eq_max p, xwD_length _ (nfOf_ge_one p), ?_, ?_⟩
  · intro h1
    rw [h1, xwD, if_pos rfl]
    norm_num
  · intro h2
    have hpos : (0 : F) < (nfOf p : F) - 1 := by
      have : (2 : F) ≤ (nfOf p : F) := by exact_mod_cast h2
      linarith
    have hne : ((nfOf p : F) - 1) ≠ 0 := ne_of_gt hpos
    have hcast : (((nfOf p).toNat : Nat) : F) = (nfOf p : F) := by
      have : (((nfOf p).toNat : Nat) : Int) = nfOf p := Int.toNat_of_nonneg (by omega)
      exact_mod_cast congrArg (fun (x : Int) => (x : F)) this
    have hstep : (0 : F) < 1.8 / ((nfOf p : F) - 1) := div_pos (by norm_num) hpos
    refine ⟨fun i hi => xwD_getD _ h2 i hi, ?_, ?_, ?_, ?_, ?_⟩
    · rw [xwD_getD _ h2 0 (by omega)]; simp
    · rw [xwD_getD _ h2 _ (by omega)]
      have : ((((nfOf p).toNat - 1 : Nat)) : F) = (nfOf p : F) - 1 := by
        rw [Nat.cast_sub (by omega), hcast]; simp
      rw [this]
      field_simp
      norm_num
    · intro i hi
      rw [xwD_getD _ h2 _ hi, xwD_getD _ h2 i (by omega)]
      push_cast
      ring
    · intro i j hij hj
      rw [xwD_getD _ h2 _ hj, xwD_getD _ h2 i (by omega)]
      have : (i : F) < (j : F) := by exact_mod_cast hij
      have h3 : (i : F) * (1.8 / ((nfOf p : F) - 1)) < (j : F) * (1.8 / ((nfOf p : F) - 1)) :=
        mul_lt_mul_of_pos_right this hstep
      rw [mul_div_assoc, mul_div_assoc]
      linarith
    · intro i hi
      rw [xwD_getD _ h2 _ hi, xwD_getD _ h2 _ (by omega)]
      have : ((((nfOf p).toNat - 1 - i : Nat)) : F) = (nfOf p : F) - 1 - i := by
        rw [Nat.cast_sub (by omega), Nat.cast_sub (by omega), hcast]; simp
      rw [this]
      field_simp
      ring

/-- The range of the fracture positions in exact arithmetic: for an effective fracture
count of at least 2, each position `xwD[i]` lies in `[-0.9, 0.9]`, whatever the value of
`LfD`. -/
theorem xwD_exact_range (p : Params F) (h2 : 2 ≤ nfOf p) :
    ∀ x ∈ (xwD (nfOf p) : List F), -0.9 ≤ x ∧ x ≤ 0.9 := by
  intro x hx
  obtain ⟨i, hi, rfl⟩ := List.getElem_of_mem hx
  have hlen := xwD_length (F := F) _ (nfOf_ge_one p)
  have hi2 : i < (nfOf p).toNat := by rw [← hlen]; exact hi
  have hg := xwD_getD (F := F) _ h2 i hi2
  rw [List.getD_eq_getElem?_getD, List.getElem?_eq_getElem hi, Option.getD_some] at hg
  rw [hg]
  have hpos : (0 : F) < (nfOf p : F) - 1 := by
    have : (2 : F) ≤ (nfOf p : F) := by exact_mod_cast h2
    linarith
  have hcast : (((nfOf p).toNat : Nat) : F) = (nfOf p : F) := by
    have : (((nfOf p).toNat : Nat) : Int) = nfOf p := Int.toNat_of_nonneg (by omega)
    exact_mod_cast congrArg (fun (x : Int) => (x : F)) this
  have hiF : (i : F) ≤ (nfOf p : F) - 1 := by
    have : (i : F) + 1 ≤ ((nfOf p).toNat : F) := by exact_mod_cast hi2
    rw [hcast] at this
    linarith
  have h0 : (0 : F) ≤ (i : F) := Nat.cast_nonneg i
  constructor
  · have : 0 ≤ (i : F) * 1.8 / ((nfOf p : F) - 1) :=
      div_nonneg (mul_nonneg h0 (by norm_num)) hpos.le
    linarith
  · have : (i : F) * 1.8 / ((nfOf p : F) - 1) ≤ 1.8 := by
      rw [div_le_iff₀ hpos]
      nlinarith
    norm_num at this ⊢
    linarith


/-- On a constant function `gauss15` returns `0.999999 * c * (b - a)`, the tabulated
weights summing to `1.999998`. -/
theorem gauss15_const (c a b : F) : gauss15 (fun _ => c) a b = 0.999999 * c * (b - a) := by
  simp [gauss15, intLoop, List.range_succ, gaussW, gaussX]
  ring

/-- On a constant function `adaptiveGauss` accepts the first estimate. -/
theorem adaptiveGauss_const (c a b eps : F) (h : 0 < eps) (depth maxDepth : Int) :
    adaptiveGauss (fun _ => c) a b eps depth maxDepth = 0.999999 * c * (b - a) := by
  rw [adaptiveGauss]
  simp only [gauss15_const]
  have e : 0.999999 * c * ((a + b) / 2 - a) + 0.999999 * c * (b - (a + b) / 2)
      = 0.999999 * c * (b - a) := by ring
  rw [e, sub_self, abs_zero, if_pos]
  right
  have : 0 ≤ 1e-10 * |0.999999 * c * (b - a)| := mul_nonneg (by norm_num) (abs_nonneg _)
  linarith

/-- The integrand of the example: constant 1. -/
theorem integrand_E0 (a : ℚ) : integrand E0 1 1 0 [0] [0] 0 0 a = 1 := by
  simp [integrand, E0, scaled_besseli]

/-- The value of `PWD_composite` on the single-fracture example. -/
theorem PWD_E0 : PWD_composite E0 1 1 1 1 1 1 0 1 [0] ModelType.Model_1 = 999999 / 1000000 := by
  have hAc : Ac_prefactor E0 ModelType.Model_1 1 1 1 1 0 = 0 := by
    simp [Ac_prefactor, Acup, Acdown_scaled, term1, term2, term_mAB_i0, term_mAB_i1, isInfinite,
      E0, scaled_besseli]
  have hint : integrand E0 1 1 0 [0] [0] 0 0 = fun _ => 1 := funext integrand_E0
  have hA : A_mat E0 1 1 1 1 1 0 1 [0] [0] = !![999999 / 1000000, -1; 1, 0] := by
    ext i j
    fin_cases i <;> fin_cases j <;> simp [A_mat, hint]
    rw [adaptiveGauss_const _ _ _ _ (by norm_num)]
    norm_num
  have hb : b_vec (F := ℚ) 1 = ![0, 1] := by
    ext i
    fin_cases i <;> simp [b_vec]
  simp only [PWD_composite]
  have h1 : E0.sqrt 1 = 1 := by simp [E0]
  simp only [h1, mul_one, hAc, List.replicate]
  rw [hA, hb]
  simp [E0, Matrix.det_fin_two, Matrix.adjugate_fin_two, Matrix.mulVec, Matrix.dotProduct,
    Fin.sum_univ_two]
  rfl


/-- The bare `pf` of `flaplace_composite` on the example `pC6` at `z = 1`. -/
theorem bare_pf_pC6 : bare_pf E0 ModelType.Model_1 1 pC6 = 999999 / 1000000 := by
  have hnf : nfOf pC6 = 1 := by rfl
  have h0 : (0.0 : ℚ) = 0 := by norm_num
  have hx : (xwD 1 : List ℚ) = [0] := by simp [xwD, h0]
  simp only [bare_pf, hnf, hx, h0, show value pC6 "kf" 0 = 1 from rfl,
    show value pC6 "km" 0 = 1 from rfl, show value pC6 "LfD" 0 = 1 from rfl,
    show value pC6 "rmD" 0 = 1 from rfl, show value pC6 "reD" 0 = 0 from rfl,
    show value pC6 "omega1" 0 = 1 from rfl, show value pC6 "omega2" 0 = 1 from rfl,
    show value pC6 "lambda1" 0 = 0 from rfl]
  norm_num
  exact PWD_E0

/-- Claim C6 fails as stated. For `Model_1` at `z = 1` with `cD = -2` and `S = 0`, so that
`|cD| > 1e-12`, `flaplace_composite` returns the bare `pf = 0.999999` and not
`(z * pf + S) / (z + CD * z^2 * (z * pf + S)) = -999999/999998`. -/
theorem C6_counterexample :
    |value pC6 "cD" 0| > 1e-12
    ∧ flaplace_composite E0 ModelType.Model_1 1 pC6 = 999999 / 1000000
    ∧ (1 * bare_pf E0 ModelType.Model_1 1 pC6 + value pC6 "S" 0)
        / (1 + value pC6 "cD" 0 * 1 ^ 2 * (1 * bare_pf E0 ModelType.Model_1 1 pC6
          + value pC6 "S" 0)) = -999999 / 999998 := by
  have hcD : value pC6 "cD" 0 = -2 := rfl
  have hS : value pC6 "S" 0 = 0 := rfl
  refine ⟨by rw [hcD]; norm_num, ?_, ?_⟩
  · rw [flaplace_no_storage E0 _ _ _ (by rw [hcD]; norm_num) (by rw [hS]; norm_num)]
    exact bare_pf_pC6
  · rw [bare_pf_pC6, hcD, hS]
    norm_num

/-- Claim C3. The function `stefestCoefficient` reproduces the published Stehfest tables:
for `N = 4` the coefficients for `i = 1..4` are `-2, 26, -48, 24`, and for `N = 8` the
coefficients for `i = 1..8` are
`-1/3, 145/3, -906, 16394/3, -43130/3, 18730, -35840/3, 8960/3`. -/
theorem C3_stehfest_tables (E : Ext F) :
    [1, 2, 3, 4].map (fun i => stefestCoefficient E i 4) = [-2, 26, -48, 24]
    ∧ [1, 2, 3, 4, 5, 6, 7, 8].map (fun i => stefestCoefficient E i 8)
      = [-1 / 3, 145 / 3, -906, 16394 / 3, -43130 / 3, 18730, -35840 / 3, 8960 / 3] := by
  have a1 := stefestCoefficient_eq_sum E 1 2
  have a2 := stefestCoefficient_eq_sum E 2 2
  have a3 := stefestCoefficient_eq_sum E 3 2
  have a4 := stefestCoefficient_eq_sum E 4 2
  have b1 := stefestCoefficient_eq_sum E 1 4
  have b2 := stefestCoefficient_eq_sum E 2 4
  have b3 := stefestCoefficient_eq_sum E 3 4
  have b4 := stefestCoefficient_eq_sum E 4 4
  have b5 := stefestCoefficient_eq_sum E 5 4
  have b6 := stefestCoefficient_eq_sum E 6 4
  have b7 := stefestCoefficient_eq_sum E 7 4
  have b8 := stefestCoefficient_eq_sum E 8 4
  norm_num [Finset.sum_Icc_succ_top, Nat.factorial] at a1 a2 a3 a4 b1 b2 b3 b4 b5 b6 b7 b8
  simp only [List.map, a1, a2, a3, a4, b1, b2, b3, b4, b5, b6, b7, b8]
  norm_num


/-- The inversion formula on the one-point grid `[1]` with `L(z) = z`. -/
theorem C1_stehfest_inversion_witness :
    ([1] : List ℚ).get ⟨0, by decide⟩ > 1e-12 ∧ |value pW "gamaD" 0| ≤ 1e-9
    ∧ (calculatePDandDeriv E0 true [1] pW (fun z _ => some z)).1[0]? =
      some (E0.log 2 / ([1] : List ℚ).get ⟨0, by decide⟩ *
        ∑ m ∈ Finset.Icc 1 (stehfestN true pW),
          stefestCoefficient E0 m (stehfestN true pW)
            * ((m : ℚ) * E0.log 2 / ([1] : List ℚ).get ⟨0, by decide⟩)) :=
  have h1 : ([1] : List ℚ).get ⟨0, by decide⟩ > 1e-12 := by norm_num
  have h2 : |value pW "gamaD" 0| ≤ 1e-9 := by
    rw [show value pW "gamaD" 0 = 0 from rfl]; norm_num
  ⟨h1, h2, C1_stehfest_inversion E0 true [1] pW (fun z _ => some z) (fun z _ => z) 0
    (by decide) h1 h2 (fun _ _ => rfl)⟩

/-- The coefficient formula at `i = 3`, `N = 8`. -/
theorem C2_stefestCoefficient_formula_witness :
    Even 8 ∧ 2 ≤ 8 ∧ 1 ≤ 3 ∧ 3 ≤ 8
    ∧ stefestCoefficient E0 ((3 : Nat) : Int) ((8 : Nat) : Int) = stehfestCoefficientSpec 3 8 :=
  ⟨by decide, by decide, by decide, by decide,
    C2_stefestCoefficient_formula E0 3 8 (by decide) (by decide) (by decide) (by decide)⟩

/-- The rescaling on the one-point grid `[1]` for `Model_2`. -/
theorem C4_rescaling_witness :
    ([1] : List ℚ) ≠ []
    ∧ (∀ (a b : List ℚ) (w : ℚ), (E0.calculateBourdetDerivative a b w).length = a.length)
    ∧ ∃ P DP, calculateTheoreticalCurve E0 ModelType.Model_2 true pW [1] = some ([1], P, DP)
      ∧ P.length = 1 ∧ DP.length = 1 :=
  have h1 : ([1] : List ℚ) ≠ [] := by simp
  have h2 : ∀ (a b : List ℚ) (w : ℚ), (E0.calculateBourdetDerivative a b w).length = a.length :=
    fun a _ _ => by simp [E0]
  ⟨h1, h2, _, _, (C4_rescaling E0 ModelType.Model_2 true pW [1] h1 h2).1,
    by rw [List.length_map, (C4_rescaling E0 ModelType.Model_2 true pW [1] h1 h2).2.1]; rfl,
    by rw [List.length_map, (C4_rescaling E0 ModelType.Model_2 true pW [1] h1 h2).2.2]; rfl⟩

/-- The stress-sensitivity correction on the one-point grid `[1]` with `gamaD = 1/10`. -/
theorem C5_stress_sensitivity_witness :
    ([1] : List ℚ).get ⟨0, by decide⟩ > 1e-12
    ∧ (calculatePDandDeriv E0 true [1] pG (fun z _ => some z)).1[0]? =
      some (
        if |value pG "gamaD" 0| > 1e-9 then
          if 1 - value pG "gamaD" 0 * outPD_raw E0 (stehfestN true pG) pG
              (fun z _ => some z) (([1] : List ℚ).get ⟨0, by decide⟩) > 1e-12 then
            -(1 / value pG "gamaD" 0) * E0.log (1 - value pG "gamaD" 0 *
              outPD_raw E0 (stehfestN true pG) pG (fun z _ => some z)
                (([1] : List ℚ).get ⟨0, by decide⟩))
          else outPD_raw E0 (stehfestN true pG) pG (fun z _ => some z)
            (([1] : List ℚ).get ⟨0, by decide⟩)
        else outPD_raw E0 (stehfestN true pG) pG (fun z _ => some z)
          (([1] : List ℚ).get ⟨0, by decide⟩)) :=
  have h1 : ([1] : List ℚ).get ⟨0, by decide⟩ > 1e-12 := by norm_num
  ⟨h1, C5_stress_sensitivity E0 true [1] pG (fun z _ => some z) 0 (by decide) h1⟩

/-- The storage-variant equivalence on a parameter set without `cD` and `S`. -/
theorem C7_storage_variant_equivalence_witness :
    value pW "cD" 0 = 0 ∧ value pW "S" 0 = 0
    ∧ flaplace_composite E0 ModelType.Model_2 1 pW = flaplace_composite E0 ModelType.Model_1 1 pW
    ∧ (calculatePDandDeriv E0 true [1, 2] pW
          (fun z q => some (flaplace_composite E0 ModelType.Model_6 z q))).1
        = (calculatePDandDeriv E0 true [1, 2] pW
          (fun z q => some (flaplace_composite E0 ModelType.Model_5 z q))).1 :=
  ⟨rfl, rfl, ((C7_storage_variant_equivalence E0 pW rfl rfl).1 1).1,
    ((C7_storage_variant_equivalence E0 pW rfl rfl).2 true [1, 2]).2.2⟩

/-- The independence of `reD` for `Model_2`, between `reD = 10` and `reD = 1000`. -/
theorem C8_infinite_boundary_witness :
    (ModelType.Model_2 = ModelType.Model_1 ∨ ModelType.Model_2 = ModelType.Model_2)
    ∧ term_mAB_i0 E0 ModelType.Model_2 1 4 10 = 0
    ∧ flaplace_composite E0 ModelType.Model_2 1 (setValue pC6 "reD" 10)
      = flaplace_composite E0 ModelType.Model_2 1 (setValue pC6 "reD" 1000) :=
  ⟨Or.inr rfl, ((C8_infinite_boundary E0 ModelType.Model_2 (Or.inr rfl)).1 1 4 10).1,
    (C8_infinite_boundary E0 ModelType.Model_2 (Or.inr rfl)).2.2 1 _ _
      (fun key hk => by simp [setValue, hk])⟩

/-- Assignment into an empty `QMap`. -/
theorem qmapSet_nil {V : Type} (key : String) (v : V) : qmapSet [] key v = [(key, v)] := rfl

/-- Assignment of a key smaller than the first key of a `QMap`. -/
theorem qmapSet_cons_lt {V : Type} (k key : String) (w v : V) (rest : List (String × V))
    (h : key.data < k.data) : qmapSet ((k, w) :: rest) key v = (key, v) :: (k, w) :: rest := by
  simp [qmapSet, h]

/-- Assignment of a key larger than the first key of a `QMap`. -/
theorem qmapSet_cons_gt {V : Type} (k key : String) (w v : V) (rest : List (String × V))
    (h : k.data < key.data) :
    qmapSet ((k, w) :: rest) key v = (k, w) :: qmapSet rest key v := by
  have h1 : ¬ key.data < k.data := fun h2 => absurd (lt_trans h h2) (lt_irrefl _)
  have h2 : key ≠ k := by
    rintro rfl
    exact lt_irrefl _ h
  simp [qmapSet, h1, h2]

/-- An assignment made in both branches of a test, with different values. -/
theorem qmapSet_ite {V : Type} (c : Bool) (m : List (String × V)) (key : String) (a b : V) :
    (if c = true then qmapSet m key a else qmapSet m key b)
      = qmapSet m key (if c = true then a else b) := by
  cases c <;> rfl

/-- Two assignments made in both branches of a test, with different values. -/
theorem qmapSet_ite_two {V : Type} (c : Bool) (m : List (String × V)) (k1 k2 : String)
    (a b a' b' : V) :
    (if c = true then qmapSet (qmapSet m k1 a) k2 b else qmapSet (qmapSet m k1 a') k2 b')
      = qmapSet (qmapSet m k1 (if c = true then a else a')) k2 (if c = true then b else b') := by
  cases c <;> rfl

/-- The entries of `rawParams` in the order in which the `QMap` is iterated. -/
theorem rawParams_eq (ui : Ui F) :
    rawParams ui =
      [("B", parseInput ui.BEdit), ("Ct", parseInput ui.CtEdit), ("L", parseInput ui.LEdit),
       ("Lf", parseInput ui.LfEdit),
       ("S", if ui.cDEdit_isVisible then parseInput ui.sEdit else [0.0]),
       ("cD", if ui.cDEdit_isVisible then parseInput ui.cDEdit else [0.0]),
       ("gamaD", parseInput ui.gamaDEdit), ("h", parseInput ui.hEdit),
       ("kf", parseInput ui.kfEdit), ("km", parseInput ui.kmEdit),
       ("lambda1", parseInput ui.remda1Edit), ("mu", parseInput ui.muEdit),
       ("nf", parseInput ui.nfEdit), ("omega1", parseInput ui.omga1Edit),
       ("omega2", parseInput ui.omga2Edit), ("phi", parseInput ui.phiEdit),
       ("q", parseInput ui.qEdit),
       ("reD", if ui.reDEdit_isVisible then parseInput ui.reDEdit else [0.0]),
       ("rmD", parseInput ui.rmDEdit), ("t", parseInput ui.tEdit)] := by
  simp only [rawParams, qmapSet_ite, qmapSet_ite_two]
  simp +decide only [qmapSet_nil, qmapSet_cons_lt, qmapSet_cons_gt]
/-- The expression `v.isEmpty() ? 0.0 : v.first()`. -/
theorem first_or_zero (l : List F) : (if l.isEmpty then (0.0 : F) else l.headD 0) = l.headD 0 := by
  cases l with
  | nil => norm_num
  | cons a t => rfl

/-- The keys of `rawParams`, in key order. -/
theorem rawParams_keys (ui : Ui F) :
    (rawParams ui).map Prod.fst =
      ["B", "Ct", "L", "Lf", "S", "cD", "gamaD", "h", "kf", "km", "lambda1", "mu", "nf",
        "omega1", "omega2", "phi", "q", "reD", "rmD", "t"] := by
  rw [rawParams_eq]
  rfl

/-- Every entry of `rawParams` has one of the twenty keys. -/
theorem rawParams_key_mem (ui : Ui F) (e : String × List F) (h : e ∈ rawParams ui) :
    e.1 ∈ ["B", "Ct", "L", "Lf", "S", "cD", "gamaD", "h", "kf", "km", "lambda1", "mu", "nf",
        "omega1", "omega2", "phi", "q", "reD", "rmD", "t"] := by
  rw [← rawParams_keys ui]
  exact List.mem_map_of_mem _ h

/-- The detection loop stops at the first entry, in key order, that is not `t` and has
more than one value. -/
theorem sensitivity_of_split (raw pre post : List (String × List F)) (key : String)
    (vals : List F) (h : raw = pre ++ (key, vals) :: post)
    (hpre : ∀ e ∈ pre, e.1 = "t" ∨ e.2.length ≤ 1) (hk : key ≠ "t") (hv : 1 < vals.length) :
    sensitivity raw = (key, vals) := by
  subst h
  unfold sensitivity
  have h1 : List.find? (fun e : String × List F => !(e.1 == "t") && decide (e.2.length > 1)) pre
      = none := by
    rw [List.find?_eq_none]
    intro e he
    rcases hpre e he with h2 | h2
    · simp [h2]
    · simp
      intro _
      exact h2
  rw [List.find?_append, h1]
  simp [hk, hv]

/-- The detection loop finds nothing when no entry other than `t` has several values. -/
theorem sensitivity_none (raw : List (String × List F))
    (h : ∀ e ∈ raw, e.1 = "t" ∨ e.2.length ≤ 1) : sensitivity raw = ("", []) := by
  unfold sensitivity
  have h1 : List.find? (fun e : String × List F => !(e.1 == "t") && decide (e.2.length > 1)) raw
      = none := by
    rw [List.find?_eq_none]
    intro e he
    rcases h e he with h2 | h2
    · simp [h2]
    · simp
      intro _
      exact h2
  rw [h1]

/-- The detection loop returns nothing or an entry of the map. -/
theorem sensitivity_cases (raw : List (String × List F)) :
    sensitivity raw = ("", []) ∨ sensitivity raw ∈ raw := by
  unfold sensitivity
  cases h : List.find? (fun e : String × List F => !(e.1 == "t") && decide (e.2.length > 1)) raw with
  | none => exact Or.inl rfl
  | some e => exact Or.inr (List.mem_of_find?_eq_some h)

/-- The swept key is never `N` nor `LfD`, which are not keys of `rawParams`. -/
theorem sensitivity_key_not_N_LfD (ui : Ui F) :
    (sensitivity (rawParams ui)).1 ≠ "N" ∧ (sensitivity (rawParams ui)).1 ≠ "LfD" := by
  rcases sensitivity_cases (rawParams ui) with h | h
  · rw [h]
    exact ⟨by simp, by simp⟩
  · have := rawParams_key_mem ui _ h
    revert this
    generalize (sensitivity (rawParams ui)).1 = k
    intro hk
    simp only [List.mem_cons, List.mem_singleton, List.not_mem_nil, or_false] at hk
    rcases hk with h | h | h | h | h | h | h | h | h | h | h | h | h | h | h | h | h | h | h | h <;>
      subst h <;> decide

/-- A detected key is not the empty string. -/
theorem isSensitivity_of_mem (ui : Ui F) (h : sensitivity (rawParams ui) ∈ rawParams ui) :
    isSensitivity (rawParams ui) = true := by
  unfold isSensitivity
  have := rawParams_key_mem ui _ h
  revert this
  generalize (sensitivity (rawParams ui)).1 = k
  intro hk
  simp only [List.mem_cons, List.mem_singleton, List.not_mem_nil, or_false] at hk
  rcases hk with h | h | h | h | h | h | h | h | h | h | h | h | h | h | h | h | h | h | h | h <;>
    subst h <;> decide
/-- Reading the key just assigned. -/
theorem setValue_same (m : Params F) (key : String) (v : F) : setValue m key v key = some v := by
  simp [setValue]

/-- Reading another key than the one just assigned. -/
theorem setValue_other (m : Params F) (key k : String) (v : F) (h : k ≠ key) :
    setValue m key v k = m k := by
  simp [setValue, h]

/-- In `baseParams`, `N` is 8 in high-precision mode and 4 otherwise. -/
theorem baseParams_N (hp : Bool) (ui : Ui F) :
    baseParams hp ui "N" = some (if hp then 8 else 4) := by
  have e8 : (8.0 : F) = 8 := by norm_num
  have e4 : (4.0 : F) = 4 := by norm_num
  unfold baseParams
  split_ifs <;> simp [setValue, e8, e4]

/-- In `baseParams`, every key of `rawParams` carries the first value of its entry. -/
theorem baseParams_raw (hp : Bool) (ui : Ui F) (e : String × List F) (he : e ∈ rawParams ui) :
    baseParams hp ui e.1 = some (e.2.headD 0) := by
  have hfold : ∀ k : String, k ≠ "N" → k ≠ "LfD" → baseParams hp ui k =
      (rawParams ui).foldl (fun (m : Params F) (it : String × List F) =>
        setValue m it.1 (it.2.headD 0)) (fun _ => none) k := by
    intro k h1 h2
    unfold baseParams
    simp only [first_or_zero]
    split_ifs <;> rw [setValue_other _ _ _ _ h2, setValue_other _ _ _ _ h1]
  rw [rawParams_eq] at he
  simp only [List.mem_cons, List.mem_singleton, List.not_mem_nil, or_false] at he
  rcases he with h | h | h | h | h | h | h | h | h | h | h | h | h | h | h | h | h | h | h | h <;>
    subst h <;> rw [hfold _ (by simp) (by simp), rawParams_eq] <;>
    simp [List.foldl, setValue]

/-- The call `value` on the key just assigned. -/
theorem value_setValue_same (m : Params F) (key : String) (v d : F) :
    value (setValue m key v) key d = v := by
  simp [value, setValue]

/-- The call `value` on another key than the one just assigned. -/
theorem value_setValue_other (m : Params F) (key k : String) (v d : F) (h : k ≠ key) :
    value (setValue m key v) k d = value m k d := by
  simp [value, setValue, h]

/-- Without a swept key, every iteration uses `baseParams`. -/
theorem currentParams_not_sensitive (hp : Bool) (ui : Ui F) (i : Nat)
    (h : sensitivity (rawParams ui) = ("", [])) :
    currentParams hp ui i = baseParams hp ui := by
  have he : ("" : String).isEmpty = true := by decide
  unfold currentParams isSensitivity
  rw [h]
  simp [he]

/-- An iteration changes only the swept key and `LfD`. -/
theorem currentParams_other (hp : Bool) (ui : Ui F) (i : Nat) (k : String)
    (h1 : k ≠ (sensitivity (rawParams ui)).1) (h2 : k ≠ "LfD") :
    currentParams hp ui i k = baseParams hp ui k := by
  unfold currentParams
  simp only
  split
  · split
    · split
      · rw [setValue_other _ _ _ _ h2, setValue_other _ _ _ _ h1]
      · rw [setValue_other _ _ _ _ h1]
    · rw [setValue_other _ _ _ _ h1]
  · rfl

/-- Iteration `i` gives the swept key its `i`-th value. -/
theorem currentParams_key (hp : Bool) (ui : Ui F) (i : Nat)
    (h : sensitivity (rawParams ui) ∈ rawParams ui) :
    currentParams hp ui i (sensitivity (rawParams ui)).1
      = some ((sensitivity (rawParams ui)).2.getD i 0) := by
  have hk := (sensitivity_key_not_N_LfD ui).2
  unfold currentParams
  simp only
  rw [if_pos (isSensitivity_of_mem ui h)]
  split
  · split
    · rw [setValue_other _ _ _ _ hk, setValue_same]
    · rw [setValue_same]
  · rw [setValue_same]

/-- In every iteration `N` is 8 in high-precision mode and 4 otherwise. -/
theorem currentParams_N (hp : Bool) (ui : Ui F) (i : Nat) :
    currentParams hp ui i "N" = some (if hp then 8 else 4) := by
  rw [currentParams_other hp ui i "N" (sensitivity_key_not_N_LfD ui).1.symm (by decide),
    baseParams_N]

/-- With a swept key, the number of iterations is its number of values capped at 6. -/
theorem iterations_of_mem (ui : Ui F) (h : sensitivity (rawParams ui) ∈ rawParams ui) :
    iterations ui = min (sensitivity (rawParams ui)).2.length 6 := by
  unfold iterations
  simp only
  rw [if_pos (isSensitivity_of_mem ui h)]
  rfl

/-- Without a swept key there is one iteration. -/
theorem iterations_not_sensitive (ui : Ui F) (h : sensitivity (rawParams ui) = ("", [])) :
    iterations ui = 1 := by
  unfold iterations isSensitivity
  rw [h]
  rfl

/-- Claim C19. Sensitivity sweep in `runCalculation`: if `key` is the first entry of
`rawParams` in key order that is not `t` and has `k > 1` values, the pipeline is run
`min(k, 6)` times, 6 being the number of display colours, iteration `i` using the `i`-th
value for `key` and the base value for every other key apart from `LfD`; if no entry
other than `t` has more than one value, one curve is computed from the base values.
The base value of a key is the first value of its entry. -/
theorem C19_sensitivity_sweep (E : Ext F) (m_type : ModelType) (m_highPrecision : Bool)
    (ui : Ui F) :
    (∀ (pre post : List (String × List F)) (key : String) (vals : List F),
      rawParams ui = pre ++ (key, vals) :: post →
      (∀ e ∈ pre, e.1 = "t" ∨ e.2.length ≤ 1) → key ≠ "t" → 1 < vals.length →
      (runCalculation E m_type m_highPrecision ui).length = min vals.length 6
      ∧ ∀ i : Nat, i < min vals.length 6 →
        (runCalculation E m_type m_highPrecision ui)[i]?
          = some (calculateTheoreticalCurve E m_type m_highPrecision
              (currentParams m_highPrecision ui i) (timeGrid E m_highPrecision ui))
        ∧ currentParams m_highPrecision ui i key = some (vals.getD i 0)
        ∧ ∀ key' : String, key' ≠ key → key' ≠ "LfD" →
          currentParams m_highPrecision ui i key' = baseParams m_highPrecision ui key')
    ∧ ((∀ e ∈ rawParams ui, e.1 = "t" ∨ e.2.length ≤ 1) →
      runCalculation E m_type m_highPrecision ui
        = [calculateTheoreticalCurve E m_type m_highPrecision (baseParams m_highPrecision ui)
            (timeGrid E m_highPrecision ui)])
    ∧ (∀ e ∈ rawParams ui, baseParams m_highPrecision ui e.1 = some (e.2.headD 0))
    ∧ (rawParams ui).map Prod.fst =
      ["B", "Ct", "L", "Lf", "S", "cD", "gamaD", "h", "kf", "km", "lambda1", "mu", "nf",
        "omega1", "omega2", "phi", "q", "reD", "rmD", "t"]
    ∧ m_colorList.length = 6 := by
  refine ⟨?_, ?_, baseParams_raw m_highPrecision ui, rawParams_keys ui, rfl⟩
  · intro pre post key vals hsplit hpre hkey hvals
    have hs := sensitivity_of_split (rawParams ui) pre post key vals hsplit hpre hkey hvals
    have hmem : sensitivity (rawParams ui) ∈ rawParams ui := by
      rw [hs, hsplit]
      simp
    have hit := iterations_of_mem ui hmem
    rw [hs] at hit
    simp only at hit
    refine ⟨by simp [runCalculation, hit], fun i hi => ⟨?_, ?_, ?_⟩⟩
    · simp only [runCalculation, List.getElem?_map, hit]
      rw [List.getElem?_range hi]
      rfl
    · have := currentParams_key m_highPrecision ui i hmem
      rw [hs] at this
      exact this
    · intro key' h1 h2
      exact currentParams_other m_highPrecision ui i key' (by rw [hs]; exact h1) h2
  · intro h
    have hs := sensitivity_none (rawParams ui) h
    have hr : List.range 1 = [0] := rfl
    simp only [runCalculation, iterations_not_sensitive ui hs, hr, List.map_cons,
      List.map_nil, currentParams_not_sensitive m_highPrecision ui 0 hs]
/-- The first loop of `baseParams` stores the first values of `L` and `Lf`. -/
theorem fold_L (ui : Ui F) :
    value ((rawParams ui).foldl (fun (m : Params F) (it : String × List F) =>
        setValue m it.1 (it.2.headD 0)) (fun _ => none)) "L" 0 = (parseInput ui.LEdit).headD 0
    ∧ value ((rawParams ui).foldl (fun (m : Params F) (it : String × List F) =>
        setValue m it.1 (it.2.headD 0)) (fun _ => none)) "Lf" 0
      = (parseInput ui.LfEdit).headD 0 := by
  rw [rawParams_eq]
  constructor <;> simp [List.foldl, setValue, value]

/-- The base-case rule: `LfD = Lf / L` when `L > 1e-9` and 0 otherwise. -/
theorem baseParams_LfD (hp : Bool) (ui : Ui F) :
    baseParams hp ui "LfD" =
      some (if (parseInput ui.LEdit).headD 0 > 1e-9 then
        (parseInput ui.LfEdit).headD 0 / (parseInput ui.LEdit).headD 0 else 0) := by
  unfold baseParams
  simp only [first_or_zero, value_setValue_other _ "N" "L" _ _ (by decide),
    value_setValue_other _ "N" "Lf" _ _ (by decide), (fold_L ui).1, (fold_L ui).2]
  split_ifs <;> rw [setValue_same]

/-- On the example `ui0` the swept key is `L`, with values `1000, 0`. -/
theorem sensitivity_ui0 : sensitivity (rawParams ui0) = ("L", [1000, 0]) := by
  rw [rawParams_eq]
  rfl

/-- Claim C20 at the failing input. With `L` entered as `1000, 0` and `Lf` as `100`, the
second iteration of the sweep hands `L = 0`, `Lf = 100` and `LfD = 1/10` to
`calculateTheoreticalCurve`: `LfD` keeps its base value `100 / 1000`, whereas the
base-case rule gives 0 for `L = 0`. -/
theorem C20_LfD_not_recomputed :
    sensitivity (rawParams ui0) = ("L", [1000, 0]) ∧ iterations ui0 = 2
    ∧ currentParams true ui0 1 "L" = some 0
    ∧ currentParams true ui0 1 "Lf" = some 100
    ∧ currentParams true ui0 1 "LfD" = some (1 / 10)
    ∧ (if (0 : ℚ) > 1e-9 then (100 : ℚ) / 0 else 0) = 0 := by
  have hs := sensitivity_ui0
  have hmem : sensitivity (rawParams ui0) ∈ rawParams ui0 := by
    rcases sensitivity_cases (rawParams ui0) with h | h
    · rw [hs] at h
      exact absurd h (by simp)
    · exact h
  have hL := currentParams_key true ui0 1 hmem
  rw [hs] at hL
  have hLf : currentParams true ui0 1 "Lf" = some 100 := by
    rw [currentParams_other true ui0 1 "Lf" (by rw [hs]; decide) (by decide)]
    exact baseParams_raw true ui0 ("Lf", [100]) (by rw [rawParams_eq]; simp [parseInput, ui0])
  refine ⟨hs, ?_, hL, hLf, ?_, by norm_num⟩
  · rw [iterations_of_mem ui0 hmem, hs]
    rfl
  · have hv : value (setValue (baseParams true ui0) "L" 0) "L" 0 = (0 : ℚ) :=
      value_setValue_same _ _ _ _
    unfold currentParams
    simp only
    rw [if_pos (isSensitivity_of_mem ui0 hmem), hs]
    simp only [true_or, if_true, List.getD_cons_succ, List.getD_cons_zero, hv]
    rw [if_neg (by norm_num), setValue_other _ _ _ _ (by decide), baseParams_LfD]
    simp [parseInput, ui0]
    norm_num

/-- The test `N % 2 == 0` on an `int` holds exactly for even `N`. -/
theorem tmod_two_eq_zero_iff (n : Int) : n.tmod 2 = 0 ↔ Even n := by
  rw [← Int.dvd_iff_tmod_eq_zero, even_iff_two_dvd]

/-- The conversion `(int)x` of a natural number. -/
theorem toInt_natCast (n : Nat) : toInt ((n : Nat) : F) = (n : Int) := by
  simp [toInt]

/-- Claim C11, as amended. Stehfest order selection: with high-precision mode off the
effective order `N` of `calculatePDandDeriv` is 4 for every parameter set; with
high-precision mode on it is the order `(int)N` carried by the parameter set (4 when the
key is absent) if that is even, and 4 otherwise, hence 8 when the parameter set carries
`N = 8`; for every parameter set that `runCalculation` builds, it is 8 when
high-precision mode is on and 4 when it is off. -/
theorem C11_order_selection (m_highPrecision : Bool) (params : Params F) (ui : Ui F) (i : Nat) :
    stehfestN false params = 4
    ∧ stehfestN true params
      = (if Even (toInt (value params "N" 4)) then toInt (value params "N" 4) else 4)
    ∧ (value params "N" 4 = 8 → stehfestN true params = 8)
    ∧ stehfestN m_highPrecision (currentParams m_highPrecision ui i)
      = (if m_highPrecision then 8 else 4) := by
  have h4 : Int.tmod 4 2 = 0 := by decide
  have h8 : Int.tmod 8 2 = 0 := by decide
  have t8 : toInt (8 : F) = 8 := by simpa using toInt_natCast (F := F) 8
  have t4 : toInt (4 : F) = 4 := by simpa using toInt_natCast (F := F) 4
  refine ⟨by simp [stehfestN, h4], ?_, ?_, ?_⟩
  · by_cases h : (toInt (value params "N" 4)).tmod 2 = 0
    · simp [stehfestN, h, (tmod_two_eq_zero_iff _).mp h]
    · have : ¬ Even (toInt (value params "N" 4)) := fun he => h ((tmod_two_eq_zero_iff _).mpr he)
      simp [stehfestN, h, this]
  · intro h
    simp [stehfestN, h, t8, h8]
  · have hN : value (currentParams m_highPrecision ui i) "N" 4
        = if m_highPrecision then 8 else 4 := by
      simp [value, currentParams_N]
    cases m_highPrecision
    · simp [stehfestN, h4]
    · simp only [stehfestN, hN, if_true, t8, h8, ne_eq, not_true_eq_false, if_false]

/-- Claim C11 fails as stated. With high-precision mode on, a parameter set without the
key `N` gives the order 4, and one with `N = 6` gives the order 6, not 8. -/
theorem C11_counterexample :
    stehfestN true pEmpty = 4 ∧ stehfestN true pN6 = 6 := by
  constructor <;> rfl
/-- In an iteration of a sweep on `L` or `Lf` whose `L` exceeds `1e-9`, `LfD` is recomputed
as `Lf / L`. -/
theorem currentParams_LfD_recomputed (hp : Bool) (ui : Ui F) (i : Nat)
    (h : sensitivity (rawParams ui) ∈ rawParams ui)
    (hk : (sensitivity (rawParams ui)).1 = "L" ∨ (sensitivity (rawParams ui)).1 = "Lf")
    (hL : value (currentParams hp ui i) "L" 0 > 1e-9) :
    currentParams hp ui i "LfD"
      = some (value (currentParams hp ui i) "Lf" 0 / value (currentParams hp ui i) "L" 0) := by
  unfold currentParams at hL ⊢
  simp only [if_pos (isSensitivity_of_mem ui h), if_pos hk] at hL ⊢
  split_ifs at hL ⊢ with hc
  · rw [setValue_same, value_setValue_other _ "LfD" "Lf" _ _ (by decide),
      value_setValue_other _ "LfD" "L" _ _ (by decide)]
  · exact absurd hL hc
/-- Claim C12. The effective Stehfest order is always even: for every configured value of
the parameter `N` and either precision mode, the `N` used in the summation loop of
`calculatePDandDeriv` is even, and it is 4 whenever the configured `N` is odd or
high-precision mode is off. -/
theorem C12_order_even (m_highPrecision : Bool) (params : Params F) :
    Even (stehfestN m_highPrecision params)
    ∧ (Odd (toInt (value params "N" 4)) ∨ m_highPrecision = false →
      stehfestN m_highPrecision params = 4) := by
  have h4 : Int.tmod 4 2 = 0 := by decide
  cases m_highPrecision
  · simp [stehfestN, h4]
    exact ⟨2, rfl⟩
  · by_cases h : (toInt (value params "N" 4)).tmod 2 = 0
    · have he := (tmod_two_eq_zero_iff _).mp h
      simp only [stehfestN, if_true, h, ne_eq, not_true_eq_false, if_false]
      refine ⟨he, fun h2 => ?_⟩
      rcases h2 with h2 | h2
      · exact absurd he (Int.not_even_iff_odd.mpr h2)
      · exact absurd h2 (by decide)
    · simp only [stehfestN, if_true, h, ne_eq, not_false_eq_true]
      exact ⟨⟨2, rfl⟩, fun _ => trivial⟩

/-- Claim C13. Early-time guard: for every time-grid entry with `tD[k] ≤ 1e-12`,
`calculatePDandDeriv` sets `outPD[k] = 0`, whatever the Laplace-space function (it is not
evaluated) and whatever the parameter set, a non-zero `gamaD` included. -/
theorem C13_early_time_guard (E : Ext F) (m_highPrecision : Bool) (tD : List F)
    (params : Params F) (laplaceFunc : F → Params F → Option F)
    (k : Nat) (hk : k < tD.length) (ht : tD.get ⟨k, hk⟩ ≤ 1e-12) :
    (calculatePDandDeriv E m_highPrecision tD params laplaceFunc).1[k]? = some 0 := by
  simp only [calculatePDandDeriv, List.getElem?_map, List.getElem?_eq_getElem hk,
    Option.map_some', List.get_eq_getElem] at *
  rw [outPD, if_pos ht]

/-- Claim C14. Non-finite Laplace evaluations are replaced by 0: when the Laplace-space
function is finite, with value `L m`, exactly at the abscissas `m` of a set `S` among
`1..N` and non-finite at the others, the Stehfest sum accumulated by
`calculatePDandDeriv` is the sum of `stefestCoefficient(m, N) * L m` over `S` only. -/
theorem C14_nonfinite_as_zero (E : Ext F) (N : Int) (params : Params F)
    (laplaceFunc : F → Params F → Option F) (t : F) (S : Finset Int) (L : Int → F)
    (hS : S ⊆ Finset.Icc 1 N)
    (hfin : ∀ m ∈ S, laplaceFunc ((m : F) * E.log 2 / t) params = some (L m))
    (hnon : ∀ m ∈ Finset.Icc 1 N, m ∉ S → laplaceFunc ((m : F) * E.log 2 / t) params = none) :
    pd_val E N params laplaceFunc t = ∑ m ∈ S, stefestCoefficient E m N * L m := by
  rw [pd_val_eq_sum, ← Finset.sum_subset hS]
  · apply Finset.sum_congr rfl
    intro m hm
    rw [hfin m hm, Option.getD_some]
  · intro m hm hmS
    rw [hnon m hm hmS]
    simp

/-- Claim C15. Derivative for short grids: the pressure sequence of `calculatePDandDeriv`
has the length of the grid, and for a grid with fewer than 3 points the derivative
sequence has the same length with all entries 0 and the result does not depend on the
Bourdet routine (it is not called). -/
theorem C15_short_grid_derivative (E : Ext F) (m_highPrecision : Bool) (tD : List F)
    (params : Params F) (laplaceFunc : F → Params F → Option F) :
    (calculatePDandDeriv E m_highPrecision tD params laplaceFunc).1.length = tD.length
    ∧ (tD.length < 3 →
      (calculatePDandDeriv E m_highPrecision tD params laplaceFunc).2
          = List.replicate tD.length 0
      ∧ ∀ bourdet : List F → List F → F → List F,
        calculatePDandDeriv { E with calculateBourdetDerivative := bourdet } m_highPrecision tD
            params laplaceFunc
          = calculatePDandDeriv E m_highPrecision tD params laplaceFunc) := by
  have h0 : (0.0 : F) = 0 := by norm_num
  refine ⟨by simp [calculatePDandDeriv], fun h => ⟨?_, fun bourdet => ?_⟩⟩
  · simp only [calculatePDandDeriv, h0]
    rw [if_neg (by omega)]
  · have e : outPD { E with calculateBourdetDerivative := bourdet }
        (stehfestN m_highPrecision params) params laplaceFunc
        = outPD E (stehfestN m_highPrecision params) params laplaceFunc := by
      funext t
      rfl
    simp only [calculatePDandDeriv, e]
    rw [if_neg (by omega), if_neg (by omega)]
/-- At `depth ≥ maxDepth`, `adaptiveGauss` returns the two half-interval estimates. -/
theorem adaptiveGauss_base (f : F → F) (a b eps : F) (depth maxDepth : Int)
    (h : depth ≥ maxDepth) :
    adaptiveGauss f a b eps depth maxDepth
      = gauss15 f a ((a + b) / 2) + gauss15 f ((a + b) / 2) b := by
  rw [adaptiveGauss]
  exact if_pos (Or.inl h)

/-- A bound of `maxDepth - depth` nested calls is enough for `adaptiveGauss`. -/
theorem adaptiveGaussFuel_eq (n : Nat) :
    ∀ (f : F → F) (a b eps : F) (depth maxDepth : Int), (maxDepth - depth).toNat ≤ n →
      adaptiveGaussFuel n f a b eps depth maxDepth
        = some (adaptiveGauss f a b eps depth maxDepth) := by
  induction n with
  | zero =>
    intro f a b eps depth maxDepth h
    have hd : depth ≥ maxDepth := by omega
    rw [adaptiveGauss_base f a b eps depth maxDepth hd]
    simp only [adaptiveGaussFuel]
    rw [if_pos (Or.inl hd)]
  | succ n ih =>
    intro f a b eps depth maxDepth h
    rw [adaptiveGauss]
    simp only [adaptiveGaussFuel]
    split
    · rfl
    · rename_i hc
      have hd : ¬ depth ≥ maxDepth := fun h1 => hc (Or.inl h1)
      rw [ih f a _ _ (depth + 1) maxDepth (by omega), ih f _ b _ (depth + 1) maxDepth (by omega)]

/-- Claim C18. The function `adaptiveGauss` terminates for every integrand, interval,
tolerance and pair of integers `depth`, `maxDepth`: at most `max(0, maxDepth - depth)`
nested recursive calls are needed to return its value; and whenever
`depth ≥ maxDepth` it returns, without recursing, the sum of the two half-interval
`gauss15` estimates. -/
theorem C18_adaptiveGauss_terminates (f : F → F) (a b eps : F) (depth maxDepth : Int) :
    adaptiveGaussFuel (max 0 (maxDepth - depth)).toNat f a b eps depth maxDepth
      = some (adaptiveGauss f a b eps depth maxDepth)
    ∧ (depth ≥ maxDepth →
      adaptiveGauss f a b eps depth maxDepth
          = gauss15 f a ((a + b) / 2) + gauss15 f ((a + b) / 2) b
      ∧ adaptiveGaussFuel 0 f a b eps depth maxDepth
          = some (gauss15 f a ((a + b) / 2) + gauss15 f ((a + b) / 2) b)) := by
  refine ⟨adaptiveGaussFuel_eq _ f a b eps depth maxDepth (by omega), fun h => ?_⟩
  refine ⟨adaptiveGauss_base f a b eps depth maxDepth h, ?_⟩
  rw [adaptiveGaussFuel_eq 0 f a b eps depth maxDepth (by omega),
    adaptiveGauss_base f a b eps depth maxDepth h]
/-- The function `flaplace_composite` depends on the parameter set only through its
reads. -/
theorem flaplace_composite_congr (E : Ext F) (m_type : ModelType) (z : F) (p q : Params F)
    (h : ∀ k d, (k, d) ∈ paramReads F → value p k d = value q k d) :
    flaplace_composite E m_type z p = flaplace_composite E m_type z q := by
  have e1 := h "kf" 0 (by simp [paramReads])
  have e2 := h "km" 0 (by simp [paramReads])
  have e3 := h "LfD" 0 (by simp [paramReads])
  have e4 := h "rmD" 0 (by simp [paramReads])
  have e5 := h "reD" 0.0 (by simp [paramReads])
  have e6 := h "omega1" 0 (by simp [paramReads])
  have e7 := h "omega2" 0 (by simp [paramReads])
  have e8 := h "lambda1" 0 (by simp [paramReads])
  have e9 := h "nf" 4 (by simp [paramReads])
  have e10 := h "cD" 0.0 (by simp [paramReads])
  have e11 := h "S" 0.0 (by simp [paramReads])
  simp only [flaplace_composite, bare_pf, nfOf, e1, e2, e3, e4, e5, e6, e7, e8, e9, e10, e11]

/-- The function `calculateTheoreticalCurve` depends on the parameter set only through
its reads. -/
theorem calculateTheoreticalCurve_congr (E : Ext F) (m_type : ModelType) (hp : Bool)
    (p q : Params F) (tg : List F)
    (h : ∀ k d, (k, d) ∈ paramReads F → value p k d = value q k d) :
    calculateTheoreticalCurve E m_type hp p tg = calculateTheoreticalCurve E m_type hp q tg := by
  have e1 := h "phi" 0.05 (by simp [paramReads])
  have e2 := h "mu" 0.5 (by simp [paramReads])
  have e3 := h "B" 1.05 (by simp [paramReads])
  have e4 := h "Ct" 5e-4 (by simp [paramReads])
  have e5 := h "q" 5.0 (by simp [paramReads])
  have e6 := h "h" 20.0 (by simp [paramReads])
  have e7 := h "kf" 1e-3 (by simp [paramReads])
  have e8 := h "L" 1000.0 (by simp [paramReads])
  have e9 := h "N" 4 (by simp [paramReads])
  have e10 := h "gamaD" 0.0 (by simp [paramReads])
  have hN : stehfestN hp p = stehfestN hp q := by
    simp only [stehfestN, e9]
  have hout : ∀ N, outPD E N p (fun z r => some (flaplace_composite E m_type z r))
      = outPD E N q (fun z r => some (flaplace_composite E m_type z r)) := by
    intro N
    funext t
    simp only [outPD, outPD_raw, pd_val, e10, flaplace_composite_congr E m_type _ p q h]
  have hcalc : ∀ tD, calculatePDandDeriv E hp tD p
        (fun z r => some (flaplace_composite E m_type z r))
      = calculatePDandDeriv E hp tD q (fun z r => some (flaplace_composite E m_type z r)) := by
    intro tD
    simp only [calculatePDandDeriv, hN, hout]
  simp only [calculateTheoreticalCurve, e1, e2, e3, e4, e5, e6, e7, e8, hcalc]

/-- Reading an absent key with default `d` is reading it after the assignment of `d`. -/
theorem value_setValue_absent (params : Params F) (key k : String) (d e : F)
    (habs : params key = none) (h : k = key → e = d) :
    value params k e = value (setValue params key d) k e := by
  by_cases hk : k = key
  · subst hk
    simp [value, setValue, habs, h rfl]
  · simp [value, setValue, hk]

/-- Claim C17, as amended. A key absent from the parameter set passed to
`calculateTheoreticalCurve` is treated as carrying the default written where the key
is read: the result is the same as with that default assigned to the key.  The default
is 0 for `km`, `LfD`, `rmD`, `reD`, `omega1`, `omega2`, `lambda1`, `gamaD`, `cD` and
`S`; it is `0.05` for `phi`, `0.5` for `mu`, `1.05` for `B`, `5e-4` for `Ct`, 5 for `q`,
20 for `h`, 1000 for `L`, and 4 for `N` and `nf`. -/
theorem C17_missing_parameter_defaults (E : Ext F) (m_type : ModelType)
    (m_highPrecision : Bool) (params : Params F) (providedTime : List F) (key : String) (d : F)
    (hmem : (key, d) ∈ paramDefaults F) (habs : params key = none) :
    calculateTheoreticalCurve E m_type m_highPrecision params providedTime
      = calculateTheoreticalCurve E m_type m_highPrecision (setValue params key d)
          providedTime := by
  apply calculateTheoreticalCurve_congr
  intro k e hk
  apply value_setValue_absent params key k d e habs
  simp only [paramDefaults, List.mem_cons, List.mem_singleton, List.not_mem_nil, or_false,
    Prod.mk.injEq] at hmem
  simp only [paramReads, List.mem_cons, List.mem_singleton, List.not_mem_nil, or_false,
    Prod.mk.injEq] at hk
  rcases hmem with h | h | h | h | h | h | h | h | h | h | h | h | h | h | h | h | h | h | h <;>
    obtain ⟨rfl, rfl⟩ := h <;>
    rcases hk with h | h | h | h | h | h | h | h | h | h | h | h | h | h | h | h | h | h | h
      | h | h <;>
    obtain ⟨rfl, rfl⟩ := h <;>
    simp
/-- The value of `PWD_composite` on the single-fracture example, at any `z ≠ 0`. -/
theorem PWD_E0_z (z : ℚ) (hz : z ≠ 0) :
    PWD_composite E0 z 1 1 1 1 1 0 1 [0] ModelType.Model_2 = 999999 / 1000000 / z := by
  have hs : E0.sqrt (z * 1) = z := by simp [E0]
  have hAc : Ac_prefactor E0 ModelType.Model_2 1 z z 1 0 = 0 := by
    have : Acup E0 ModelType.Model_2 1 z z 1 0 = 0 := by
      simp [Acup, term1, term2, term_mAB_i0, term_mAB_i1, isInfinite, E0]
    rw [Ac_prefactor, this, zero_div]
  have hint : integrand E0 z z 0 [0] [0] 0 0 = fun _ => 1 := by
    funext a
    simp [integrand, E0]
  have hA : A_mat E0 z 1 1 z (z * 1) 0 1 [0] [0] = !![999999 / 1000000, -1; z, 0] := by
    ext i j
    fin_cases i <;> fin_cases j <;> simp [A_mat, hint]
    rw [adaptiveGauss_const _ _ _ _ (by norm_num)]
    field_simp
    ring
  have hb : b_vec (F := ℚ) 1 = ![0, 1] := by
    ext i
    fin_cases i <;> simp [b_vec]
  simp only [PWD_composite, hs, hAc, List.replicate]
  rw [hA, hb]
  simp [E0, Matrix.det_fin_two, Matrix.adjugate_fin_two, Matrix.mulVec, Matrix.dotProduct,
    Fin.sum_univ_two]
  have : (![![0, 1], ![-z, 999999 / 1000000]] (Fin.last 1)) = ![-z, 999999 / 1000000] := rfl
  rw [this]
  simp
  field_simp
  ring

/-- The value of `flaplace_composite` for `Model_2` on the single-fracture example, at
any `z ≠ 0`. -/
theorem flaplace_E0_z (z : ℚ) (hz : z ≠ 0) (p : Params ℚ)
    (h1 : value p "kf" 0 = 1) (h2 : value p "km" 0 = 1) (h3 : value p "LfD" 0 = 1)
    (h4 : value p "rmD" 0 = 1) (h5 : value p "reD" 0 = 0) (h6 : value p "omega1" 0 = 1)
    (h7 : value p "omega2" 0 = 1) (h8 : value p "lambda1" 0 = 0) (h9 : value p "nf" 4 = 1) :
    flaplace_composite E0 ModelType.Model_2 z p = 999999 / 1000000 / z := by
  have h0 : (0.0 : ℚ) = 0 := by norm_num
  have hnf : nfOf p = 1 := by
    simp [nfOf, h9, toInt]
  have hx : (xwD 1 : List ℚ) = [0] := by simp [xwD, h0]
  simp only [flaplace_composite, bare_pf, hnf, hx, h0, h1, h2, h3, h4, h5, h6, h7, h8]
  norm_num
  exact PWD_E0_z z hz
/-- The four Stehfest coefficients of order 4. -/
theorem stefest4_E0 :
    stefestCoefficient E0 1 4 = -2 ∧ stefestCoefficient E0 2 4 = 26
    ∧ stefestCoefficient E0 3 4 = -48 ∧ stefestCoefficient E0 4 4 = 24 := by
  have a1 := stefestCoefficient_eq_sum E0 1 2
  have a2 := stefestCoefficient_eq_sum E0 2 2
  have a3 := stefestCoefficient_eq_sum E0 3 2
  have a4 := stefestCoefficient_eq_sum E0 4 2
  norm_num [Finset.sum_Icc_succ_top, Nat.factorial] at a1 a2 a3 a4
  exact ⟨a1, a2, a3, a4⟩

/-- The dimensionless pressure of the single-fracture example at order 4. -/
theorem outPD_E0 (p : Params ℚ) (t : ℚ) (ht : 0 < t) (ht2 : ¬ t ≤ 1e-12)
    (h0 : value p "gamaD" 0 = 0)
    (h1 : value p "kf" 0 = 1) (h2 : value p "km" 0 = 1) (h3 : value p "LfD" 0 = 1)
    (h4 : value p "rmD" 0 = 1) (h5 : value p "reD" 0 = 0) (h6 : value p "omega1" 0 = 1)
    (h7 : value p "omega2" 0 = 1) (h8 : value p "lambda1" 0 = 0) (h9 : value p "nf" 4 = 1) :
    outPD E0 4 p (fun z r => some (flaplace_composite E0 ModelType.Model_2 z r)) t
      = 999999 / 1000000 := by
  have e0 : (0.0 : ℚ) = 0 := by norm_num
  have hI : Finset.Icc (1 : ℤ) 4 = {1, 2, 3, 4} := by decide
  have hl : E0.log 2 = 1 := by simp [E0]; norm_num
  have hne : t ≠ 0 := ne_of_gt ht
  have hf : ∀ m : ℤ, (m : ℚ) ≠ 0 →
      flaplace_composite E0 ModelType.Model_2 ((m : ℚ) * 1 / t) p
        = 999999 / 1000000 / ((m : ℚ) * 1 / t) := fun m hm =>
    flaplace_E0_z _ (by simp [hm, hne]) p h1 h2 h3 h4 h5 h6 h7 h8 h9
  obtain ⟨c1, c2, c3, c4⟩ := stefest4_E0
  rw [outPD, if_neg ht2, e0, h0, if_neg (by norm_num), outPD_raw, pd_val_eq_sum, two_lit, hl, hI]
  simp only [Option.getD_some]
  rw [Finset.sum_insert (by decide), Finset.sum_insert (by decide),
    Finset.sum_insert (by decide), Finset.sum_singleton, hf 1 (by norm_num),
    hf 2 (by norm_num), hf 3 (by norm_num), hf 4 (by norm_num), c1, c2, c3, c4]
  push_cast
  field_simp
  ring

/-- Claim C17 fails as stated. For `Model_2` on the grid `[1]`, with the key `q` absent the
pressure is `0.0002417625 * 0.999999` (the rate 5 is used), whereas with `q = 0` it
is 0. -/
theorem C17_counterexample :
    pU "q" = none
    ∧ calculateTheoreticalCurve E0 ModelType.Model_2 false pU [1]
      = some ([1], [2417622582375 / 10000000000000000], [0])
    ∧ calculateTheoreticalCurve E0 ModelType.Model_2 false (setValue pU "q" 0) [1]
      = some ([1], [0], [0]) := by
  have hN : ∀ p : Params ℚ, stehfestN false p = 4 := fun p => by
    simp [stehfestN]
  have key : ∀ (p : Params ℚ) (q : ℚ), value p "q" 5.0 = q →
      value p "phi" 0.05 = 0.05 → value p "mu" 0.5 = 0.5 → value p "B" 1.05 = 1.05 →
      value p "Ct" 5e-4 = 5e-4 → value p "h" 20.0 = 20 → value p "kf" 1e-3 = 1 →
      value p "L" 1000.0 = 1000 → value p "gamaD" 0 = 0 →
      value p "kf" 0 = 1 → value p "km" 0 = 1 → value p "LfD" 0 = 1 →
      value p "rmD" 0 = 1 → value p "reD" 0 = 0 → value p "omega1" 0 = 1 →
      value p "omega2" 0 = 1 → value p "lambda1" 0 = 0 → value p "nf" 4 = 1 →
      calculateTheoreticalCurve E0 ModelType.Model_2 false p [1]
        = some ([1], [1.842e-3 * q * 0.5 * 1.05 / (1 * 20) * (999999 / 1000000)], [0]) := by
    intro p q hq a1 a2 a3 a4 a5 a6 a7 g h1 h2 h3 h4 h5 h6 h7 h8 h9
    have htD : (14.4 : ℚ) * 1 * 1 / (0.05 * 0.5 * 5e-4 * 1000 ^ 2) = 144 / 125 := by norm_num
    have ho := outPD_E0 p (144 / 125) (by norm_num) (by norm_num) g h1 h2 h3 h4 h5 h6 h7 h8 h9
    simp only [calculateTheoreticalCurve, calculatePDandDeriv, hN, hq, a1, a2, a3, a4, a5, a6,
      a7, std_pow_two, List.isEmpty_cons, Bool.false_eq_true, if_false, List.map_cons,
      List.map_nil, htD, ho]
    have hr : List.range 1 = [0] := rfl
    have e0 : (0.0 : ℚ) = 0 := by norm_num
    simp [hr, e0]
  refine ⟨rfl, ?_, ?_⟩
  · have := key pU 5 (by simp [value, pU, paramsOf]; norm_num) rfl rfl rfl rfl
      (by simp [value, pU, paramsOf]; norm_num) rfl
      (by simp [value, pU, paramsOf]; norm_num) rfl rfl rfl rfl rfl rfl rfl rfl rfl rfl
    rw [this]
    norm_num
  · have := key (setValue pU "q" 0) 0 rfl rfl rfl rfl rfl
      (by simp [value, setValue, pU, paramsOf]; norm_num) rfl
      (by simp [value, setValue, pU, paramsOf]; norm_num) rfl rfl rfl rfl rfl rfl rfl rfl rfl rfl
    rw [this]
    norm_num
/-- The order for the odd configured value `N = 5` in high-precision mode. -/
theorem C12_order_even_witness :
    Odd (toInt (value pN5 "N" 4)) ∧ Even (stehfestN true pN5) ∧ stehfestN true pN5 = 4 :=
  have h : Odd (toInt (value pN5 "N" 4)) := ⟨2, by rfl⟩
  ⟨h, (C12_order_even true pN5).1, (C12_order_even true pN5).2 (Or.inl h)⟩

/-- The early-time guard at `tD = 0` with `gamaD = 1/10` and a Laplace-space function that
is nowhere finite. -/
theorem C13_early_time_guard_witness :
    ([0] : List ℚ).get ⟨0, by decide⟩ ≤ 1e-12
    ∧ (calculatePDandDeriv E0 true [0] pG (fun _ _ => none)).1[0]? = some 0 :=
  have h : ([0] : List ℚ).get ⟨0, by decide⟩ ≤ 1e-12 := by norm_num
  ⟨h, C13_early_time_guard E0 true [0] pG (fun _ _ => none) 0 (by decide) h⟩

/-- The Stehfest sum of order 4 at `t = 1` when the evaluation at `z = 2` is non-finite. -/
theorem C14_nonfinite_as_zero_witness :
    ({1, 3, 4} : Finset Int) ⊆ Finset.Icc 1 4
    ∧ laplaceGap ((2 : Int) * E0.log 2 / 1) pW = none
    ∧ pd_val E0 4 pW laplaceGap 1
      = ∑ m ∈ ({1, 3, 4} : Finset Int), stefestCoefficient E0 m 4 * (m : ℚ) :=
  have hl : E0.log 2 = 1 := by simp [E0]; norm_num
  have hS : ({1, 3, 4} : Finset Int) ⊆ Finset.Icc 1 4 := by decide
  have hz : ∀ m : Int, ((m : ℚ) * E0.log 2 / 1) = (m : ℚ) := fun m => by rw [hl]; simp
  ⟨hS, by rw [hz]; simp [laplaceGap],
    C14_nonfinite_as_zero E0 4 pW laplaceGap 1 {1, 3, 4} (fun m => (m : ℚ)) hS
      (fun m hm => by
        rw [hz]
        simp only [Finset.mem_insert, Finset.mem_singleton] at hm
        rcases hm with rfl | rfl | rfl <;> simp [laplaceGap])
      (fun m hm hn => by
        rw [hz]
        have h2 : m = 2 := by
          simp only [Finset.mem_Icc, Finset.mem_insert, Finset.mem_singleton] at hm hn
          omega
        subst h2
        simp [laplaceGap])⟩

/-- The derivative on the two-point grid `[1, 2]`. -/
theorem C15_short_grid_derivative_witness :
    ([1, 2] : List ℚ).length < 3
    ∧ (calculatePDandDeriv E0 true [1, 2] pW laplaceGap).1.length = 2
    ∧ (calculatePDandDeriv E0 true [1, 2] pW laplaceGap).2 = [0, 0] :=
  ⟨by decide, (C15_short_grid_derivative E0 true [1, 2] pW laplaceGap).1,
    ((C15_short_grid_derivative E0 true [1, 2] pW laplaceGap).2 (by decide)).1⟩

/-- An absent `phi` is read as `0.05`. -/
theorem C17_missing_parameter_defaults_witness :
    (("phi", 0.05) : String × ℚ) ∈ paramDefaults ℚ ∧ pEmpty "phi" = none
    ∧ calculateTheoreticalCurve E0 ModelType.Model_1 true pEmpty [1]
      = calculateTheoreticalCurve E0 ModelType.Model_1 true (setValue pEmpty "phi" 0.05) [1] :=
  have h : (("phi", 0.05) : String × ℚ) ∈ paramDefaults ℚ := by simp [paramDefaults]
  ⟨h, rfl, C17_missing_parameter_defaults E0 ModelType.Model_1 true pEmpty [1] "phi" 0.05 h rfl⟩

/-- The quadrature of the identity on `[0, 1]` with `maxDepth = 10`. -/
theorem C18_adaptiveGauss_terminates_witness :
    (10 : Int) ≥ 10
    ∧ adaptiveGaussFuel (max 0 ((10 : Int) - 0)).toNat (fun x : ℚ => x) 0 1 1e-5 0 10
      = some (adaptiveGauss (fun x : ℚ => x) 0 1 1e-5 0 10)
    ∧ adaptiveGauss (fun x : ℚ => x) 0 1 1e-5 10 10
      = gauss15 (fun x : ℚ => x) 0 ((0 + 1) / 2) + gauss15 (fun x : ℚ => x) ((0 + 1) / 2) 1 :=
  ⟨by decide, (C18_adaptiveGauss_terminates (fun x : ℚ => x) 0 1 1e-5 0 10).1,
    ((C18_adaptiveGauss_terminates (fun x : ℚ => x) 0 1 1e-5 10 10).2 (by decide)).1⟩

/-- The sweep on `L` with the two values `1000, 0`. -/
theorem C19_sensitivity_sweep_witness :
    (runCalculation E0 ModelType.Model_2 true ui0).length = min ([1000, 0] : List ℚ).length 6
    ∧ currentParams true ui0 1 "L" = some (([1000, 0] : List ℚ).getD 1 0) :=
  have h := (C19_sensitivity_sweep E0 ModelType.Model_2 true ui0).1
    [("B", [1]), ("Ct", [1])]
    [("Lf", [100]), ("S", [0.0]), ("cD", [0.0]), ("gamaD", [0]), ("h", [1]), ("kf", [1]),
      ("km", [1]), ("lambda1", [1]), ("mu", [1]), ("nf", [1]), ("omega1", [1]),
      ("omega2", [1]), ("phi", [1]), ("q", [1]), ("reD", [0.0]), ("rmD", [1]), ("t", [1])]
    "L" [1000, 0] (by rw [rawParams_eq]; rfl) (by simp) (by decide) (by decide)
  ⟨h.1, (h.2 1 (by decide)).2.1⟩

/-- For `0 ≤ x ≤ 600` the function `scaled_besseli` returns `I_v(x) * exp(-x)`. -/
theorem scaled_besseli_mid (E : Ext F) (v : Int) (x : F) (h0 : 0 ≤ x) (h1 : x ≤ 600) :
    scaled_besseli E v x = E.cyl_bessel_i v x * E.exp (-x) := by
  unfold scaled_besseli
  simp only [if_neg (not_lt.mpr h0), if_neg (not_lt.mpr h1)]

/-- For an exponential that turns sums into products, `exp(-v) * exp(v - u) = exp(-u)`,
and no value of it is 0. -/
theorem exp_cancel (E : Ext F) (hadd : ∀ a b : F, E.exp (a + b) = E.exp a * E.exp b)
    (hzero : E.exp 0 = 1) (u v : F) :
    E.exp (-v) * E.exp (v - u) = E.exp (-u) ∧ E.exp (-u) ≠ 0 := by
  constructor
  · rw [← hadd]
    congr 1
    ring
  · intro h
    have := hadd (-u) u
    rw [neg_add_cancel, hzero, h, zero_mul] at this
    exact one_ne_zero this

/-- Claim C21. Scaled-Bessel bookkeeping in `PWD_composite`: for an exponential that turns
sums into products, when `0 ≤ gama2*reD ≤ 600`, `0 ≤ gama2*rmD ≤ 600` and the scaled
denominator exceeds `1e-100`, the two boundary terms are `mAB * I0(gama2*rmD)` and
`mAB * I1(gama2*rmD)` in the unscaled Bessel functions, with `mAB = K1(gama2*reD)/I1(gama2*reD)`
for the closed variants and `mAB = -K0(gama2*reD)/I0(gama2*reD)` for the constant-pressure
variants: the scalings `exp(-x)` and the factor `exp(gama2*rmD - gama2*reD)` cancel. -/
theorem C21_scaled_bessel_cancel (E : Ext F) (type : ModelType) (gama2 rmD reD : F)
    (hadd : ∀ a b : F, E.exp (a + b) = E.exp a * E.exp b) (hzero : E.exp 0 = 1)
    (hre0 : 0 ≤ gama2 * reD) (hre : gama2 * reD ≤ 600)
    (hrm0 : 0 ≤ gama2 * rmD) (hrm : gama2 * rmD ≤ 600) :
    (isClosed type = true → scaled_besseli E 1 (gama2 * reD) > 1e-100 →
      term_mAB_i0 E type gama2 rmD reD
          = E.cyl_bessel_k 1 (gama2 * reD) / E.cyl_bessel_i 1 (gama2 * reD)
            * E.cyl_bessel_i 0 (gama2 * rmD)
      ∧ term_mAB_i1 E type gama2 rmD reD
          = E.cyl_bessel_k 1 (gama2 * reD) / E.cyl_bessel_i 1 (gama2 * reD)
            * E.cyl_bessel_i 1 (gama2 * rmD))
    ∧ (isConstP type = true → scaled_besseli E 0 (gama2 * reD) > 1e-100 →
      term_mAB_i0 E type gama2 rmD reD
          = -(E.cyl_bessel_k 0 (gama2 * reD) / E.cyl_bessel_i 0 (gama2 * reD))
            * E.cyl_bessel_i 0 (gama2 * rmD)
      ∧ term_mAB_i1 E type gama2 rmD reD
          = -(E.cyl_bessel_k 0 (gama2 * reD) / E.cyl_bessel_i 0 (gama2 * reD))
            * E.cyl_bessel_i 1 (gama2 * rmD)) := by
  obtain ⟨hc, hne⟩ := exp_cancel E hadd hzero (gama2 * reD) (gama2 * rmD)
  have key : ∀ K I J : F, K / (I * E.exp (-(gama2 * reD))) * (J * E.exp (-(gama2 * rmD)))
      * E.exp (gama2 * rmD - gama2 * reD) = K / I * J := by
    intro K I J
    rw [mul_assoc, mul_assoc J, hc]
    by_cases hI : I = 0
    · simp [hI]
    · field_simp
      ring
  constructor
  · intro hcl hs
    have hinf : isInfinite type = false := by cases type <;> simp_all [isClosed, isInfinite]
    simp only [term_mAB_i0, term_mAB_i1, hinf, hcl, Bool.not_false, if_true, if_pos hs]
    simp only [scaled_besseli_mid E _ _ hre0 hre, scaled_besseli_mid E _ _ hrm0 hrm]
    exact ⟨key _ _ _, key _ _ _⟩
  · intro hcp hs
    have hinf : isInfinite type = false := by cases type <;> simp_all [isConstP, isInfinite]
    have hcl : isClosed type = false := by cases type <;> simp_all [isConstP, isClosed]
    simp only [term_mAB_i0, term_mAB_i1, hinf, hcl, hcp, Bool.not_false, if_true, if_pos hs,
      Bool.false_eq_true, if_false]
    simp only [scaled_besseli_mid E _ _ hre0 hre, scaled_besseli_mid E _ _ hrm0 hrm]
    constructor
    · rw [neg_mul, neg_mul, key, neg_mul]
    · rw [neg_mul, neg_mul, key, neg_mul]

/-- The local `Acdown_scaled` is the computed denominator, replaced by `1e-100` when its
magnitude is below `1e-100`. -/
theorem Acdown_scaled_eq (E : Ext F) (type : ModelType) (M12 gama1 gama2 rmD reD : F) :
    Acdown_scaled E type M12 gama1 gama2 rmD reD
      = if |Acdown_computed E type M12 gama1 gama2 rmD reD| < 1e-100 then 1e-100
        else Acdown_computed E type M12 gama1 gama2 rmD reD := rfl

/-- Claim C24. Denominator floor of `PWD_composite`: `Ac_prefactor` is `Acup` divided by
`Acdown_scaled`, whose magnitude is always at least `1e-100` (so it is never 0), and a computed
denominator whose magnitude is already at least `1e-100` is used unchanged. -/
theorem C24_denominator_floor (E : Ext F) (type : ModelType) (M12 gama1 gama2 rmD reD : F) :
    Ac_prefactor E type M12 gama1 gama2 rmD reD
      = Acup E type M12 gama1 gama2 rmD reD / Acdown_scaled E type M12 gama1 gama2 rmD reD
    ∧ 1e-100 ≤ |Acdown_scaled E type M12 gama1 gama2 rmD reD|
    ∧ Acdown_scaled E type M12 gama1 gama2 rmD reD ≠ 0
    ∧ (1e-100 ≤ |Acdown_computed E type M12 gama1 gama2 rmD reD| →
      Acdown_scaled E type M12 gama1 gama2 rmD reD
        = Acdown_computed E type M12 gama1 gama2 rmD reD) := by
  have hpos : (0 : F) < 1e-100 := by norm_num
  have hge : 1e-100 ≤ |Acdown_scaled E type M12 gama1 gama2 rmD reD| := by
    rw [Acdown_scaled_eq]
    split
    · rw [abs_of_pos hpos]
    · rename_i h
      exact not_lt.mp h
  refine ⟨rfl, hge, ?_, ?_⟩
  · intro h0
    rw [h0, abs_zero] at hge
    exact absurd hpos (not_lt.mpr hge)
  · intro h
    rw [Acdown_scaled_eq, if_neg (not_lt.mpr h)]

/-- Every value of `factorial` is at least 1. -/
theorem factorial_ge_one (n : Int) : (1 : F) ≤ factorial n := by
  rw [factorial_eq]
  exact_mod_cast Nat.succ_le_of_lt (Nat.factorial_pos _)

/-- Claim C29. The rule `gauss15` on a constant: for every `c`, `a`, `b` it returns
`0.999999 * c * (b - a)`, the tabulated weights summing to `1.999998`; the result differs from
`c * (b - a)` whenever `c ≠ 0` and `a ≠ b`, and equals it only when `c = 0` or `a = b`. -/
theorem C29_gauss15_constant (c a b : F) :
    gauss15 (fun _ => c) a b = 0.999999 * c * (b - a)
    ∧ gaussW.getD 0 (0 : F) + 2 * ((gaussW.drop 1).sum : F) = 1.999998
    ∧ (c ≠ 0 → a ≠ b → gauss15 (fun _ => c) a b ≠ c * (b - a))
    ∧ (gauss15 (fun _ => c) a b = c * (b - a) ↔ c = 0 ∨ a = b) := by
  have key : gauss15 (fun _ => c) a b = c * (b - a) → c = 0 ∨ a = b := by
    intro h
    rw [gauss15_const] at h
    have h2 : (0.999999 - 1) * (c * (b - a)) = 0 := by linear_combination h
    rcases mul_eq_zero.mp h2 with h3 | h3
    · norm_num at h3
    · rcases mul_eq_zero.mp h3 with h4 | h4
      · exact Or.inl h4
      · exact Or.inr (sub_eq_zero.mp h4).symm
  refine ⟨gauss15_const c a b, ?_, ?_, key, ?_⟩
  · simp [gaussW]
    norm_num
  · intro hc hab h
    rcases key h with h1 | h1
    · exact hc h1
    · exact hab h1
  · intro h
    rw [gauss15_const]
    rcases h with h | h
    · rw [h]; ring
    · rw [h]; ring

/-- Claim C30. The guard `den != 0` of `stefestCoefficient` is never taken: for even `N ≥ 2`,
`1 ≤ i ≤ N` and `k` in the summation range, the five factorial arguments are non-negative;
the denominator is at least 1, hence non-zero, for all integers `i`, `N`, `k`; `factorial`
returns 1 for every `n ≤ 1`; and the loop is the plain sum of all its terms. -/
theorem C30_denominator_guard (E : Ext F) :
    (∀ N i k : Int, Even N → 2 ≤ N → 1 ≤ i → i ≤ N → (i + 1).tdiv 2 ≤ k → k ≤ min i (N.tdiv 2) →
      0 ≤ N.tdiv 2 - k ∧ 0 ≤ k ∧ 0 ≤ k - 1 ∧ 0 ≤ i - k ∧ 0 ≤ 2 * k - i)
    ∧ (∀ i N k : Int, (1 : F) ≤ stefest_den i N k ∧ (stefest_den i N k : F) ≠ 0)
    ∧ (∀ n : Int, n ≤ 1 → (factorial n : F) = 1)
    ∧ (∀ i N : Int, stefestCoefficient E i N
      = (if (i + N.tdiv 2).tmod 2 = 0 then 1 else -1)
        * ((intLoop ((i + 1).tdiv 2) (min i (N.tdiv 2))).map (fun (k : Int) =>
            std_pow E (k : F) ((N : F) / 2) * factorial (2 * k) / stefest_den i N k)).sum) := by
  have hden : ∀ i N k : Int, (1 : F) ≤ stefest_den i N k := by
    intro i N k
    unfold stefest_den
    have h1 := factorial_ge_one (F := F) (N.tdiv 2 - k)
    have h2 := factorial_ge_one (F := F) k
    have h3 := factorial_ge_one (F := F) (k - 1)
    have h4 := factorial_ge_one (F := F) (i - k)
    have h5 := factorial_ge_one (F := F) (2 * k - i)
    have a := one_le_mul_of_one_le_of_one_le h1 h2
    have b := one_le_mul_of_one_le_of_one_le a h3
    have c := one_le_mul_of_one_le_of_one_le b h4
    exact one_le_mul_of_one_le_of_one_le c h5
  refine ⟨?_, fun i N k => ⟨hden i N k, ne_of_gt (lt_of_lt_of_le one_pos (hden i N k))⟩, ?_, ?_⟩
  · intro N i k hN hN2 hi1 hiN hk1 hk2
    obtain ⟨n, rfl⟩ := hN
    have e1 : (n + n).tdiv 2 = n := by
      rw [Int.tdiv_eq_ediv (by omega) (by omega)]; omega
    have e2 : (i + 1).tdiv 2 = (i + 1) / 2 := Int.tdiv_eq_ediv (by omega) (by omega)
    rw [e1] at hk2 ⊢
    rw [e2] at hk1
    have := le_min_iff.mp hk2
    omega
  · intro n hn
    unfold factorial
    rw [if_pos hn]
  · intro i N
    unfold stefestCoefficient
    simp only [ite_den, stefest_den]
    rw [foldl_add_eq_sum, zero_add]

/-- The Stehfest coefficients of order 2 sum to 0. -/
theorem stefest_sum_2 (E : Ext F) :
    ∑ i ∈ Finset.Icc (1 : Int) 2, stefestCoefficient E i 2 = 0 := by
  have a1 := stefestCoefficient_eq_sum E 1 1
  have a2 := stefestCoefficient_eq_sum E 2 1
  norm_num [Finset.sum_Icc_succ_top, Nat.factorial] at a1 a2
  rw [← intLoop_sum_int]
  simp [intLoop, List.range_succ, a1, a2]

/-- The Stehfest coefficients of order 4 sum to 0. -/
theorem stefest_sum_4 (E : Ext F) :
    ∑ i ∈ Finset.Icc (1 : Int) 4, stefestCoefficient E i 4 = 0 := by
  have a1 := stefestCoefficient_eq_sum E 1 2
  have a2 := stefestCoefficient_eq_sum E 2 2
  have a3 := stefestCoefficient_eq_sum E 3 2
  have a4 := stefestCoefficient_eq_sum E 4 2
  norm_num [Finset.sum_Icc_succ_top, Nat.factorial] at a1 a2 a3 a4
  rw [← intLoop_sum_int]
  simp [intLoop, List.range_succ, a1, a2, a3, a4]
  norm_num

/-- The Stehfest coefficients of order 6 sum to 0. -/
theorem stefest_sum_6 (E : Ext F) :
    ∑ i ∈ Finset.Icc (1 : Int) 6, stefestCoefficient E i 6 = 0 := by
  have a1 := stefestCoefficient_eq_sum E 1 3
  have a2 := stefestCoefficient_eq_sum E 2 3
  have a3 := stefestCoefficient_eq_sum E 3 3
  have a4 := stefestCoefficient_eq_sum E 4 3
  have a5 := stefestCoefficient_eq_sum E 5 3
  have a6 := stefestCoefficient_eq_sum E 6 3
  norm_num [Finset.sum_Icc_succ_top, Nat.factorial] at a1 a2 a3 a4 a5 a6
  rw [← intLoop_sum_int]
  simp [intLoop, List.range_succ, a1, a2, a3, a4, a5, a6]
  norm_num

/-- The Stehfest coefficients of order 8 sum to 0. -/
theorem stefest_sum_8 (E : Ext F) :
    ∑ i ∈ Finset.Icc (1 : Int) 8, stefestCoefficient E i 8 = 0 := by
  have a1 := stefestCoefficient_eq_sum E 1 4
  have a2 := stefestCoefficient_eq_sum E 2 4
  have a3 := stefestCoefficient_eq_sum E 3 4
  have a4 := stefestCoefficient_eq_sum E 4 4
  have a5 := stefestCoefficient_eq_sum E 5 4
  have a6 := stefestCoefficient_eq_sum E 6 4
  have a7 := stefestCoefficient_eq_sum E 7 4
  have a8 := stefestCoefficient_eq_sum E 8 4
  norm_num [Finset.sum_Icc_succ_top, Nat.factorial] at a1 a2 a3 a4 a5 a6 a7 a8
  rw [← intLoop_sum_int]
  simp [intLoop, List.range_succ, a1, a2, a3, a4, a5, a6, a7, a8]
  norm_num

/-- The Stehfest coefficients of order 10 sum to 0. -/
theorem stefest_sum_10 (E : Ext F) :
    ∑ i ∈ Finset.Icc (1 : Int) 10, stefestCoefficient E i 10 = 0 := by
  have a1 := stefestCoefficient_eq_sum E 1 5
  have a2 := stefestCoefficient_eq_sum E 2 5
  have a3 := stefestCoefficient_eq_sum E 3 5
  have a4 := stefestCoefficient_eq_sum E 4 5
  have a5 := stefestCoefficient_eq_sum E 5 5
  have a6 := stefestCoefficient_eq_sum E 6 5
  have a7 := stefestCoefficient_eq_sum E 7 5
  have a8 := stefestCoefficient_eq_sum E 8 5
  have a9 := stefestCoefficient_eq_sum E 9 5
  have a10 := stefestCoefficient_eq_sum E 10 5
  norm_num [Finset.sum_Icc_succ_top, Nat.factorial] at a1 a2 a3 a4 a5 a6 a7 a8 a9 a10
  rw [← intLoop_sum_int]
  simp [intLoop, List.range_succ, a1, a2, a3, a4, a5, a6, a7, a8, a9, a10]
  norm_num

/-- The Stehfest coefficients of order 12 sum to 0. -/
theorem stefest_sum_12 (E : Ext F) :
    ∑ i ∈ Finset.Icc (1 : Int) 12, stefestCoefficient E i 12 = 0 := by
  have a1 := stefestCoefficient_eq_sum E 1 6
  have a2 := stefestCoefficient_eq_sum E 2 6
  have a3 := stefestCoefficient_eq_sum E 3 6
  have a4 := stefestCoefficient_eq_sum E 4 6
  have a5 := stefestCoefficient_eq_sum E 5 6
  have a6 := stefestCoefficient_eq_sum E 6 6
  have a7 := stefestCoefficient_eq_sum E 7 6
  have a8 := stefestCoefficient_eq_sum E 8 6
  have a9 := stefestCoefficient_eq_sum E 9 6
  have a10 := stefestCoefficient_eq_sum E 10 6
  have a11 := stefestCoefficient_eq_sum E 11 6
  have a12 := stefestCoefficient_eq_sum E 12 6
  norm_num [Finset.sum_Icc_succ_top, Nat.factorial] at a1 a2 a3 a4 a5 a6 a7 a8 a9 a10 a11 a12
  rw [← intLoop_sum_int]
  simp [intLoop, List.range_succ, a1, a2, a3, a4, a5, a6, a7, a8, a9, a10, a11, a12]
  norm_num

/-- Claim C27. The Stehfest coefficients sum to zero: for every even `N` with `2 ≤ N ≤ 12`
the sum of `stefestCoefficient(i, N)` over `i = 1..N` is 0, and so the Stehfest sum of
`calculatePDandDeriv` is 0 for every Laplace-space function that does not depend on `z`. -/
theorem C27_stehfest_sum_zero (E : Ext F) (N : Int) (hN : Even N) (h2 : 2 ≤ N)
    (h12 : N ≤ 12) :
    ∑ i ∈ Finset.Icc (1 : Int) N, stefestCoefficient E i N = 0
    ∧ ∀ (params : Params F) (g : Params F → Option F) (t : F),
      pd_val E N params (fun _ p => g p) t = 0 := by
  have hsum : ∑ i ∈ Finset.Icc (1 : Int) N, stefestCoefficient E i N = 0 := by
    obtain ⟨n, rfl⟩ := hN
    have h1 : 1 ≤ n := by omega
    have h6 : n ≤ 6 := by omega
    interval_cases n
    · exact stefest_sum_2 E
    · exact stefest_sum_4 E
    · exact stefest_sum_6 E
    · exact stefest_sum_8 E
    · exact stefest_sum_10 E
    · exact stefest_sum_12 E
  refine ⟨hsum, fun params g t => ?_⟩
  rw [pd_val_eq_sum, ← Finset.sum_mul, hsum, zero_mul]

/-- The order 8 and the constant Laplace-space function 5. -/
theorem C27_stehfest_sum_zero_witness :
    Even (8 : Int) ∧ (2 : Int) ≤ 8 ∧ (8 : Int) ≤ 12
    ∧ ∑ i ∈ Finset.Icc (1 : Int) 8, stefestCoefficient E0 i 8 = 0
    ∧ pd_val E0 8 pW (fun _ _ => some 5) 1 = 0 :=
  ⟨by decide, by decide, by decide,
    (C27_stehfest_sum_zero E0 8 (by decide) (by decide) (by decide)).1,
    (C27_stehfest_sum_zero E0 8 (by decide) (by decide) (by decide)).2 pW (fun _ => some 5) 1⟩

/-- The integrand of the entry `(i, j)` is the kernel at the distance between the point
`a` of fracture `j` and the centre of fracture `i`. -/
theorem integrand_eq_kernel (E : Ext F) (gama1 arg_g1_rm Acp : F) (xs ys : List F)
    (i j : Nat) (a : F) :
    integrand E gama1 arg_g1_rm Acp xs ys i j a
      = kernel E gama1 arg_g1_rm Acp
          (E.sqrt ((xs.getD i 0 - xs.getD j 0 - a) ^ 2 + (ys.getD i 0 - ys.getD j 0) ^ 2)) := by
  simp only [integrand, kernel, std_pow_two]

/-- Every entry of the vector `ywD` is 0. -/
theorem replicate_getD_zero (n i : Nat) : (List.replicate n (0 : F)).getD i 0 = 0 := by
  by_cases h : i < n
  · simp [List.getD_eq_getElem?_getD, List.getElem?_replicate, h]
  · simp [List.getD_eq_getElem?_getD, List.getElem?_replicate, h]

/-- Claim C23. Linear-system layout of `PWD_composite`, for a square root with
`sqrt(x^2) = |x|`: the matrix has size `nf + 1`; for `i, j < nf` the entry `A[i][j]` is
`z * val / (M12 * z * 2 * LfD)` with `val` the adaptive quadrature over `[-LfD, LfD]` of the
kernel at the distance `|xwD[i] - xwD[j] - a|`; `A[i][nf] = -1` and `A[nf][i] = z` for `i < nf`;
`A[nf][nf] = 0`; the right-hand side is 0 in the entries below `nf` and 1 in the entry `nf`;
and the function returns the entry `nf` of the solution. -/
theorem C23_linear_system_layout (E : Ext F) (z fs1 fs2 M12 LfD rmD reD : F) (nf : Nat)
    (xs : List F) (type : ModelType) (hsqrt : ∀ x : F, E.sqrt (x ^ 2) = |x|) :
    PWD_composite E z fs1 fs2 M12 LfD rmD reD nf xs type
      = E.solve (nf + 1)
          (A_mat E z M12 LfD (E.sqrt (z * fs1)) (E.sqrt (z * fs1) * rmD)
            (Ac_prefactor E type M12 (E.sqrt (z * fs1)) (E.sqrt (z * fs2)) rmD reD) nf xs
            (List.replicate nf 0))
          (b_vec nf) (Fin.last nf)
    ∧ (∀ i j : Fin (nf + 1),
      A_mat E z M12 LfD (E.sqrt (z * fs1)) (E.sqrt (z * fs1) * rmD)
          (Ac_prefactor E type M12 (E.sqrt (z * fs1)) (E.sqrt (z * fs2)) rmD reD) nf xs
          (List.replicate nf 0) i j
        = if i.val < nf ∧ j.val < nf then
            z * adaptiveGauss (fun a => kernel E (E.sqrt (z * fs1)) (E.sqrt (z * fs1) * rmD)
                (Ac_prefactor E type M12 (E.sqrt (z * fs1)) (E.sqrt (z * fs2)) rmD reD)
                |xs.getD i.val 0 - xs.getD j.val 0 - a|) (-LfD) LfD 1e-5 0 10
              / (M12 * z * 2 * LfD)
          else if i.val < nf then -1
          else if j.val < nf then z
          else 0)
    ∧ (∀ i : Fin (nf + 1), b_vec (F := F) nf i = if i.val < nf then 0 else 1) := by
  refine ⟨rfl, fun i j => ?_, fun i => ?_⟩
  · have hk : integrand E (E.sqrt (z * fs1)) (E.sqrt (z * fs1) * rmD)
        (Ac_prefactor E type M12 (E.sqrt (z * fs1)) (E.sqrt (z * fs2)) rmD reD) xs
        (List.replicate nf 0) i.val j.val
        = fun a => kernel E (E.sqrt (z * fs1)) (E.sqrt (z * fs1) * rmD)
          (Ac_prefactor E type M12 (E.sqrt (z * fs1)) (E.sqrt (z * fs2)) rmD reD)
          |xs.getD i.val 0 - xs.getD j.val 0 - a| := by
      funext a
      rw [integrand_eq_kernel, replicate_getD_zero, replicate_getD_zero]
      simp only [sub_zero, ne_eq, OfNat.ofNat_ne_zero, not_false_eq_true, zero_pow, add_zero,
        hsqrt]
    simp only [A_mat, hk]
  · have hi := i.isLt
    unfold b_vec
    by_cases h : i.val < nf
    · rw [if_neg (by omega), if_pos h]
    · rw [if_pos (by omega), if_neg h]

/-- For one fracture the matrix is `[[A00, -1], [z, 0]]`. -/
theorem A_mat_one (E : Ext F) (z M12 LfD g1 arg Acp : F) (xs ys : List F) :
    A_mat E z M12 LfD g1 arg Acp 1 xs ys
      = !![A_mat E z M12 LfD g1 arg Acp 1 xs ys 0 0, -1; z, 0] := by
  ext i j
  fin_cases i <;> fin_cases j <;> simp [A_mat]

/-- For one fracture the right-hand side is `[0, 1]`. -/
theorem b_vec_one : b_vec (F := F) 1 = ![0, 1] := by
  ext i
  fin_cases i <;> simp [b_vec]

/-- The system `[[a, -1], [z, 0]] x = [0, 1]` with `z ≠ 0` has the unique solution
`(1/z, a/z)`. -/
theorem two_by_two_solution (a z : F) (hz : z ≠ 0) (x : Fin (1 + 1) → F) :
    (!![a, -1; z, 0] : Matrix (Fin (1 + 1)) (Fin (1 + 1)) F).mulVec x = ![0, 1]
      ↔ x = ![1 / z, a / z] := by
  constructor
  · intro h
    have h0 := congrFun h 0
    have h1 := congrFun h 1
    simp [Matrix.mulVec, Matrix.dotProduct, Fin.sum_univ_two] at h0 h1
    have hx0 : x 0 = 1 / z := by field_simp; linarith
    have hx1 : x 1 = a / z := by
      have : x 1 = a * x 0 := by linarith
      rw [this, hx0]; ring
    ext i
    fin_cases i
    · simpa using hx0
    · simpa using hx1
  · rintro rfl
    ext i
    fin_cases i
    · simp [Matrix.mulVec, Matrix.dotProduct, Fin.sum_univ_two]; ring
    · simp [Matrix.mulVec, Matrix.dotProduct, Fin.sum_univ_two, hz]

/-- The determinant of `[[a, -1], [z, 0]]` is `z`. -/
theorem two_by_two_det (a z : F) :
    (!![a, -1; z, 0] : Matrix (Fin (1 + 1)) (Fin (1 + 1)) F).det = z := by
  rw [Matrix.det_fin_two]
  simp

/-- Claim C26. Single-fracture closed form, for a solver that returns a solution of every
system with non-zero determinant: for `nf = 1` and `z ≠ 0` the matrix is `[[A00, -1], [z, 0]]`,
the system with right-hand side `[0, 1]` has the unique solution `(1/z, A00/z)`, the solved
flux `q` satisfies `z * q = 1`, and `PWD_composite` returns `A00 / z`. -/
theorem C26_single_fracture (E : Ext F) (z fs1 fs2 M12 LfD rmD reD : F) (xs : List F)
    (type : ModelType) (hz : z ≠ 0)
    (hsolve : ∀ (A : Matrix (Fin (1 + 1)) (Fin (1 + 1)) F) (b : Fin (1 + 1) → F),
      A.det ≠ 0 → A.mulVec (E.solve (1 + 1) A b) = b) :
    (∀ (g1 arg Acp : F) (ys : List F),
      A_mat E z M12 LfD g1 arg Acp 1 xs ys
          = !![A_mat E z M12 LfD g1 arg Acp 1 xs ys 0 0, -1; z, 0]
        ∧ (∀ x : Fin (1 + 1) → F,
            (A_mat E z M12 LfD g1 arg Acp 1 xs ys).mulVec x = b_vec 1
              ↔ x = ![1 / z, A_mat E z M12 LfD g1 arg Acp 1 xs ys 0 0 / z])
        ∧ z * E.solve (1 + 1) (A_mat E z M12 LfD g1 arg Acp 1 xs ys) (b_vec 1) 0 = 1)
    ∧ PWD_composite E z fs1 fs2 M12 LfD rmD reD 1 xs type
        = A_mat E z M12 LfD (E.sqrt (z * fs1)) (E.sqrt (z * fs1) * rmD)
            (Ac_prefactor E type M12 (E.sqrt (z * fs1)) (E.sqrt (z * fs2)) rmD reD) 1 xs
            (List.replicate 1 0) 0 0 / z := by
  have key : ∀ (g1 arg Acp : F) (ys : List F),
      E.solve (1 + 1) (A_mat E z M12 LfD g1 arg Acp 1 xs ys) (b_vec 1)
        = ![1 / z, A_mat E z M12 LfD g1 arg Acp 1 xs ys 0 0 / z] := by
    intro g1 arg Acp ys
    have hdet : (A_mat E z M12 LfD g1 arg Acp 1 xs ys).det ≠ 0 := by
      rw [A_mat_one, two_by_two_det]; exact hz
    have h := hsolve _ (b_vec 1) hdet
    rw [A_mat_one, b_vec_one] at h
    have h2 := (two_by_two_solution _ z hz _).1 h
    rw [b_vec_one]
    rw [← A_mat_one] at h2
    exact h2
  refine ⟨fun g1 arg Acp ys => ⟨A_mat_one E z M12 LfD g1 arg Acp xs ys, fun x => ?_, ?_⟩, ?_⟩
  · rw [b_vec_one]
    have := two_by_two_solution (A_mat E z M12 LfD g1 arg Acp 1 xs ys 0 0) z hz x
    rw [← A_mat_one] at this
    exact this
  · rw [key]
    simp [hz]
  · simp only [PWD_composite]
    rw [key]
    rfl

/-- Cramer's rule, the solver of the example oracle, solves every regular system. -/
theorem E0_solve_spec (n : Nat) (A : Matrix (Fin n) (Fin n) ℚ) (b : Fin n → ℚ)
    (h : A.det ≠ 0) : A.mulVec (E0.solve n A b) = b := by
  simp only [E0]
  rw [Matrix.mulVec_smul, Matrix.mulVec_mulVec, Matrix.mul_adjugate, Matrix.smul_mulVec_assoc,
    Matrix.one_mulVec, smul_smul, inv_mul_cancel₀ h, one_smul]

/-- The single-fracture example at `z = 2`, solved by Cramer's rule. -/
theorem C26_single_fracture_witness :
    (2 : ℚ) ≠ 0
    ∧ PWD_composite E0 2 1 1 1 1 1 0 1 [0] ModelType.Model_2
        = A_mat E0 2 1 1 (E0.sqrt (2 * 1)) (E0.sqrt (2 * 1) * 1)
            (Ac_prefactor E0 ModelType.Model_2 1 (E0.sqrt (2 * 1)) (E0.sqrt (2 * 1)) 1 0) 1 [0]
            (List.replicate 1 0) 0 0 / 2 :=
  ⟨by norm_num, (C26_single_fracture E0 2 1 1 1 1 1 0 [0] ModelType.Model_2 (by norm_num)
    (fun A b h => E0_solve_spec (1 + 1) A b h)).2⟩

/-- The rule `gauss15` is invariant under the reflection `a ↦ -a`. -/
theorem gauss15_reflect (f : F → F) (a b : F) :
    gauss15 (fun x => f (-x)) a b = gauss15 f (-b) (-a) := by
  simp only [gauss15]
  have h1 : (0.5 : F) * (-a - -b) = 0.5 * (b - a) := by ring
  have h2 : (0.5 : F) * (-b + -a) = -(0.5 * (a + b)) := by ring
  rw [h1, h2]
  congr 2
  funext s i
  have e1 : ∀ c dx : F, -(c - dx) = -c + dx := fun c dx => by ring
  have e2 : ∀ c dx : F, -(c + dx) = -c - dx := fun c dx => by ring
  simp only [e1, e2]
  rw [add_comm (f _) (f _)]

/-- The rule `adaptiveGauss` is invariant under the reflection `a ↦ -a`. -/
theorem adaptiveGauss_reflect (f : F → F) (n : Nat) :
    ∀ (a b eps : F) (depth maxDepth : Int), (maxDepth - depth).toNat ≤ n →
      adaptiveGauss (fun x => f (-x)) a b eps depth maxDepth
        = adaptiveGauss f (-b) (-a) eps depth maxDepth := by
  induction n with
  | zero =>
    intro a b eps depth maxDepth h
    have hd : depth ≥ maxDepth := by omega
    rw [adaptiveGauss]
    conv_rhs => rw [adaptiveGauss]
    have hc : (-b + -a) / 2 = -((a + b) / 2) := by ring
    simp only [hc, gauss15_reflect, if_pos (Or.inl hd : depth ≥ maxDepth ∨ _)]
    rw [add_comm]
  | succ n ih =>
    intro a b eps depth maxDepth h
    rw [adaptiveGauss]
    conv_rhs => rw [adaptiveGauss]
    have hc : (-b + -a) / 2 = -((a + b) / 2) := by ring
    simp only [hc, gauss15_reflect]
    rw [add_comm (gauss15 f (-((a + b) / 2)) (-a))]
    by_cases hcond : depth ≥ maxDepth ∨
        |gauss15 f (-b) (-a) - (gauss15 f (-b) (-((a + b) / 2))
          + gauss15 f (-((a + b) / 2)) (-a))|
          < 1e-10 * |gauss15 f (-b) (-((a + b) / 2)) + gauss15 f (-((a + b) / 2)) (-a)| + eps
    · rw [if_pos hcond, if_pos hcond]
    · rw [if_neg hcond, if_neg hcond]
      have hlt : ¬ depth ≥ maxDepth := fun hh => hcond (Or.inl hh)
      rw [ih a ((a + b) / 2) (eps / 2) (depth + 1) maxDepth (by omega),
        ih ((a + b) / 2) b (eps / 2) (depth + 1) maxDepth (by omega), add_comm]

/-- Swapping the two fractures reflects the integrand. -/
theorem integrand_swap (E : Ext F) (gama1 arg Acp : F) (xs ys : List F) (i j : Nat) :
    integrand E gama1 arg Acp xs ys j i
      = fun a => integrand E gama1 arg Acp xs ys i j (-a) := by
  funext a
  simp only [integrand, std_pow_two]
  have e : (xs.getD j 0 - xs.getD i 0 - a) ^ 2 + (ys.getD j 0 - ys.getD i 0) ^ 2
      = (xs.getD i 0 - xs.getD j 0 - -a) ^ 2 + (ys.getD i 0 - ys.getD j 0) ^ 2 := by ring
  rw [e]

/-- The integrand depends on the fractures only through the offset `xwD[i] - xwD[j]`. -/
theorem integrand_congr (E : Ext F) (gama1 arg Acp : F) (xs : List F) (n i j k l : Nat)
    (h : xs.getD i 0 - xs.getD j 0 = xs.getD k 0 - xs.getD l 0) :
    integrand E gama1 arg Acp xs (List.replicate n 0) i j
      = integrand E gama1 arg Acp xs (List.replicate n 0) k l := by
  funext a
  simp only [integrand, replicate_getD_zero, h]

/-- The fracture block of `A_mat` is symmetric. -/
theorem A_mat_symm (E : Ext F) (z M12 LfD gama1 arg Acp : F) (nf : Nat) (xs ys : List F)
    (i j : Fin (nf + 1)) (hi : i.val < nf) (hj : j.val < nf) :
    A_mat E z M12 LfD gama1 arg Acp nf xs ys i j
      = A_mat E z M12 LfD gama1 arg Acp nf xs ys j i := by
  simp only [A_mat, if_pos (And.intro hi hj), if_pos (And.intro hj hi)]
  rw [integrand_swap E gama1 arg Acp xs ys i j,
    adaptiveGauss_reflect _ _ (-LfD) LfD 1e-5 0 10 (le_refl _), neg_neg]

/-- Two entries of the fracture block with the same offset `xwD[i] - xwD[j]` are equal. -/
theorem A_mat_congr (E : Ext F) (z M12 LfD gama1 arg Acp : F) (nf : Nat) (xs : List F)
    (i j k l : Fin (nf + 1)) (hi : i.val < nf) (hj : j.val < nf) (hk : k.val < nf)
    (hl : l.val < nf)
    (h : xs.getD i.val 0 - xs.getD j.val 0 = xs.getD k.val 0 - xs.getD l.val 0) :
    A_mat E z M12 LfD gama1 arg Acp nf xs (List.replicate nf 0) i j
      = A_mat E z M12 LfD gama1 arg Acp nf xs (List.replicate nf 0) k l := by
  simp only [A_mat, if_pos (And.intro hi hj), if_pos (And.intro hk hl)]
  rw [integrand_congr E gama1 arg Acp xs nf i.val j.val k.val l.val h]

/-- The offsets of the evenly spaced positions depend only on the index difference. -/
theorem xwD_offset (nf : Int) (h : 1 ≤ nf) (i j k l : Nat) (hi : i < nf.toNat)
    (hj : j < nf.toNat) (hk : k < nf.toNat) (hl : l < nf.toNat)
    (hd : (i : Int) - j = (k : Int) - l) :
    (xwD nf : List F).getD i 0 - (xwD nf : List F).getD j 0
      = (xwD nf : List F).getD k 0 - (xwD nf : List F).getD l 0 := by
  by_cases h2 : 2 ≤ nf
  · rw [xwD_getD nf h2 i hi, xwD_getD nf h2 j hj, xwD_getD nf h2 k hk, xwD_getD nf h2 l hl]
    have hF : (i : F) - j = (k : F) - l := by exact_mod_cast hd
    have e : ∀ p q : F, (-0.9 + p * 1.8 / ((nf : F) - 1)) - (-0.9 + q * 1.8 / ((nf : F) - 1))
        = (p - q) * (1.8 / ((nf : F) - 1)) := fun p q => by ring
    rw [e, e, hF]
  · have hi0 : i = 0 := by omega
    have hj0 : j = 0 := by omega
    have hk0 : k = 0 := by omega
    have hl0 : l = 0 := by omega
    subst hi0 hj0 hk0 hl0
    rfl

/-- Claim C25. The fracture block of the flux matrix is symmetric Toeplitz: for the evenly
spaced positions `xwD` built by `flaplace_composite` with `nf ≥ 1`, and `i, j, k, l < nf` with
`|i - j| = |k - l|`, `A[i][j] = A[k][l]`, and in particular `A[i][j] = A[j][i]`; swapping the
two fractures reflects the integrand, and `adaptiveGauss` over `[-LfD, LfD]` is invariant
under the reflection `a ↦ -a`. -/
theorem C25_symmetric_toeplitz (E : Ext F) (z M12 LfD gama1 arg_g1_rm Ac_prefactor : F)
    (nf : Int) (i j k l : Fin (nf.toNat + 1)) (h1 : 1 ≤ nf)
    (hi : i.val < nf.toNat) (hj : j.val < nf.toNat) (hk : k.val < nf.toNat)
    (hl : l.val < nf.toNat)
    (habs : |(i.val : Int) - (j.val : Int)| = |(k.val : Int) - (l.val : Int)|) :
    A_mat E z M12 LfD gama1 arg_g1_rm Ac_prefactor nf.toNat (xwD nf)
        (List.replicate nf.toNat 0) i j
      = A_mat E z M12 LfD gama1 arg_g1_rm Ac_prefactor nf.toNat (xwD nf)
        (List.replicate nf.toNat 0) k l
    ∧ A_mat E z M12 LfD gama1 arg_g1_rm Ac_prefactor nf.toNat (xwD nf)
        (List.replicate nf.toNat 0) i j
      = A_mat E z M12 LfD gama1 arg_g1_rm Ac_prefactor nf.toNat (xwD nf)
        (List.replicate nf.toNat 0) j i
    ∧ integrand E gama1 arg_g1_rm Ac_prefactor (xwD nf) (List.replicate nf.toNat 0) j.val i.val
      = (fun a => integrand E gama1 arg_g1_rm Ac_prefactor (xwD nf)
          (List.replicate nf.toNat 0) i.val j.val (-a))
    ∧ (∀ f : F → F, adaptiveGauss (fun a => f (-a)) (-LfD) LfD 1e-5 0 10
        = adaptiveGauss f (-LfD) LfD 1e-5 0 10) := by
  refine ⟨?_, A_mat_symm E z M12 LfD gama1 arg_g1_rm Ac_prefactor _ _ _ i j hi hj,
    integrand_swap E gama1 arg_g1_rm Ac_prefactor _ _ i.val j.val, fun f => ?_⟩
  · rcases abs_eq_abs.1 habs with hd | hd
    · exact A_mat_congr E z M12 LfD gama1 arg_g1_rm Ac_prefactor _ _ i j k l hi hj hk hl
        (xwD_offset nf h1 _ _ _ _ hi hj hk hl hd)
    · rw [A_mat_symm E z M12 LfD gama1 arg_g1_rm Ac_prefactor _ _ _ k l hk hl]
      exact A_mat_congr E z M12 LfD gama1 arg_g1_rm Ac_prefactor _ _ i j l k hi hj hl hk
        (xwD_offset nf h1 _ _ _ _ hi hj hl hk (by omega))
  · rw [adaptiveGauss_reflect f _ (-LfD) LfD 1e-5 0 10 (le_refl _), neg_neg]

/-- Four fractures: the entries `(0, 2)` and `(3, 1)` of the fracture block. -/
theorem C25_symmetric_toeplitz_witness :
    (1 : Int) ≤ 4
    ∧ |(((0 : Fin ((4 : Int).toNat + 1)).val : Int))
          - ((2 : Fin ((4 : Int).toNat + 1)).val : Int)|
        = |(((3 : Fin ((4 : Int).toNat + 1)).val : Int))
          - ((1 : Fin ((4 : Int).toNat + 1)).val : Int)|
    ∧ A_mat E0 1 1 1 1 1 0 (4 : Int).toNat (xwD 4) (List.replicate (4 : Int).toNat 0) 0 2
      = A_mat E0 1 1 1 1 1 0 (4 : Int).toNat (xwD 4) (List.replicate (4 : Int).toNat 0) 3 1 :=
  ⟨by decide, by decide,
    (C25_symmetric_toeplitz E0 1 1 1 1 1 0 4 0 2 3 1 (by decide) (by decide) (by decide)
      (by decide) (by decide) (by decide)).1⟩

/-- The rational square root of a square is the absolute value. -/
theorem E1_sqrt_sq (x : ℚ) : E1.sqrt (x ^ 2) = |x| := by
  rw [sq]
  exact Rat.sqrt_eq x

/-- A closed variant with `gama2 = 1`, `rmD = 1`, `reD = 2`. -/
theorem C21_scaled_bessel_cancel_witness :
    (0 : ℚ) ≤ 1 * 2 ∧ (1 : ℚ) * 2 ≤ 600 ∧ (0 : ℚ) ≤ 1 * 1 ∧ (1 : ℚ) * 1 ≤ 600
    ∧ isClosed ModelType.Model_3 = true ∧ scaled_besseli E1 1 (1 * 2) > 1e-100
    ∧ term_mAB_i0 E1 ModelType.Model_3 1 1 2
        = E1.cyl_bessel_k 1 (1 * 2) / E1.cyl_bessel_i 1 (1 * 2) * E1.cyl_bessel_i 0 (1 * 1)
    ∧ term_mAB_i1 E1 ModelType.Model_3 1 1 2
        = E1.cyl_bessel_k 1 (1 * 2) / E1.cyl_bessel_i 1 (1 * 2) * E1.cyl_bessel_i 1 (1 * 1) :=
  have hs : scaled_besseli E1 1 (1 * 2) > 1e-100 := by
    simp [scaled_besseli, E1]
    norm_num
  ⟨by norm_num, by norm_num, by norm_num, by norm_num, rfl, hs,
    (C21_scaled_bessel_cancel E1 ModelType.Model_3 1 1 2 (fun _ _ => by simp [E1]) rfl
      (by norm_num) (by norm_num) (by norm_num) (by norm_num)).1 rfl hs⟩

/-- Two fractures, with the rational square root. -/
theorem C23_linear_system_layout_witness :
    (∀ x : ℚ, E1.sqrt (x ^ 2) = |x|)
    ∧ PWD_composite E1 1 1 1 1 1 1 0 2 (xwD 2) ModelType.Model_1
      = E1.solve (2 + 1)
          (A_mat E1 1 1 1 (E1.sqrt (1 * 1)) (E1.sqrt (1 * 1) * 1)
            (Ac_prefactor E1 ModelType.Model_1 1 (E1.sqrt (1 * 1)) (E1.sqrt (1 * 1)) 1 0) 2
            (xwD 2) (List.replicate 2 0))
          (b_vec 2) (Fin.last 2)
    ∧ b_vec (F := ℚ) 2 2 = (if ((2 : Fin (2 + 1)).val < 2) then 0 else 1) :=
  have h := C23_linear_system_layout E1 1 1 1 1 1 1 0 2 (xwD 2) ModelType.Model_1 E1_sqrt_sq
  ⟨E1_sqrt_sq, h.1, h.2.2 2⟩

/-- An infinite variant whose computed denominator is 2. -/
theorem C24_denominator_floor_witness :
    1e-100 ≤ |Acdown_computed E0 ModelType.Model_1 1 1 1 1 0|
    ∧ Acdown_scaled E0 ModelType.Model_1 1 1 1 1 0
      = Acdown_computed E0 ModelType.Model_1 1 1 1 1 0 :=
  have h : 1e-100 ≤ |Acdown_computed E0 ModelType.Model_1 1 1 1 1 0| := by
    simp [Acdown_computed, term1, term2, term_mAB_i0, term_mAB_i1, isInfinite, scaled_besseli,
      E0]
    norm_num
  ⟨h, (C24_denominator_floor E0 ModelType.Model_1 1 1 1 1 0).2.2.2 h⟩

/-- The constant 1 on `[0, 1]`. -/
theorem C29_gauss15_constant_witness :
    (1 : ℚ) ≠ 0 ∧ (0 : ℚ) ≠ 1 ∧ gauss15 (fun _ => (1 : ℚ)) 0 1 ≠ 1 * (1 - 0) :=
  ⟨by norm_num, by norm_num, (C29_gauss15_constant (1 : ℚ) 0 1).2.2.1 (by norm_num) (by norm_num)⟩

/-- The term `N = 4`, `i = 3`, `k = 2`, and `factorial(-3)`. -/
theorem C30_denominator_guard_witness :
    Even (4 : Int) ∧ (2 : Int) ≤ 4 ∧ (1 : Int) ≤ 3 ∧ (3 : Int) ≤ 4
    ∧ ((3 : Int) + 1).tdiv 2 ≤ 2 ∧ (2 : Int) ≤ min 3 ((4 : Int).tdiv 2)
    ∧ ((0 : Int) ≤ (4 : Int).tdiv 2 - 2 ∧ (0 : Int) ≤ 2 ∧ (0 : Int) ≤ 2 - 1
      ∧ (0 : Int) ≤ 3 - 2 ∧ (0 : Int) ≤ 2 * 2 - 3)
    ∧ (-3 : Int) ≤ 1 ∧ (factorial (-3) : ℚ) = 1 :=
  ⟨by decide, by decide, by decide, by decide, by decide, by decide,
    (C30_denominator_guard E0).1 4 3 2 (by decide) (by decide) (by decide) (by decide)
      (by decide) (by decide),
    by decide, (C30_denominator_guard E0).2.2.1 (-3) (by decide)⟩

/-- The nearest integer is within `1/2`. -/
theorem nearestEven_err (m : ℚ) : |(nearestEven m : ℚ) - m| ≤ 1 / 2 := by
  have h1 : ((⌊m⌋ : Int) : ℚ) ≤ m := Int.floor_le m
  have h2 : m < ((⌊m⌋ : Int) : ℚ) + 1 := Int.lt_floor_add_one m
  unfold nearestEven
  simp only
  split_ifs with a b c
  · rw [abs_le]; constructor <;> linarith
  · rw [abs_le]; push_cast; constructor <;> linarith
  · rw [abs_le]; constructor <;> linarith
  · rw [abs_le]; push_cast; constructor <;> linarith

/-- An integer within less than `1/2` of `m` is the nearest integer to `m`. -/
theorem nearestEven_of_lt (m : ℚ) (n : Int) (h : |m - n| < 1 / 2) : nearestEven m = n := by
  rw [abs_lt] at h
  obtain ⟨ha, hb⟩ := h
  have h1 : ((⌊m⌋ : Int) : ℚ) ≤ m := Int.floor_le m
  have h2 : m < ((⌊m⌋ : Int) : ℚ) + 1 := Int.lt_floor_add_one m
  have hf : ⌊m⌋ = n ∨ ⌊m⌋ = n - 1 := by
    have a1 : ((⌊m⌋ : Int) : ℚ) < (n : ℚ) + 1 := by linarith
    have a2 : ((n : Int) : ℚ) - 2 < ((⌊m⌋ : Int) : ℚ) := by linarith
    have a3 : ⌊m⌋ < n + 1 := by exact_mod_cast a1
    have a4 : n - 2 < ⌊m⌋ := by exact_mod_cast a2
    omega
  unfold nearestEven
  simp only
  rcases hf with hf | hf
  · rw [hf, if_pos (by linarith)]
  · rw [hf] at h1 h2 ⊢
    push_cast at h1 h2 ⊢
    rw [if_neg (by linarith), if_pos (by linarith)]
    ring

/-- Half-way between `k` and `k + 1` the even one is chosen. -/
theorem nearestEven_tie (k : Int) :
    nearestEven ((k : ℚ) + 1 / 2) = if k % 2 = 0 then k else k + 1 := by
  have hf : ⌊(k : ℚ) + 1 / 2⌋ = k := by
    rw [Int.floor_eq_iff]
    constructor <;> linarith
  unfold nearestEven
  simp only
  rw [hf, if_neg (by linarith), if_neg (by linarith)]

/-- The binary exponent of a positive rational between two consecutive powers of 2. -/
theorem log_two_eq (x : ℚ) (L : Int) (hx : 0 < x) (h1 : (2 : ℚ) ^ L ≤ x)
    (h2 : x < (2 : ℚ) ^ (L + 1)) : Int.log 2 x = L := by
  have a := (Int.zpow_le_iff_le_log (R := ℚ) (b := 2) (by norm_num) hx (x := L)).1
    (by simpa using h1)
  have b := (Int.lt_zpow_iff_log_lt (R := ℚ) (b := 2) (by norm_num) hx (x := L + 1)).1
    (by simpa using h2)
  omega

/-- Rounding commutes with the change of sign. -/
theorem roundDouble_neg (x : ℚ) : roundDouble (-x) = -roundDouble x := by
  unfold roundDouble
  by_cases h0 : x = 0
  · simp [h0]
  · have h0n : -x ≠ 0 := neg_ne_zero.mpr h0
    rw [if_neg h0, if_neg h0n, abs_neg]
    simp only
    rcases lt_or_gt_of_ne h0 with h | h
    · rw [if_pos h, if_neg (by linarith : ¬ -x < 0)]
      ring
    · rw [if_pos (by linarith : -x < 0), if_neg (by linarith : ¬ x < 0)]
      ring

/-- The rounding of a positive rational whose binary exponent is known. -/
theorem roundDouble_of_pos (x : ℚ) (e : Int) (hx : 0 < x)
    (h1 : (2 : ℚ) ^ (e + 52) ≤ x) (h2 : x < (2 : ℚ) ^ (e + 52 + 1)) :
    roundDouble x = (nearestEven (x / (2 : ℚ) ^ e) : ℚ) * (2 : ℚ) ^ e := by
  unfold roundDouble
  rw [if_neg (ne_of_gt hx), abs_of_pos hx, log_two_eq x (e + 52) hx h1 h2]
  simp only [if_neg (not_lt.mpr hx.le), add_sub_cancel_right, one_mul]

/-- The relative error of one rounding is at most `2^-53`. -/
theorem roundDouble_err (x : ℚ) : |roundDouble x - x| ≤ |x| / 2 ^ 53 := by
  unfold roundDouble
  by_cases h0 : x = 0
  · simp [h0]
  rw [if_neg h0]
  simp only
  have ha : 0 < |x| := abs_pos.mpr h0
  set L := Int.log 2 |x| with hL
  have hlow : (2 : ℚ) ^ L ≤ |x| := by
    have := Int.zpow_log_le_self (R := ℚ) (b := 2) (by norm_num) ha
    simpa using this
  have hp : (0 : ℚ) < 2 ^ (L - 52) := zpow_pos (by norm_num) _
  have herr := nearestEven_err (|x| / (2 : ℚ) ^ (L - 52))
  set n : ℚ := (nearestEven (|x| / (2 : ℚ) ^ (L - 52)) : ℚ) with hn
  have e1 : abs (n * 2 ^ (L - 52) - |x|) ≤ 1 / 2 * 2 ^ (L - 52) := by
    have : n * 2 ^ (L - 52) - |x| = (n - |x| / 2 ^ (L - 52)) * 2 ^ (L - 52) := by
      field_simp
    rw [this, abs_mul, abs_of_pos hp]
    exact mul_le_mul_of_nonneg_right herr hp.le
  have e2 : (1 : ℚ) / 2 * 2 ^ (L - 52) ≤ |x| / 2 ^ 53 := by
    have : (2 : ℚ) ^ (L - 52) = 2 ^ L / 2 ^ 52 := by
      rw [zpow_sub₀ (by norm_num)]
      norm_num
    rw [this]
    have : (1 : ℚ) / 2 * (2 ^ L / 2 ^ 52) = 2 ^ L / 2 ^ 53 := by ring
    rw [this]
    exact div_le_div_of_nonneg_right hlow (by norm_num)
  have e3 : |(if x < 0 then -1 else 1) * n * 2 ^ (L - 52) - x|
      = abs (n * 2 ^ (L - 52) - |x|) := by
    rcases lt_or_gt_of_ne h0 with h | h
    · rw [if_pos h, abs_of_neg h]
      rw [← abs_neg]
      congr 1
      ring
    · rw [if_neg (by linarith : ¬ x < 0), abs_of_pos h]
      congr 1
      ring
  rw [e3]
  exact le_trans e1 e2

/-- The rounding of a positive rational, given the exponent and a mantissa within less
than half a unit. -/
theorem roundDouble_eq_of_near (x : ℚ) (e n : Int) (hx : 0 < x)
    (h1 : (2 : ℚ) ^ (e + 52) ≤ x) (h2 : x < (2 : ℚ) ^ (e + 52 + 1))
    (h : |x / (2 : ℚ) ^ e - n| < 1 / 2) : roundDouble x = (n : ℚ) * (2 : ℚ) ^ e := by
  rw [roundDouble_of_pos x e hx h1 h2, nearestEven_of_lt _ n h]

/-- The rounding of a positive rational half-way between two consecutive mantissas. -/
theorem roundDouble_eq_of_tie (x : ℚ) (e k : Int) (hx : 0 < x)
    (h1 : (2 : ℚ) ^ (e + 52) ≤ x) (h2 : x < (2 : ℚ) ^ (e + 52 + 1))
    (h : x / (2 : ℚ) ^ e = (k : ℚ) + 1 / 2) :
    roundDouble x = ((if k % 2 = 0 then k else k + 1 : Int) : ℚ) * (2 : ℚ) ^ e := by
  rw [roundDouble_of_pos x e hx h1 h2, h, nearestEven_tie]

/-- Zero is a `double`. -/
theorem roundDouble_zero : roundDouble 0 = 0 := by
  simp [roundDouble]

/-- The literal `0.9` as a `double`. -/
theorem roundDouble_lit : roundDouble 0.9 = 8106479329266893 / 2 ^ 53 := by
  rw [roundDouble_eq_of_near 0.9 (-53) 8106479329266893 (by norm_num) (by norm_num)
    (by norm_num) (by rw [abs_lt]; constructor <;> norm_num)]
  norm_num

/-- The difference `end - start` is computed exactly. -/
theorem roundDouble_span :
    roundDouble (8106479329266893 / 2 ^ 53 - -(8106479329266893 / 2 ^ 53))
      = 8106479329266893 / 2 ^ 52 := by
  rw [roundDouble_eq_of_near _ (-52) 8106479329266893 (by norm_num) (by norm_num)
    (by norm_num) (by rw [abs_lt]; constructor <;> norm_num)]
  norm_num

/-- The vector `xwD` computed in `double` arithmetic has `nf` entries. -/
theorem xwD_double_length (nf : Int) (h : 1 ≤ nf) : (xwD_double nf).length = nf.toNat := by
  unfold xwD_double
  split
  · rename_i h1; subst h1; rfl
  · simp only [intLoop, List.length_map, List.length_range]
    omega

/-- For `nf ≥ 2` the entry `xwD[i]` computed in `double` arithmetic, with the literal
`0.9` and the difference `end - start` evaluated. -/
theorem xwD_double_getD (nf : Int) (h : 2 ≤ nf) (i : Nat) (hi : i < nf.toNat) :
    (xwD_double nf).getD i 0
      = roundDouble (-(8106479329266893 / 2 ^ 53)
          + roundDouble ((i : ℚ) * roundDouble (8106479329266893 / 2 ^ 52 / ((nf : ℚ) - 1)))) := by
  unfold xwD_double
  rw [if_neg (by omega)]
  have hlen : i < (List.range (nf - 1 + 1 - 0).toNat).length := by
    simp only [List.length_range]; omega
  simp only [intLoop, List.map_map, List.getD_eq_getElem?_getD, List.getElem?_map,
    List.getElem?_eq_getElem hlen, List.getElem_range, Option.map_some', Option.getD_some,
    Function.comp, roundDouble_lit, roundDouble_span]
  push_cast
  simp

/-- The position `xwD[0]` for `nf = 4` in `double` arithmetic. -/
theorem xwD_double_4_0 : (xwD_double 4).getD 0 0 = -(8106479329266893 / 2 ^ 53) := by
  have hs : roundDouble (8106479329266893 / 2 ^ 52 / ((((4 : Int)) : ℚ) - 1)) = 5404319552844595 / 2 ^ 53 := by
    rw [roundDouble_eq_of_near _ (-53) 5404319552844595 (by norm_num) (by norm_num) (by norm_num)
      (by rw [abs_lt]; constructor <;> norm_num)]
    norm_num
  have ht : roundDouble ((((0 : Nat)) : ℚ) * (5404319552844595 / 2 ^ 53)) = 0 := by
    rw [show ((((0 : Nat)) : ℚ) * (5404319552844595 / 2 ^ 53) : ℚ) = 0 by norm_num, roundDouble_zero]
  have hx : roundDouble (-(8106479329266893 / 2 ^ 53) + 0) = -(8106479329266893 / 2 ^ 53) := by
    rw [show (-(8106479329266893 / 2 ^ 53) + 0 : ℚ) = -(8106479329266893 / 2 ^ 53) by norm_num, roundDouble_neg]
    rw [roundDouble_eq_of_near _ (-53) 8106479329266893 (by norm_num) (by norm_num) (by norm_num)
      (by rw [abs_lt]; constructor <;> norm_num)]
    norm_num
  rw [xwD_double_getD 4 (by norm_num) 0 (by decide), hs, ht, hx]

/-- The position `xwD[1]` for `nf = 4` in `double` arithmetic. -/
theorem xwD_double_4_1 : (xwD_double 4).getD 1 0 = -(1351079888211149 / 2 ^ 52) := by
  have hs : roundDouble (8106479329266893 / 2 ^ 52 / ((((4 : Int)) : ℚ) - 1)) = 5404319552844595 / 2 ^ 53 := by
    rw [roundDouble_eq_of_near _ (-53) 5404319552844595 (by norm_num) (by norm_num) (by norm_num)
      (by rw [abs_lt]; constructor <;> norm_num)]
    norm_num
  have ht : roundDouble ((((1 : Nat)) : ℚ) * (5404319552844595 / 2 ^ 53)) = 5404319552844595 / 2 ^ 53 := by
    rw [roundDouble_eq_of_near _ (-53) 5404319552844595 (by norm_num) (by norm_num) (by norm_num)
      (by rw [abs_lt]; constructor <;> norm_num)]
    norm_num
  have hx : roundDouble (-(8106479329266893 / 2 ^ 53) + 5404319552844595 / 2 ^ 53) = -(1351079888211149 / 2 ^ 52) := by
    rw [show (-(8106479329266893 / 2 ^ 53) + 5404319552844595 / 2 ^ 53 : ℚ) = -(1351079888211149 / 2 ^ 52) by norm_num, roundDouble_neg]
    rw [roundDouble_eq_of_near _ (-54) 5404319552844596 (by norm_num) (by norm_num) (by norm_num)
      (by rw [abs_lt]; constructor <;> norm_num)]
    norm_num
  rw [xwD_double_getD 4 (by norm_num) 1 (by decide), hs, ht, hx]

/-- The position `xwD[2]` for `nf = 4` in `double` arithmetic. -/
theorem xwD_double_4_2 : (xwD_double 4).getD 2 0 = 2702159776422297 / 2 ^ 53 := by
  have hs : roundDouble (8106479329266893 / 2 ^ 52 / ((((4 : Int)) : ℚ) - 1)) = 5404319552844595 / 2 ^ 53 := by
    rw [roundDouble_eq_of_near _ (-53) 5404319552844595 (by norm_num) (by norm_num) (by norm_num)
      (by rw [abs_lt]; constructor <;> norm_num)]
    norm_num
  have ht : roundDouble ((((2 : Nat)) : ℚ) * (5404319552844595 / 2 ^ 53)) = 5404319552844595 / 2 ^ 52 := by
    rw [roundDouble_eq_of_near _ (-52) 5404319552844595 (by norm_num) (by norm_num) (by norm_num)
      (by rw [abs_lt]; constructor <;> norm_num)]
    norm_num
  have hx : roundDouble (-(8106479329266893 / 2 ^ 53) + 5404319552844595 / 2 ^ 52) = 2702159776422297 / 2 ^ 53 := by
    rw [roundDouble_eq_of_near _ (-54) 5404319552844594 (by norm_num) (by norm_num) (by norm_num)
      (by rw [abs_lt]; constructor <;> norm_num)]
    norm_num
  rw [xwD_double_getD 4 (by norm_num) 2 (by decide), hs, ht, hx]

/-- The position `xwD[3]` for `nf = 4` in `double` arithmetic. -/
theorem xwD_double_4_3 : (xwD_double 4).getD 3 0 = 8106479329266891 / 2 ^ 53 := by
  have hs : roundDouble (8106479329266893 / 2 ^ 52 / ((((4 : Int)) : ℚ) - 1)) = 5404319552844595 / 2 ^ 53 := by
    rw [roundDouble_eq_of_near _ (-53) 5404319552844595 (by norm_num) (by norm_num) (by norm_num)
      (by rw [abs_lt]; constructor <;> norm_num)]
    norm_num
  have ht : roundDouble ((((3 : Nat)) : ℚ) * (5404319552844595 / 2 ^ 53)) = 2026619832316723 / 2 ^ 50 := by
    rw [roundDouble_eq_of_tie _ (-52) 8106479329266892 (by norm_num) (by norm_num) (by norm_num)
      (by norm_num)]
    norm_num
  have hx : roundDouble (-(8106479329266893 / 2 ^ 53) + 2026619832316723 / 2 ^ 50) = 8106479329266891 / 2 ^ 53 := by
    rw [roundDouble_eq_of_near _ (-53) 8106479329266891 (by norm_num) (by norm_num) (by norm_num)
      (by rw [abs_lt]; constructor <;> norm_num)]
    norm_num
  rw [xwD_double_getD 4 (by norm_num) 3 (by decide), hs, ht, hx]

/-- The position `xwD[7]` for `nf = 8` in `double` arithmetic. -/
theorem xwD_double_8_7 : (xwD_double 8).getD 7 0 = 8106479329266895 / 2 ^ 53 := by
  have hs : roundDouble (8106479329266893 / 2 ^ 52 / ((((8 : Int)) : ℚ) - 1)) = 4632273902438225 / 2 ^ 54 := by
    rw [roundDouble_eq_of_near _ (-54) 4632273902438225 (by norm_num) (by norm_num) (by norm_num)
      (by rw [abs_lt]; constructor <;> norm_num)]
    norm_num
  have ht : roundDouble ((((7 : Nat)) : ℚ) * (4632273902438225 / 2 ^ 54)) = 4053239664633447 / 2 ^ 51 := by
    rw [roundDouble_eq_of_near _ (-52) 8106479329266894 (by norm_num) (by norm_num) (by norm_num)
      (by rw [abs_lt]; constructor <;> norm_num)]
    norm_num
  have hx : roundDouble (-(8106479329266893 / 2 ^ 53) + 4053239664633447 / 2 ^ 51) = 8106479329266895 / 2 ^ 53 := by
    rw [roundDouble_eq_of_near _ (-53) 8106479329266895 (by norm_num) (by norm_num) (by norm_num)
      (by rw [abs_lt]; constructor <;> norm_num)]
    norm_num
  rw [xwD_double_getD 8 (by norm_num) 7 (by decide), hs, ht, hx]

/-- The position `xwD[0]` for `nf = 2` in `double` arithmetic. -/
theorem xwD_double_2_0 : (xwD_double 2).getD 0 0 = -(8106479329266893 / 2 ^ 53) := by
  have hs : roundDouble (8106479329266893 / 2 ^ 52 / ((((2 : Int)) : ℚ) - 1)) = 8106479329266893 / 2 ^ 52 := by
    rw [roundDouble_eq_of_near _ (-52) 8106479329266893 (by norm_num) (by norm_num) (by norm_num)
      (by rw [abs_lt]; constructor <;> norm_num)]
    norm_num
  have ht : roundDouble ((((0 : Nat)) : ℚ) * (8106479329266893 / 2 ^ 52)) = 0 := by
    rw [show ((((0 : Nat)) : ℚ) * (8106479329266893 / 2 ^ 52) : ℚ) = 0 by norm_num, roundDouble_zero]
  have hx : roundDouble (-(8106479329266893 / 2 ^ 53) + 0) = -(8106479329266893 / 2 ^ 53) := by
    rw [show (-(8106479329266893 / 2 ^ 53) + 0 : ℚ) = -(8106479329266893 / 2 ^ 53) by norm_num, roundDouble_neg]
    rw [roundDouble_eq_of_near _ (-53) 8106479329266893 (by norm_num) (by norm_num) (by norm_num)
      (by rw [abs_lt]; constructor <;> norm_num)]
    norm_num
  rw [xwD_double_getD 2 (by norm_num) 0 (by decide), hs, ht, hx]

/-- The position `xwD[1]` for `nf = 2` in `double` arithmetic. -/
theorem xwD_double_2_1 : (xwD_double 2).getD 1 0 = 8106479329266893 / 2 ^ 53 := by
  have hs : roundDouble (8106479329266893 / 2 ^ 52 / ((((2 : Int)) : ℚ) - 1)) = 8106479329266893 / 2 ^ 52 := by
    rw [roundDouble_eq_of_near _ (-52) 8106479329266893 (by norm_num) (by norm_num) (by norm_num)
      (by rw [abs_lt]; constructor <;> norm_num)]
    norm_num
  have ht : roundDouble ((((1 : Nat)) : ℚ) * (8106479329266893 / 2 ^ 52)) = 8106479329266893 / 2 ^ 52 := by
    rw [roundDouble_eq_of_near _ (-52) 8106479329266893 (by norm_num) (by norm_num) (by norm_num)
      (by rw [abs_lt]; constructor <;> norm_num)]
    norm_num
  have hx : roundDouble (-(8106479329266893 / 2 ^ 53) + 8106479329266893 / 2 ^ 52) = 8106479329266893 / 2 ^ 53 := by
    rw [roundDouble_eq_of_near _ (-53) 8106479329266893 (by norm_num) (by norm_num) (by norm_num)
      (by rw [abs_lt]; constructor <;> norm_num)]
    norm_num
  rw [xwD_double_getD 2 (by norm_num) 1 (by decide), hs, ht, hx]

/-- The rounding error of one position: with `n = nf - 1` and `0 ≤ i ≤ n`, the `double`
value of `start + i * step` is within `1e-15` of `-0.9 + i * 1.8 / n`. -/
theorem position_err (n i : ℚ) (hn : 1 ≤ n) (hi0 : 0 ≤ i) (hin : i ≤ n) :
    |roundDouble (-(8106479329266893 / 2 ^ 53)
        + roundDouble (i * roundDouble (8106479329266893 / 2 ^ 52 / n)))
      - (-0.9 + i * 1.8 / n)| ≤ 1e-15 := by
  have hnpos : 0 < n := by linarith
  have hnne : n ≠ 0 := ne_of_gt hnpos
  set q : ℚ := 8106479329266893 / 2 ^ 52 / n with hq
  have hq0 : 0 < q := by positivity
  have hp0 : 0 ≤ i * q := mul_nonneg hi0 hq0.le
  have hpD : i * q ≤ 8106479329266893 / 2 ^ 52 := by
    have e : i * q = i / n * (8106479329266893 / 2 ^ 52) := by
      rw [hq]
      field_simp
      left
      ring
    rw [e]
    have hr : i / n ≤ 1 := (div_le_one hnpos).mpr hin
    have := mul_le_mul_of_nonneg_right hr (by norm_num : (0 : ℚ) ≤ 8106479329266893 / 2 ^ 52)
    linarith
  have hX : -0.9 + i * 1.8 / n = -0.9 + 1.8 / (8106479329266893 / 2 ^ 52) * (i * q) := by
    rw [hq]
    field_simp
    ring
  have es := roundDouble_err q
  rw [abs_of_pos hq0, abs_le] at es
  have hlo : i * q - i * q / 2 ^ 53 ≤ i * roundDouble q := by
    have := mul_le_mul_of_nonneg_left (by linarith [es.1] : q - q / 2 ^ 53 ≤ roundDouble q) hi0
    linarith
  have hhi : i * roundDouble q ≤ i * q + i * q / 2 ^ 53 := by
    have := mul_le_mul_of_nonneg_left (by linarith [es.2] : roundDouble q ≤ q + q / 2 ^ 53) hi0
    linarith
  have hw0 : 0 ≤ i * roundDouble q := by
    have : (0 : ℚ) ≤ i * q - i * q / 2 ^ 53 := by
      have : i * q / 2 ^ 53 ≤ i * q := div_le_self hp0 (by norm_num)
      linarith
    linarith
  have et := roundDouble_err (i * roundDouble q)
  rw [abs_of_nonneg hw0, abs_le] at et
  have hab : |-(8106479329266893 / 2 ^ 53) + roundDouble (i * roundDouble q)| ≤ 1 := by
    rw [abs_le]
    constructor
    · norm_num at et hlo hhi hpD ⊢
      linarith [et.1]
    · norm_num at et hlo hhi hpD ⊢
      linarith [et.2]
  have ex := roundDouble_err (-(8106479329266893 / 2 ^ 53) + roundDouble (i * roundDouble q))
  have ex2 := le_trans ex (div_le_div_of_nonneg_right hab (by norm_num : (0 : ℚ) ≤ 2 ^ 53))
  rw [abs_le] at ex2
  rw [hX, abs_le]
  constructor
  · norm_num at et hlo hhi hpD ex2 ⊢
    linarith [et.1, ex2.1]
  · norm_num at et hlo hhi hpD ex2 ⊢
    linarith [et.2, ex2.2]

/-- For `nf ≥ 2` every position computed in `double` arithmetic is within `1e-15` of
`-0.9 + i * 1.8 / (nf - 1)`. -/
theorem xwD_double_err (nf : Int) (h : 2 ≤ nf) (i : Nat) (hi : i < nf.toNat) :
    |(xwD_double nf).getD i 0 - (-0.9 + (i : ℚ) * 1.8 / ((nf : ℚ) - 1))| ≤ 1e-15 := by
  rw [xwD_double_getD nf h i hi]
  have h2 : (2 : ℚ) ≤ (nf : ℚ) := by exact_mod_cast h
  have hi2 : ((i : Int) : ℚ) + 1 ≤ (nf : ℚ) := by
    have : (i : Int) + 1 ≤ nf := by omega
    exact_mod_cast this
  apply position_err
  · linarith
  · exact Nat.cast_nonneg i
  · have : ((i : Int) : ℚ) = (i : ℚ) := by simp
    linarith

/-- A `double` is its own rounding: the case of the literal `0.9`. -/
theorem roundDouble_lit_idem :
    roundDouble (8106479329266893 / 2 ^ 53) = 8106479329266893 / 2 ^ 53 := by
  rw [roundDouble_eq_of_near _ (-53) 8106479329266893 (by norm_num) (by norm_num)
    (by norm_num) (by rw [abs_lt]; constructor <;> norm_num)]
  norm_num

/-- The first position is the `double` `-0.9`. -/
theorem xwD_double_first (nf : Int) (h : 2 ≤ nf) :
    (xwD_double nf).getD 0 0 = -roundDouble 0.9 := by
  rw [xwD_double_getD nf h 0 (by omega), Nat.cast_zero, zero_mul, roundDouble_zero, add_zero,
    roundDouble_neg, roundDouble_lit_idem, roundDouble_lit]

/-- For a count in the range of `int`, the computed positions are strictly increasing. -/
theorem xwD_double_lt (nf : Int) (h : 2 ≤ nf) (hmax : nf ≤ 2147483647) (i j : Nat)
    (hij : i < j) (hj : j < nf.toNat) :
    (xwD_double nf).getD i 0 < (xwD_double nf).getD j 0 := by
  have ei := xwD_double_err nf h i (by omega)
  have ej := xwD_double_err nf h j hj
  rw [abs_le] at ei ej
  have hn : (0 : ℚ) < (nf : ℚ) - 1 := by
    have : (2 : ℚ) ≤ (nf : ℚ) := by exact_mod_cast h
    linarith
  have hn2 : (nf : ℚ) - 1 ≤ 2147483646 := by
    have : (nf : ℚ) ≤ 2147483647 := by exact_mod_cast hmax
    linarith
  have hji : (i : ℚ) + 1 ≤ (j : ℚ) := by exact_mod_cast hij
  have hstep : (1.8 : ℚ) / 2147483646 ≤ 1.8 / ((nf : ℚ) - 1) :=
    div_le_div_of_nonneg_left (by norm_num) hn hn2
  have hd : (i : ℚ) * 1.8 / ((nf : ℚ) - 1) + 1.8 / ((nf : ℚ) - 1)
      ≤ (j : ℚ) * 1.8 / ((nf : ℚ) - 1) := by
    have : (i : ℚ) * 1.8 / ((nf : ℚ) - 1) + 1.8 / ((nf : ℚ) - 1)
        = ((i : ℚ) + 1) * (1.8 / ((nf : ℚ) - 1)) := by ring
    rw [this, mul_div_assoc]
    exact mul_le_mul_of_nonneg_right hji (div_nonneg (by norm_num) hn.le)
  norm_num at ei ej hstep hd ⊢
  linarith [ei.2, ej.1]

/-- A Boost call that does not throw returns the value. -/
theorem cyl_bessel_k_checked_ok (E : Ext F) (P : BesselPolicy F) (v : Int) (x : F)
    (h : P.throws v x = none) :
    cyl_bessel_k_checked E P v x = Except.ok (E.cyl_bessel_k v x) := by
  unfold cyl_bessel_k_checked
  rw [h]

/-- The Boost call of the integrand is made at an argument that is at least `1e-10`: it
returns. -/
theorem integrand_checked_ok (E : Ext F) (P : BesselPolicy F)
    (gama1 arg_g1_rm Ac_prefactor : F) (xs ys : List F) (i j : Nat) (a : F) :
    integrand_checked E P gama1 arg_g1_rm Ac_prefactor xs ys i j a
      = Except.ok (integrand E gama1 arg_g1_rm Ac_prefactor xs ys i j a) := by
  unfold integrand_checked integrand
  simp only
  rw [cyl_bessel_k_checked_ok]
  · rfl
  · apply P.k0_ok
    split_ifs with h
    · exact le_refl _
    · exact not_lt.mp h

/-- Claim C9, as amended. Fracture positions built by `flaplace_composite`: the effective
fracture count is `(int)nf` clamped to at least 1 and `xwD` has exactly that many entries;
for the count 1, `xwD = [0]`. For a count of at least 2, as computed in `double` arithmetic
the first position is the `double` `-0.9`, every `xwD[i]` is within `1e-15` of
`-0.9 + i * 1.8 / (nf - 1)`, and the positions are strictly increasing for every count in
the range of `int`; in exact arithmetic `xwD[i] = -0.9 + i * 1.8 / (nf - 1)`, the first
position is `-0.9`, the last is `0.9`, consecutive positions differ by `1.8 / (nf - 1)`,
and the positions are strictly increasing and symmetric about 0. -/
theorem C9_fracture_positions (p : Params F) :
    nfOf p = max 1 (toInt (value p "nf" 4))
    ∧ (xwD_double (nfOf p)).length = (nfOf p).toNat
    ∧ (nfOf p = 1 → xwD_double (nfOf p) = [0])
    ∧ (2 ≤ nfOf p →
      (xwD_double (nfOf p)).getD 0 0 = -roundDouble 0.9
      ∧ (∀ i : Nat, i < (nfOf p).toNat →
        |(xwD_double (nfOf p)).getD i 0 - (-0.9 + (i : ℚ) * 1.8 / ((nfOf p : ℚ) - 1))|
          ≤ 1e-15)
      ∧ (nfOf p ≤ 2147483647 → ∀ i j : Nat, i < j → j < (nfOf p).toNat →
        (xwD_double (nfOf p)).getD i 0 < (xwD_double (nfOf p)).getD j 0))
    ∧ (xwD (nfOf p) : List F).length = (nfOf p).toNat
    ∧ (nfOf p = 1 → (xwD (nfOf p) : List F) = [0])
    ∧ (2 ≤ nfOf p →
      (∀ i : Nat, i < (nfOf p).toNat →
        (xwD (nfOf p) : List F).getD i 0 = -0.9 + (i : F) * 1.8 / ((nfOf p : F) - 1))
      ∧ (xwD (nfOf p) : List F).getD 0 0 = -0.9
      ∧ (xwD (nfOf p) : List F).getD ((nfOf p).toNat - 1) 0 = 0.9
      ∧ (∀ i : Nat, i + 1 < (nfOf p).toNat →
        (xwD (nfOf p) : List F).getD (i + 1) 0 - (xwD (nfOf p) : List F).getD i 0
          = 1.8 / ((nfOf p : F) - 1))
      ∧ (∀ i j : Nat, i < j → j < (nfOf p).toNat →
        (xwD (nfOf p) : List F).getD i 0 < (xwD (nfOf p) : List F).getD j 0)
      ∧ (∀ i : Nat, i < (nfOf p).toNat →
        (xwD (nfOf p) : List F).getD i 0
          = -(xwD (nfOf p) : List F).getD ((nfOf p).toNat - 1 - i) 0)) := by
  have hx := xwD_exact_positions p
  refine ⟨hx.1, xwD_double_length _ (nfOf_ge_one p), ?_, ?_, hx.2.1, hx.2.2.1, hx.2.2.2⟩
  · intro h1
    rw [h1, xwD_double, if_pos rfl]
    rw [show (0.0 : ℚ) = 0 by norm_num, roundDouble_zero]
  · intro h2
    exact ⟨xwD_double_first _ h2, fun i hi => xwD_double_err _ h2 i hi,
      fun hmax i j hij hj => xwD_double_lt _ h2 hmax i j hij hj⟩

/-- Claim C9 fails as stated. With `nf = 4` the last position computed in `double`
arithmetic is `8106479329266891 / 2^53 = 0.8999999999999998`, which is neither `0.9` nor
the `double` `0.9`; the first position is not the opposite of the last, and the last two
positions differ by another amount than the first two. -/
theorem C9_counterexample :
    nfOf pC9 = 4
    ∧ (xwD_double (nfOf pC9)).getD ((nfOf pC9).toNat - 1) 0 = 8106479329266891 / 2 ^ 53
    ∧ (xwD_double (nfOf pC9)).getD ((nfOf pC9).toNat - 1) 0 ≠ 0.9
    ∧ (xwD_double (nfOf pC9)).getD ((nfOf pC9).toNat - 1) 0 ≠ roundDouble 0.9
    ∧ (xwD_double (nfOf pC9)).getD 0 0
      ≠ -(xwD_double (nfOf pC9)).getD ((nfOf pC9).toNat - 1 - 0) 0
    ∧ (xwD_double (nfOf pC9)).getD 3 0 - (xwD_double (nfOf pC9)).getD 2 0
      ≠ (xwD_double (nfOf pC9)).getD 1 0 - (xwD_double (nfOf pC9)).getD 0 0 := by
  have hnf : nfOf pC9 = 4 := by rfl
  have h3 : ((4 : Int).toNat - 1) = 3 := by decide
  rw [hnf]
  simp only [h3, Nat.sub_zero, xwD_double_4_0, xwD_double_4_1, xwD_double_4_2, xwD_double_4_3,
    roundDouble_lit]
  refine ⟨trivial, trivial, ?_, ?_, ?_, ?_⟩ <;> norm_num

/-- The fracture positions for `nf = 4`. -/
theorem C9_fracture_positions_witness :
    2 ≤ nfOf pC9
    ∧ (xwD_double (nfOf pC9)).length = (nfOf pC9).toNat
    ∧ (xwD_double (nfOf pC9)).getD 0 0 = -roundDouble 0.9
    ∧ |(xwD_double (nfOf pC9)).getD 3 0
        - (-0.9 + ((3 : Nat) : ℚ) * 1.8 / ((nfOf pC9 : ℚ) - 1))| ≤ 1e-15
    ∧ (xwD (nfOf pC9) : List ℚ).getD 0 0 = -0.9
    ∧ (xwD (nfOf pC9) : List ℚ).getD ((nfOf pC9).toNat - 1) 0 = 0.9 :=
  have h : 2 ≤ nfOf pC9 := by decide
  ⟨h, (C9_fracture_positions pC9).2.1, ((C9_fracture_positions pC9).2.2.2.1 h).1,
    ((C9_fracture_positions pC9).2.2.2.1 h).2.1 3 (by decide),
    ((C9_fracture_positions pC9).2.2.2.2.2.2 h).2.1,
    ((C9_fracture_positions pC9).2.2.2.2.2.2 h).2.2.1⟩

/-- Claim C10, as amended. For every parameter set with effective fracture count at least
2, each fracture position `xwD[i]` that `flaplace_composite` passes to `PWD_composite`
lies in `[-0.9, 0.9]` up to the rounding of `double` arithmetic, whatever the value of
`LfD`: in `[-0.9, 0.9]` in exact arithmetic, and in `[-0.9 - 1e-15, 0.9 + 1e-15]` as
computed in `double` arithmetic, where the last position for `nf = 8` is
`8106479329266895 / 2^53 = 0.9000000000000002`, above `0.9`. The positions are not scaled
by `LfD`. -/
theorem C10_positions_in_unit_range (p : Params F) (h2 : 2 ≤ nfOf p) :
    (∀ x ∈ (xwD (nfOf p) : List F), -0.9 ≤ x ∧ x ≤ 0.9)
    ∧ (∀ x ∈ xwD_double (nfOf p), -0.9 - 1e-15 ≤ x ∧ x ≤ 0.9 + 1e-15)
    ∧ (xwD_double 8).getD 7 0 = 8106479329266895 / 2 ^ 53
    ∧ (0.9 : ℚ) < (xwD_double 8).getD 7 0 := by
  refine ⟨xwD_exact_range p h2, ?_, xwD_double_8_7, ?_⟩
  · intro x hx
    obtain ⟨i, hi, rfl⟩ := List.getElem_of_mem hx
    have hlen := xwD_double_length _ (nfOf_ge_one p)
    have hi2 : i < (nfOf p).toNat := by rw [← hlen]; exact hi
    have he := xwD_double_err _ h2 i hi2
    rw [List.getD_eq_getElem?_getD, List.getElem?_eq_getElem hi, Option.getD_some, abs_le] at he
    have hpos : (0 : ℚ) < (nfOf p : ℚ) - 1 := by
      have : (2 : ℚ) ≤ (nfOf p : ℚ) := by exact_mod_cast h2
      linarith
    have hiQ : (i : ℚ) ≤ (nfOf p : ℚ) - 1 := by
      have : (i : Int) + 1 ≤ nfOf p := by omega
      have : ((i : Int) : ℚ) + 1 ≤ (nfOf p : ℚ) := by exact_mod_cast this
      have e : ((i : Int) : ℚ) = (i : ℚ) := by simp
      linarith
    have h0 : (0 : ℚ) ≤ (i : ℚ) * 1.8 / ((nfOf p : ℚ) - 1) :=
      div_nonneg (mul_nonneg (Nat.cast_nonneg i) (by norm_num)) hpos.le
    have h1 : (i : ℚ) * 1.8 / ((nfOf p : ℚ) - 1) ≤ 1.8 := by
      rw [div_le_iff₀ hpos]
      nlinarith
    norm_num at he h0 h1 ⊢
    constructor <;> linarith [he.1, he.2]
  · rw [xwD_double_8_7]
    norm_num

/-- Claim C10 fails as stated. With `nf = 2` and `LfD = 1/2` the positions are
`[-0.9, 0.9]`, in exact arithmetic and, with the `double` `0.9`, in `double` arithmetic,
and the first one is below `-0.9 * LfD = -0.45`. With `nf = 8` the last position computed
in `double` arithmetic is above `0.9`, the bound for `LfD = 1`. -/
theorem C10_counterexample :
    nfOf pC10 = 2 ∧ value pC10 "LfD" 0 = 1 / 2
    ∧ (xwD (nfOf pC10) : List ℚ) = [-9 / 10, 9 / 10]
    ∧ ¬ (-0.9 * value pC10 "LfD" 0 ≤ (-9 / 10 : ℚ))
    ∧ (xwD_double (nfOf pC10)).getD 0 0 = -(8106479329266893 / 2 ^ 53)
    ∧ (xwD_double (nfOf pC10)).getD 1 0 = 8106479329266893 / 2 ^ 53
    ∧ ¬ (-0.9 * value pC10 "LfD" 0 ≤ (xwD_double (nfOf pC10)).getD 0 0)
    ∧ ¬ ((xwD_double 8).getD 7 0 ≤ 0.9 * 1) := by
  have hnf : nfOf pC10 = 2 := by rfl
  have hL : value pC10 "LfD" 0 = 1 / 2 := rfl
  refine ⟨hnf, hL, ?_, ?_, ?_, ?_, ?_, ?_⟩
  · rw [hnf]
    simp [xwD, intLoop, List.range_succ]
    norm_num
  · rw [hL]
    norm_num
  · rw [hnf, xwD_double_2_0]
  · rw [hnf, xwD_double_2_1]
  · rw [hnf, xwD_double_2_0, hL]
    norm_num
  · rw [xwD_double_8_7]
    norm_num

/-- The range of the fracture positions for `nf = 2` and `LfD = 1/2`. -/
theorem C10_positions_in_unit_range_witness :
    2 ≤ nfOf pC10 ∧ (∀ x ∈ (xwD (nfOf pC10) : List ℚ), -0.9 ≤ x ∧ x ≤ 0.9)
    ∧ (∀ x ∈ xwD_double (nfOf pC10), -0.9 - 1e-15 ≤ x ∧ x ≤ 0.9 + 1e-15) :=
  ⟨by decide, (C10_positions_in_unit_range pC10 (by decide)).1,
    (C10_positions_in_unit_range pC10 (by decide)).2.1⟩

end Theorems

end WT1230A
